import Mathlib

/-!
# A shallow embedding of `src/inject/inject.py`

This file embeds the dependency-injection container of `inject.py` in Lean 4
and settles the frozen claims about it.

Modelling conventions, chosen to mirror the Python source line by line:

* A Python value produced by a factory is a `PyVal`: either `pyNone`
  (Python's `None`) or `obj id truthy hasFin` — an allocated object with an
  identity `id` (fresh ids come from a world counter, so "the identical
  instance" is id equality), a truthiness bit (Python's `bool(x)`, which the
  provider's `if not provider._instance:` test consults) and a bit recording
  whether the object exposes a `_finalize` attribute.  Factory bodies are
  abstracted as allocators of fresh objects; their invocation, and every
  registry lookup and teardown call, is recorded in an event log so that
  "the factory was called exactly once" is a statement about the log.
* A Python function/class object carries mutable attributes
  (`_instance_is_being_created`, `clazz._instance`, `_finalize`); these live
  in `FactoryObj`, stored in a world-level table so that the same factory
  object registered with two injectors shares them (as in Python).
* Each call of `InjectingWrapperBase.wrap` creates a fresh provider closure
  with its own `_instance`/`_generator`/`_finalize` cells; these live in
  `ProvSt`, one per registration.
* Exceptions are `Except InjErr`; Python state mutated before a raise stays
  mutated, so every operation returns `World × Except InjErr _`.
* Recursion through the registry is bottomless in Python; the embedding
  passes a fuel that is decremented exactly once per nested
  `provider()`/`get_instance` activation, and `InjErr.outOfFuel` marks
  exhaustion of the embedding's fuel (it corresponds to no Python error).
-/

set_option maxHeartbeats 1000000

namespace PyInject

/-- A Python value as far as the container can observe it: `None`, or an
allocated object with an identity, a truthiness and a `_finalize` attribute
bit. -/
inductive PyVal where
  | pyNone
  | obj (id : Nat) (truthy : Bool) (hasFin : Bool)
  deriving DecidableEq, Repr, Inhabited

/-- Python `bool(v)`. -/
def pyTruthy : PyVal → Bool
  | .pyNone => false
  | .obj _ t _ => t

/-- `hasattr(v, "_finalize")` for an instance value. -/
def PyVal.hasFinalize : PyVal → Bool
  | .pyNone => false
  | .obj _ _ hf => hf

/-- The object identity (`id(v)`); only meaningful for `obj`. -/
def PyVal.objId : PyVal → Nat
  | .pyNone => 0
  | .obj i _ _ => i

/-- How a factory body builds one value: `none` is Python `None`, `some s`
is a freshly allocated object with the given truthiness / `_finalize` bits. -/
structure ObjSpec where
  truthy : Bool
  hasFin : Bool
  deriving DecidableEq, Repr, Inhabited

/-- The three wrapper strategies chosen by `Injector._get_wrapper`. -/
inductive FacKind where
  | direct   -- FactoryInjectingWrapper (plain callable)
  | gen      -- GeneratorInjectingWrapper
  | cls      -- ClassInjectingWrapper
  deriving DecidableEq, Repr, Inhabited

/-- A Python factory function / generator function / class object, together
with the mutable attributes the wrappers store on it.  The first block of
fields is immutable (the code of the factory); `busy` models the
`_instance_is_being_created` attribute and `clsInst` models
`clazz._instance` (class strategy only). -/
structure FactoryObj where
  kind : FacKind
  fname : String                  -- `factory_func.__name__`
  params : List String            -- declared parameter names, in order
  ret : Option ObjSpec            -- direct: the value a call returns
  yields : List (Option ObjSpec)  -- generator: the values the body yields
  hasFinAttr : Bool               -- `hasattr(factory_func, "_finalize")`
  clsHasFin : Bool                -- class defines `_finalize` (instances expose it)
  delegates : List (String × Bool)  -- class body `Injected` descriptors: (name, lazy)
  busy : Bool := false            -- `_instance_is_being_created`
  clsInst : Option PyVal := none  -- `clazz._instance` (absent = attribute deleted)
  deriving DecidableEq, Repr, Inhabited

/-- The state of one provider closure made by `_get_provider_and_finalizer`
(one per `wrap` call).  `inst = pyNone` models `provider._instance = None`. -/
structure ProvSt where
  facId : Nat                -- the wrapped factory object
  reg : Nat                  -- `self.inject` (which injector's table to consult)
  svcName : String           -- `self.service_name`
  inst : PyVal := .pyNone    -- `provider._instance`
  gen : Option (List (Option ObjSpec)) := none  -- `provider._generator`: yields not yet produced
  fin : Bool := false        -- `provider._finalize` was captured
  deriving DecidableEq, Repr, Inhabited

/-- A slot of an owner instance's `__dict__` written by `Injected.init`. -/
inductive Slot where
  | valSlot (v : PyVal)   -- eager: `name + ":instance"` ↦ resolved value
  | facSlot (pid : Nat)   -- lazy: `name + ":factory"` ↦ the provider itself
  deriving DecidableEq, Repr, Inhabited

/-- Observable events, recorded append-only while the container runs. -/
inductive Event where
  | lookup (name : String) (requester : String)   -- `Injector.get(name, for_service)`
  | callFac (facId : Nat) (args : List PyVal)     -- direct factory invoked
  | callGen (facId : Nat) (args : List PyVal)     -- generator function invoked
  | callCls (facId : Nat) (args : List PyVal)     -- class constructor invoked
  | genAdvance (facId : Nat) (yielded : Bool)     -- `next(gen)`: a yield, or StopIteration
  | teardown (facId : Nat)                        -- `provider._finalize()` (direct strategy)
  | instTeardown (objId : Nat)                    -- `instance._finalize()` (class strategy)
  deriving DecidableEq, Repr, Inhabited

/-- The errors the embedded code can raise. -/
inductive InjErr where
  | notFound (name : String) (forService : String)  -- InjectionNotFoundError
  | recursive (name : String)                       -- RecursiveInjectionError
  | multipleYields                                  -- MultipleYieldsError
  | stopIteration                                   -- uncaught StopIteration (0-yield generator)
  | keyError (k : String)                           -- missing `__dict__` slot on property read
  | outOfFuel                                       -- fuel exhaustion of the embedding only
  deriving DecidableEq, Repr, Inhabited

/-- The whole mutable state: factory objects, provider closures, the
injectors' tables (`inject_table`), instance `__dict__`s, the fresh-id
counter and the event log. -/
structure World where
  facs : List FactoryObj
  provs : List ProvSt
  regs : List (List (String × Nat))   -- per injector: service name ↦ provider index
  dicts : List (Nat × List (String × Slot))  -- object id ↦ its `__dict__`
  nextId : Nat := 0
  log : List Event := []
  deriving DecidableEq, Repr, Inhabited

/-! ## Small-state helpers -/

/-- First-match association lookup (Python dict read). -/
def lookupTable : List (String × Nat) → String → Option Nat
  | [], _ => none
  | (k, v) :: rest, n => if k = n then some v else lookupTable rest n

/-- Python dict write: replace the binding if present, else append. -/
def setTable : List (String × Nat) → String → Nat → List (String × Nat)
  | [], n, pid => [(n, pid)]
  | (k, v) :: rest, n, pid =>
    if k = n then (n, pid) :: rest else (k, v) :: setTable rest n pid

def World.fac (w : World) (i : Nat) : FactoryObj := (w.facs[i]?).getD default

def World.prov (w : World) (i : Nat) : ProvSt := (w.provs[i]?).getD default

def World.table (w : World) (reg : Nat) : List (String × Nat) := (w.regs[reg]?).getD []

/-- Append one event to the log. -/
def logEv (w : World) (e : Event) : World := { w with log := w.log ++ [e] }

/-- Update one factory object in place. -/
def setFac (w : World) (i : Nat) (f : FactoryObj → FactoryObj) : World :=
  { w with facs := w.facs.set i (f (w.fac i)) }

/-- Update one provider in place. -/
def setProv (w : World) (i : Nat) (f : ProvSt → ProvSt) : World :=
  { w with provs := w.provs.set i (f (w.prov i)) }

/-- Set / delete the `_instance_is_being_created` attribute. -/
def setBusy (w : World) (facId : Nat) (b : Bool) : World :=
  setFac w facId (fun f => { f with busy := b })

/-- `w.fac facId |>.busy`, the busy flag of a factory object. -/
def busyF (w : World) (facId : Nat) : Bool := (w.fac facId).busy

/-- Allocate the value a factory body produces: Python `None`, or a fresh
object consuming one identity from the counter. -/
def allocVal (w : World) (spec : Option ObjSpec) : World × PyVal :=
  match spec with
  | none => (w, .pyNone)
  | some s => ({ w with nextId := w.nextId + 1 }, .obj w.nextId s.truthy s.hasFin)

/-- Read an instance `__dict__` slot. -/
def getDictSlot (w : World) (objId : Nat) (key : String) : Option Slot :=
  match w.dicts.find? (fun p => p.1 = objId) with
  | none => none
  | some (_, d) =>
    match d.find? (fun p => p.1 = key) with
    | none => none
    | some (_, s) => some s

/-- Write an instance `__dict__` slot. -/
def setDictSlot (w : World) (objId : Nat) (key : String) (s : Slot) : World :=
  { w with dicts :=
      w.dicts.map (fun p => if p.1 = objId then (p.1, (p.2.filter (fun q => q.1 ≠ key)) ++ [(key, s)]) else p) }

/-- `instance.__dict__.pop(key, None)`. -/
def popDictSlot (w : World) (objId : Nat) (key : String) : World :=
  { w with dicts :=
      w.dicts.map (fun p => if p.1 = objId then (p.1, p.2.filter (fun q => q.1 ≠ key)) else p) }

/-- Give a fresh object an empty `__dict__`. -/
def addDict (w : World) (objId : Nat) : World :=
  { w with dicts := w.dicts ++ [(objId, [])] }

/-! ## The embedded operations

Each definition below is the translation of one Python function of
`inject.py`; the docstring names it.  The providers recurse through the
registry, so they are parameterised by `gi`, the resolver to use for nested
`get_instance` calls; `getInstance fuel` ties the knot with `gi :=
getInstance (fuel - 1)`, structurally in the fuel. -/

/-- `Injector.get(self, name, for_service)`: look the name up in
`inject_table`, return the entry's `get_instance` (here: the provider
index), else raise `InjectionNotFoundError(name, for_service)`.  The lookup
attempt is recorded in the log. -/
def injGet (w : World) (reg : Nat) (name : String) (forService : String) :
    World × Except InjErr Nat :=
  let w1 := logEv w (.lookup name forService)
  match lookupTable (w1.table reg) name with
  | some pid => (w1, .ok pid)
  | none => (w1, .error (.notFound name forService))

/-- The `for par in signature.parameters:` loop of
`InjectingWrapperBase._get_dependencies`: for each declared parameter name,
in order, `self.inject.get(par, name)` then invoke the obtained provider and
collect the value.  The first error propagates immediately. -/
def resolveParamsWith (gi : World → Nat → World × Except InjErr PyVal) :
    World → List String → String → Nat → World × Except InjErr (List PyVal)
  | w, [], _, _ => (w, .ok [])
  | w, p :: ps, nameArg, reg =>
    match injGet w reg p nameArg with
    | (w1, .error e) => (w1, .error e)
    | (w1, .ok pid) =>
      match gi w1 pid with
      | (w2, .error e) => (w2, .error e)
      | (w2, .ok v) =>
        match resolveParamsWith gi w2 ps nameArg reg with
        | (w3, .error e) => (w3, .error e)
        | (w3, .ok vs) => (w3, .ok (v :: vs))

/-- `InjectingWrapperBase._get_dependencies(self, factory_func, name)`:
raise `RecursiveInjectionError(name)` if the factory is already marked as
being created, else mark it, resolve every declared parameter, and unmark
it.  NOTE (faithful to the source): there is no `try/finally`, so when the
loop raises, the `_instance_is_being_created` attribute is *not* removed. -/
def getDepsWith (gi : World → Nat → World × Except InjErr PyVal)
    (w : World) (facId : Nat) (nameArg : String) (reg : Nat) :
    World × Except InjErr (List PyVal) :=
  if busyF w facId then (w, .error (.recursive nameArg))
  else
    let w1 := setBusy w facId true
    match resolveParamsWith gi w1 (w1.fac facId).params nameArg reg with
    | (w2, .error e) => (w2, .error e)   -- busy flag left set, as in the source
    | (w2, .ok vs) => (setBusy w2 facId false, .ok vs)

/-- The body of `FactoryInjectingWrapper._get_provider_and_finalizer.provider`:
`if not provider._instance:` resolve dependencies, call the factory, cache
the result, and capture `factory_func._finalize` if the *factory* has one;
return `provider._instance`. -/
def directProvider (gi : World → Nat → World × Except InjErr PyVal)
    (w : World) (pid : Nat) : World × Except InjErr PyVal :=
  let p := w.prov pid
  let f := w.fac p.facId
  if pyTruthy p.inst then (w, .ok p.inst)
  else
    match getDepsWith gi w p.facId f.fname p.reg with
    | (w1, .error e) => (w1, .error e)
    | (w1, .ok vs) =>
      let (w2, v) := allocVal w1 f.ret
      let w3 := logEv w2 (.callFac p.facId vs)
      let w4 := setProv w3 pid
        (fun q => { q with inst := v, fin := if f.hasFinAttr then true else q.fin })
      (w4, .ok v)

/-- The body of `GeneratorInjectingWrapper._get_provider_and_finalizer.provider`:
`if not provider._instance:` resolve dependencies, call the generator
function (creating a generator object whose pending yields are the script),
advance it once with `next` and cache the yielded value.  A generator with
no yield raises `StopIteration` out of the provider. -/
def genProvider (gi : World → Nat → World × Except InjErr PyVal)
    (w : World) (pid : Nat) : World × Except InjErr PyVal :=
  let p := w.prov pid
  let f := w.fac p.facId
  if pyTruthy p.inst then (w, .ok p.inst)
  else
    match getDepsWith gi w p.facId f.fname p.reg with
    | (w1, .error e) => (w1, .error e)
    | (w1, .ok vs) =>
      let w2 := logEv w1 (.callGen p.facId vs)
      match f.yields with
      | [] =>
        let w3 := logEv w2 (.genAdvance p.facId false)
        (setProv w3 pid (fun q => { q with gen := some [] }), .error .stopIteration)
      | y :: rest =>
        let (w3, v) := allocVal w2 y
        let w4 := logEv w3 (.genAdvance p.facId true)
        let w5 := setProv w4 pid (fun q => { q with gen := some rest, inst := v })
        (w5, .ok v)

/-- `Injected.init(self, name, instance, factory)` followed by the loop of
`ClassInjectingWrapper._inject_delegates`: for each `Injected` descriptor,
look its name up (`self.inject.get(name, self.service_name)`); a lazy
descriptor stores the provider itself under `name + ":factory"`, an eager
one invokes it now and stores the value under `name + ":instance"`. -/
def delegateLoopWith (gi : World → Nat → World × Except InjErr PyVal) :
    World → List (String × Bool) → Nat → Nat → String → World × Except InjErr Unit
  | w, [], _, _, _ => (w, .ok ())
  | w, (dn, lz) :: rest, ownerId, reg, svcName =>
    match injGet w reg dn svcName with
    | (w1, .error e) => (w1, .error e)
    | (w1, .ok depPid) =>
      if lz then
        let w2 := setDictSlot w1 ownerId (dn ++ ":factory") (.facSlot depPid)
        delegateLoopWith gi w2 rest ownerId reg svcName
      else
        match gi w1 depPid with
        | (w2, .error e) => (w2, .error e)
        | (w2, .ok v) =>
          let w3 := setDictSlot w2 ownerId (dn ++ ":instance") (.valSlot v)
          delegateLoopWith gi w3 rest ownerId reg svcName

/-- `ClassInjectingWrapper._inject_delegates(self, clazz, instance, name)`:
the same busy-flag discipline as `_get_dependencies` (again with no
`try/finally`), around the delegate loop. -/
def injectDelegatesWith (gi : World → Nat → World × Except InjErr PyVal)
    (w : World) (facId : Nat) (ownerId : Nat) (reg : Nat) (svcName : String) :
    World × Except InjErr Unit :=
  if busyF w facId then (w, .error (.recursive svcName))
  else
    let w1 := setBusy w facId true
    match delegateLoopWith gi w1 (w1.fac facId).delegates ownerId reg svcName with
    | (w2, .error e) => (w2, .error e)   -- busy flag left set, as in the source
    | (w2, .ok ()) => (setBusy w2 facId false, .ok ())

/-- `ClassInjectingWrapper._get_provider_and_finalizer.Provider.__new__`:
if `getattr(clazz, "_instance", None) is None`, resolve the constructor's
dependencies (`_get_dependencies(clazz, self.service_name)`), instantiate
the class (a fresh, truthy instance object carrying the class's `_finalize`
bit and an empty `__dict__`), store it on the class, and initialise the
`Injected` delegates; finally return `clazz._instance`. -/
def clsProvider (gi : World → Nat → World × Except InjErr PyVal)
    (w : World) (pid : Nat) : World × Except InjErr PyVal :=
  let p := w.prov pid
  let f := w.fac p.facId
  match f.clsInst with
  | some v =>
    if v = .pyNone then (w, .error (.keyError "_instance")) else (w, .ok v)
  | none =>
    match getDepsWith gi w p.facId p.svcName p.reg with
    | (w1, .error e) => (w1, .error e)
    | (w1, .ok vs) =>
      let v : PyVal := .obj w1.nextId true f.clsHasFin
      let w2 := { w1 with nextId := w1.nextId + 1 }
      let w3 := logEv w2 (.callCls p.facId vs)
      let w4 := setFac w3 p.facId (fun g => { g with clsInst := some v })
      let w5 := addDict w4 v.objId
      match injectDelegatesWith gi w5 p.facId v.objId p.reg p.svcName with
      | (w6, .error e) => (w6, .error e)
      | (w6, .ok ()) => (w6, .ok (((w6.fac p.facId).clsInst).getD .pyNone))

/-- One activation of a provider: dispatch on the wrapper strategy chosen by
`Injector._get_wrapper`. -/
def giStep (gi : World → Nat → World × Except InjErr PyVal)
    (w : World) (pid : Nat) : World × Except InjErr PyVal :=
  match (w.fac (w.prov pid).facId).kind with
  | .direct => directProvider gi w pid
  | .gen => genProvider gi w pid
  | .cls => clsProvider gi w pid

/-- `entry.get_instance()`, with a fuel bounding the nesting depth of
provider activations. -/
def getInstance : Nat → World → Nat → World × Except InjErr PyVal
  | 0, w, _ => (w, .error .outOfFuel)
  | fuel + 1, w, pid => giStep (getInstance fuel) w pid

/-- Pop the `__dict__` key `Injected.reset` removes for one descriptor
(after `init` ran, the lazy key exists iff the descriptor is lazy; the other
stored key is `None` and popping it is a no-op). -/
def resetDelegates (w : World) (ds : List (String × Bool)) (ownerId : Nat) : World :=
  match ds with
  | [] => w
  | (dn, lz) :: rest =>
    let w1 := if lz then popDictSlot w ownerId (dn ++ ":factory")
              else popDictSlot w ownerId (dn ++ ":instance")
    resetDelegates w1 rest ownerId

/-- `entry.finalize()`: the three finalizers of
`_get_provider_and_finalizer`.
* direct: if `provider._instance is not None`, call the captured
  `provider._finalize` if any, then clear the cache;
* generator: if an instance is cached, advance the generator (a second yield
  raises `MultipleYieldsError` *before* any cleanup; `StopIteration` is the
  expected end), drop the generator, clear the cache;
* class: if `clazz._instance` exists, call the instance's `_finalize` if it
  has one, reset the delegates' slots, and delete `clazz._instance`. -/
def finalizeProv (w : World) (pid : Nat) : World × Except InjErr Unit :=
  let p := w.prov pid
  let f := w.fac p.facId
  match f.kind with
  | .direct =>
    if p.inst = .pyNone then (w, .ok ())
    else
      let w1 := if p.fin then logEv w (.teardown p.facId) else w
      (setProv w1 pid (fun q => { q with inst := .pyNone }), .ok ())
  | .gen =>
    if p.inst = .pyNone then (w, .ok ())
    else
      match p.gen with
      | none => (setProv w pid (fun q => { q with inst := .pyNone }), .ok ())
      | some remaining =>
        match remaining with
        | y :: rest =>
          let (w1, _) := allocVal w y
          let w2 := logEv w1 (.genAdvance p.facId true)
          (setProv w2 pid (fun q => { q with gen := some rest }), .error .multipleYields)
        | [] =>
          let w1 := logEv w (.genAdvance p.facId false)
          (setProv w1 pid (fun q => { q with gen := none, inst := .pyNone }), .ok ())
  | .cls =>
    match f.clsInst with
    | none => (w, .ok ())
    | some v =>
      if v = .pyNone then (w, .ok ())
      else
        let w1 := if v.hasFinalize then logEv w (.instTeardown v.objId) else w
        let w2 := resetDelegates w1 f.delegates v.objId
        (setFac w2 p.facId (fun g => { g with clsInst := none }), .ok ())

/-- The `for factory in factories:` loop of `Injector.finalize_all`; an
exception from one finalizer propagates and skips the rest. -/
def finalizeEntries (w : World) : List (String × Nat) → World × Except InjErr Unit
  | [] => (w, .ok ())
  | (_, pid) :: rest =>
    match finalizeProv w pid with
    | (w1, .ok ()) => finalizeEntries w1 rest
    | (w1, .error e) => (w1, .error e)

/-- `Injector.finalize_all(self)`. -/
def finalizeAll (w : World) (reg : Nat) : World × Except InjErr Unit :=
  finalizeEntries w (w.table reg)

/-- `InjectingWrapperBase.wrap(self, factory_func)` as far as the registry
is concerned: create a fresh provider/finalizer pair for the factory and
store it in `inject_table[name]` (replacing any previous entry).  Name
derivation (`_get_name`) is out of scope and the key is passed in. -/
def register (w : World) (reg : Nat) (name : String) (facId : Nat) (svcName : String) : World :=
  let pid := w.provs.length
  let w1 := { w with provs := w.provs ++ [({ facId := facId, reg := reg, svcName := svcName } : ProvSt)] }
  { w1 with regs := w1.regs.set reg (setTable (w1.table reg) name pid) }

/-- `Injected.__get__(self, instance, owner)`: a lazy descriptor reads the
stored provider from the owner's `__dict__` and invokes it; an eager one
returns the stored value.  A missing slot is a `KeyError`. -/
def readProp (gi : World → Nat → World × Except InjErr PyVal)
    (w : World) (facId : Nat) (ownerId : Nat) (attr : String) :
    World × Except InjErr PyVal :=
  match (w.fac facId).delegates.find? (fun d => d.1 = attr) with
  | none => (w, .error (.keyError attr))
  | some (_, lz) =>
    if lz then
      match getDictSlot w ownerId (attr ++ ":factory") with
      | some (.facSlot pid) => gi w pid
      | _ => (w, .error (.keyError (attr ++ ":factory")))
    else
      match getDictSlot w ownerId (attr ++ ":instance") with
      | some (.valSlot v) => (w, .ok v)
      | _ => (w, .error (.keyError (attr ++ ":instance")))

/-- Results of the embedded operations are compared in concrete runs. -/
instance {ε α : Type} [DecidableEq ε] [DecidableEq α] : DecidableEq (Except ε α) := fun x y =>
  match x, y with
  | .ok a, .ok b =>
    if h : a = b then .isTrue (by rw [h]) else .isFalse (by simp [h])
  | .error a, .error b =>
    if h : a = b then .isTrue (by rw [h]) else .isFalse (by simp [h])
  | .ok _, .error _ => .isFalse (by simp)
  | .error _, .ok _ => .isFalse (by simp)

/-! ## Basic facts about the state helpers -/

@[simp] theorem logEv_facs (w : World) (e : Event) : (logEv w e).facs = w.facs := rfl
@[simp] theorem logEv_provs (w : World) (e : Event) : (logEv w e).provs = w.provs := rfl
@[simp] theorem logEv_regs (w : World) (e : Event) : (logEv w e).regs = w.regs := rfl
@[simp] theorem logEv_dicts (w : World) (e : Event) : (logEv w e).dicts = w.dicts := rfl
@[simp] theorem logEv_nextId (w : World) (e : Event) : (logEv w e).nextId = w.nextId := rfl
@[simp] theorem logEv_log (w : World) (e : Event) : (logEv w e).log = w.log ++ [e] := rfl
@[simp] theorem logEv_fac (w : World) (e : Event) (i : Nat) : (logEv w e).fac i = w.fac i := rfl
@[simp] theorem logEv_prov (w : World) (e : Event) (i : Nat) : (logEv w e).prov i = w.prov i := rfl
@[simp] theorem logEv_table (w : World) (e : Event) (r : Nat) : (logEv w e).table r = w.table r := rfl

@[simp] theorem setFac_provs (w : World) (i : Nat) (f : FactoryObj → FactoryObj) :
    (setFac w i f).provs = w.provs := rfl
@[simp] theorem setFac_regs (w : World) (i : Nat) (f : FactoryObj → FactoryObj) :
    (setFac w i f).regs = w.regs := rfl
@[simp] theorem setFac_dicts (w : World) (i : Nat) (f : FactoryObj → FactoryObj) :
    (setFac w i f).dicts = w.dicts := rfl
@[simp] theorem setFac_nextId (w : World) (i : Nat) (f : FactoryObj → FactoryObj) :
    (setFac w i f).nextId = w.nextId := rfl
@[simp] theorem setFac_log (w : World) (i : Nat) (f : FactoryObj → FactoryObj) :
    (setFac w i f).log = w.log := rfl
@[simp] theorem setFac_prov (w : World) (i : Nat) (f : FactoryObj → FactoryObj) (j : Nat) :
    (setFac w i f).prov j = w.prov j := rfl
@[simp] theorem setFac_table (w : World) (i : Nat) (f : FactoryObj → FactoryObj) (r : Nat) :
    (setFac w i f).table r = w.table r := rfl
@[simp] theorem setFac_facs_length (w : World) (i : Nat) (f : FactoryObj → FactoryObj) :
    (setFac w i f).facs.length = w.facs.length := by
  simp [setFac]

theorem setFac_fac_ne (w : World) (i : Nat) (f : FactoryObj → FactoryObj) (j : Nat)
    (h : i ≠ j) : (setFac w i f).fac j = w.fac j := by
  simp [setFac, World.fac, List.getElem?_set_ne h]

theorem setFac_fac_self (w : World) (i : Nat) (f : FactoryObj → FactoryObj)
    (h : i < w.facs.length) : (setFac w i f).fac i = f (w.fac i) := by
  simp [setFac, World.fac, List.getElem?_set_eq_of_lt _ h]

theorem setFac_fac_oob (w : World) (i : Nat) (f : FactoryObj → FactoryObj)
    (h : ¬ i < w.facs.length) : (setFac w i f).fac i = w.fac i := by
  have h1 : w.facs.set i (f ((w.facs[i]?).getD default)) = w.facs :=
    List.set_eq_of_length_le (by omega)
  simp [setFac, World.fac, h1]

@[simp] theorem setProv_facs (w : World) (i : Nat) (f : ProvSt → ProvSt) :
    (setProv w i f).facs = w.facs := rfl
@[simp] theorem setProv_regs (w : World) (i : Nat) (f : ProvSt → ProvSt) :
    (setProv w i f).regs = w.regs := rfl
@[simp] theorem setProv_dicts (w : World) (i : Nat) (f : ProvSt → ProvSt) :
    (setProv w i f).dicts = w.dicts := rfl
@[simp] theorem setProv_nextId (w : World) (i : Nat) (f : ProvSt → ProvSt) :
    (setProv w i f).nextId = w.nextId := rfl
@[simp] theorem setProv_log (w : World) (i : Nat) (f : ProvSt → ProvSt) :
    (setProv w i f).log = w.log := rfl
@[simp] theorem setProv_fac (w : World) (i : Nat) (f : ProvSt → ProvSt) (j : Nat) :
    (setProv w i f).fac j = w.fac j := rfl
@[simp] theorem setProv_table (w : World) (i : Nat) (f : ProvSt → ProvSt) (r : Nat) :
    (setProv w i f).table r = w.table r := rfl
@[simp] theorem setProv_provs_length (w : World) (i : Nat) (f : ProvSt → ProvSt) :
    (setProv w i f).provs.length = w.provs.length := by
  simp [setProv]

theorem setProv_prov_ne (w : World) (i : Nat) (f : ProvSt → ProvSt) (j : Nat)
    (h : i ≠ j) : (setProv w i f).prov j = w.prov j := by
  simp [setProv, World.prov, List.getElem?_set_ne h]

theorem setProv_prov_self (w : World) (i : Nat) (f : ProvSt → ProvSt)
    (h : i < w.provs.length) : (setProv w i f).prov i = f (w.prov i) := by
  simp [setProv, World.prov, List.getElem?_set_eq_of_lt _ h]

theorem setProv_prov_oob (w : World) (i : Nat) (f : ProvSt → ProvSt)
    (h : ¬ i < w.provs.length) : (setProv w i f).prov i = w.prov i := by
  have h1 : w.provs.set i (f ((w.provs[i]?).getD default)) = w.provs :=
    List.set_eq_of_length_le (by omega)
  simp [setProv, World.prov, h1]

@[simp] theorem setBusy_provs (w : World) (i : Nat) (b : Bool) :
    (setBusy w i b).provs = w.provs := rfl
@[simp] theorem setBusy_regs (w : World) (i : Nat) (b : Bool) :
    (setBusy w i b).regs = w.regs := rfl
@[simp] theorem setBusy_dicts (w : World) (i : Nat) (b : Bool) :
    (setBusy w i b).dicts = w.dicts := rfl
@[simp] theorem setBusy_nextId (w : World) (i : Nat) (b : Bool) :
    (setBusy w i b).nextId = w.nextId := rfl
@[simp] theorem setBusy_log (w : World) (i : Nat) (b : Bool) :
    (setBusy w i b).log = w.log := rfl
@[simp] theorem setBusy_prov (w : World) (i : Nat) (b : Bool) (j : Nat) :
    (setBusy w i b).prov j = w.prov j := rfl
@[simp] theorem setBusy_table (w : World) (i : Nat) (b : Bool) (r : Nat) :
    (setBusy w i b).table r = w.table r := rfl
@[simp] theorem setBusy_facs_length (w : World) (i : Nat) (b : Bool) :
    (setBusy w i b).facs.length = w.facs.length := by
  simp [setBusy]

theorem setBusy_fac_ne (w : World) (i : Nat) (b : Bool) (j : Nat) (h : i ≠ j) :
    (setBusy w i b).fac j = w.fac j := setFac_fac_ne w i _ j h

theorem setBusy_fac_self (w : World) (i : Nat) (b : Bool) (h : i < w.facs.length) :
    (setBusy w i b).fac i = { w.fac i with busy := b } := setFac_fac_self w i _ h

@[simp] theorem busyF_setBusy_self (w : World) (i : Nat) (b : Bool) (h : i < w.facs.length) :
    busyF (setBusy w i b) i = b := by
  simp [busyF, setBusy_fac_self w i b h]

theorem busyF_setBusy_ne (w : World) (i : Nat) (b : Bool) (j : Nat) (h : i ≠ j) :
    busyF (setBusy w i b) j = busyF w j := by
  simp [busyF, setBusy_fac_ne w i b j h]

@[simp] theorem setDictSlot_facs (w : World) (o : Nat) (k : String) (s : Slot) :
    (setDictSlot w o k s).facs = w.facs := rfl
@[simp] theorem setDictSlot_provs (w : World) (o : Nat) (k : String) (s : Slot) :
    (setDictSlot w o k s).provs = w.provs := rfl
@[simp] theorem setDictSlot_regs (w : World) (o : Nat) (k : String) (s : Slot) :
    (setDictSlot w o k s).regs = w.regs := rfl
@[simp] theorem setDictSlot_nextId (w : World) (o : Nat) (k : String) (s : Slot) :
    (setDictSlot w o k s).nextId = w.nextId := rfl
@[simp] theorem setDictSlot_log (w : World) (o : Nat) (k : String) (s : Slot) :
    (setDictSlot w o k s).log = w.log := rfl
@[simp] theorem setDictSlot_fac (w : World) (o : Nat) (k : String) (s : Slot) (j : Nat) :
    (setDictSlot w o k s).fac j = w.fac j := rfl
@[simp] theorem setDictSlot_prov (w : World) (o : Nat) (k : String) (s : Slot) (j : Nat) :
    (setDictSlot w o k s).prov j = w.prov j := rfl
@[simp] theorem setDictSlot_table (w : World) (o : Nat) (k : String) (s : Slot) (r : Nat) :
    (setDictSlot w o k s).table r = w.table r := rfl

@[simp] theorem popDictSlot_facs (w : World) (o : Nat) (k : String) :
    (popDictSlot w o k).facs = w.facs := rfl
@[simp] theorem popDictSlot_provs (w : World) (o : Nat) (k : String) :
    (popDictSlot w o k).provs = w.provs := rfl
@[simp] theorem popDictSlot_regs (w : World) (o : Nat) (k : String) :
    (popDictSlot w o k).regs = w.regs := rfl
@[simp] theorem popDictSlot_log (w : World) (o : Nat) (k : String) :
    (popDictSlot w o k).log = w.log := rfl
@[simp] theorem popDictSlot_fac (w : World) (o : Nat) (k : String) (j : Nat) :
    (popDictSlot w o k).fac j = w.fac j := rfl
@[simp] theorem popDictSlot_prov (w : World) (o : Nat) (k : String) (j : Nat) :
    (popDictSlot w o k).prov j = w.prov j := rfl
@[simp] theorem popDictSlot_nextId (w : World) (o : Nat) (k : String) :
    (popDictSlot w o k).nextId = w.nextId := rfl
@[simp] theorem popDictSlot_table (w : World) (o : Nat) (k : String) (r : Nat) :
    (popDictSlot w o k).table r = w.table r := rfl

@[simp] theorem addDict_facs (w : World) (o : Nat) : (addDict w o).facs = w.facs := rfl
@[simp] theorem addDict_provs (w : World) (o : Nat) : (addDict w o).provs = w.provs := rfl
@[simp] theorem addDict_regs (w : World) (o : Nat) : (addDict w o).regs = w.regs := rfl
@[simp] theorem addDict_log (w : World) (o : Nat) : (addDict w o).log = w.log := rfl
@[simp] theorem addDict_fac (w : World) (o : Nat) (j : Nat) : (addDict w o).fac j = w.fac j := rfl
@[simp] theorem addDict_prov (w : World) (o : Nat) (j : Nat) : (addDict w o).prov j = w.prov j := rfl
@[simp] theorem addDict_nextId (w : World) (o : Nat) : (addDict w o).nextId = w.nextId := rfl
@[simp] theorem addDict_table (w : World) (o : Nat) (r : Nat) : (addDict w o).table r = w.table r := rfl

@[simp] theorem allocVal_none (w : World) : allocVal w none = (w, .pyNone) := rfl
@[simp] theorem allocVal_some (w : World) (s : ObjSpec) :
    allocVal w (some s) = ({ w with nextId := w.nextId + 1 }, .obj w.nextId s.truthy s.hasFin) := rfl

@[simp] theorem busyF_logEv (w : World) (e : Event) (i : Nat) :
    busyF (logEv w e) i = busyF w i := rfl
@[simp] theorem busyF_setProv (w : World) (j : Nat) (f : ProvSt → ProvSt) (i : Nat) :
    busyF (setProv w j f) i = busyF w i := rfl
@[simp] theorem busyF_setDictSlot (w : World) (o : Nat) (k : String) (s : Slot) (i : Nat) :
    busyF (setDictSlot w o k s) i = busyF w i := rfl
@[simp] theorem busyF_addDict (w : World) (o : Nat) (i : Nat) :
    busyF (addDict w o) i = busyF w i := rfl

/-! ## World evolution

Running providers and finalizers mutates caches, busy flags, `__dict__`s and
the log, but never the registries, the code of the factories, or the
identity fields of the providers.  `Evolves w w'` packages this frame
condition; it holds between any world and the world after any embedded
operation except `register`. -/

/-- The immutable "code" part of a factory object. -/
def facShape (f : FactoryObj) :
    FacKind × String × List String × Option ObjSpec × List (Option ObjSpec) × Bool × Bool ×
      List (String × Bool) :=
  (f.kind, f.fname, f.params, f.ret, f.yields, f.hasFinAttr, f.clsHasFin, f.delegates)

/-- The immutable part of a provider closure. -/
def provShape (p : ProvSt) : Nat × Nat × String := (p.facId, p.reg, p.svcName)

structure Evolves (w w' : World) : Prop where
  regs_eq : w'.regs = w.regs
  facs_len : w'.facs.length = w.facs.length
  fac_shape : ∀ i, facShape (w'.fac i) = facShape (w.fac i)
  provs_len : w'.provs.length = w.provs.length
  prov_shape : ∀ i, provShape (w'.prov i) = provShape (w.prov i)
  log_mono : ∃ es, w'.log = w.log ++ es

namespace Evolves

theorem rfl (w : World) : Evolves w w :=
  ⟨Eq.refl _, Eq.refl _, fun _ => Eq.refl _, Eq.refl _, fun _ => Eq.refl _, ⟨[], by simp⟩⟩

theorem trans {w1 w2 w3 : World} (a : Evolves w1 w2) (b : Evolves w2 w3) : Evolves w1 w3 := by
  refine ⟨b.regs_eq.trans a.regs_eq, b.facs_len.trans a.facs_len,
    fun i => (b.fac_shape i).trans (a.fac_shape i),
    b.provs_len.trans a.provs_len,
    fun i => (b.prov_shape i).trans (a.prov_shape i), ?_⟩
  obtain ⟨es1, h1⟩ := a.log_mono
  obtain ⟨es2, h2⟩ := b.log_mono
  exact ⟨es1 ++ es2, by rw [h2, h1, List.append_assoc]⟩

theorem table_eq {w w' : World} (h : Evolves w w') (r : Nat) : w'.table r = w.table r := by
  simp [World.table, h.regs_eq]

theorem fac_kind {w w' : World} (h : Evolves w w') (i : Nat) :
    (w'.fac i).kind = (w.fac i).kind := congrArg (·.1) (h.fac_shape i)

theorem fac_fname {w w' : World} (h : Evolves w w') (i : Nat) :
    (w'.fac i).fname = (w.fac i).fname := congrArg (·.2.1) (h.fac_shape i)

theorem fac_params {w w' : World} (h : Evolves w w') (i : Nat) :
    (w'.fac i).params = (w.fac i).params := congrArg (·.2.2.1) (h.fac_shape i)

theorem fac_ret {w w' : World} (h : Evolves w w') (i : Nat) :
    (w'.fac i).ret = (w.fac i).ret := congrArg (·.2.2.2.1) (h.fac_shape i)

theorem fac_yields {w w' : World} (h : Evolves w w') (i : Nat) :
    (w'.fac i).yields = (w.fac i).yields := congrArg (·.2.2.2.2.1) (h.fac_shape i)

theorem fac_hasFinAttr {w w' : World} (h : Evolves w w') (i : Nat) :
    (w'.fac i).hasFinAttr = (w.fac i).hasFinAttr := congrArg (·.2.2.2.2.2.1) (h.fac_shape i)

theorem fac_delegates {w w' : World} (h : Evolves w w') (i : Nat) :
    (w'.fac i).delegates = (w.fac i).delegates := congrArg (·.2.2.2.2.2.2.2) (h.fac_shape i)

theorem prov_facId {w w' : World} (h : Evolves w w') (i : Nat) :
    (w'.prov i).facId = (w.prov i).facId := congrArg (·.1) (h.prov_shape i)

theorem prov_reg {w w' : World} (h : Evolves w w') (i : Nat) :
    (w'.prov i).reg = (w.prov i).reg := congrArg (·.2.1) (h.prov_shape i)

theorem prov_svc {w w' : World} (h : Evolves w w') (i : Nat) :
    (w'.prov i).svcName = (w.prov i).svcName := congrArg (·.2.2) (h.prov_shape i)

end Evolves

theorem evolves_logEv (w : World) (e : Event) : Evolves w (logEv w e) :=
  ⟨rfl, rfl, fun _ => rfl, rfl, fun _ => rfl, ⟨[e], rfl⟩⟩

theorem evolves_setDictSlot (w : World) (o : Nat) (k : String) (s : Slot) :
    Evolves w (setDictSlot w o k s) :=
  ⟨rfl, rfl, fun _ => rfl, rfl, fun _ => rfl, ⟨[], by simp⟩⟩

theorem evolves_popDictSlot (w : World) (o : Nat) (k : String) :
    Evolves w (popDictSlot w o k) :=
  ⟨rfl, rfl, fun _ => rfl, rfl, fun _ => rfl, ⟨[], by simp⟩⟩

theorem evolves_addDict (w : World) (o : Nat) : Evolves w (addDict w o) :=
  ⟨rfl, rfl, fun _ => rfl, rfl, fun _ => rfl, ⟨[], by simp⟩⟩

theorem evolves_nextId (w : World) : Evolves w { w with nextId := w.nextId + 1 } :=
  ⟨rfl, rfl, fun _ => rfl, rfl, fun _ => rfl, ⟨[], by simp⟩⟩

theorem evolves_allocVal (w : World) (s : Option ObjSpec) : Evolves w (allocVal w s).1 := by
  cases s with
  | none => exact Evolves.rfl w
  | some s => exact evolves_nextId w

theorem evolves_setFac (w : World) (i : Nat) (f : FactoryObj → FactoryObj)
    (hf : ∀ g, facShape (f g) = facShape g) : Evolves w (setFac w i f) := by
  refine ⟨rfl, by simp, fun j => ?_, rfl, fun _ => rfl, ⟨[], by simp⟩⟩
  by_cases hij : i = j
  · subst hij
    by_cases hlen : i < w.facs.length
    · rw [setFac_fac_self w i f hlen, hf]
    · rw [setFac_fac_oob w i f hlen]
  · rw [setFac_fac_ne w i f j hij]

theorem evolves_setBusy (w : World) (i : Nat) (b : Bool) : Evolves w (setBusy w i b) :=
  evolves_setFac w i _ (fun g => by simp [facShape])

theorem evolves_setClsInst (w : World) (i : Nat) (v : Option PyVal) :
    Evolves w (setFac w i (fun g => { g with clsInst := v })) :=
  evolves_setFac w i _ (fun g => by simp [facShape])

theorem evolves_setProv (w : World) (i : Nat) (f : ProvSt → ProvSt)
    (hf : ∀ q, provShape (f q) = provShape q) : Evolves w (setProv w i f) := by
  refine ⟨rfl, rfl, fun _ => rfl, by simp, fun j => ?_, ⟨[], by simp⟩⟩
  by_cases hij : i = j
  · subst hij
    by_cases hlen : i < w.provs.length
    · rw [setProv_prov_self w i f hlen, hf]
    · rw [setProv_prov_oob w i f hlen]
  · rw [setProv_prov_ne w i f j hij]

/-- Updating only the mutable cells of a provider evolves the world. -/
theorem evolves_setProvFields (w : World) (i : Nat) (A : ProvSt → PyVal)
    (B : ProvSt → Option (List (Option ObjSpec))) (C : ProvSt → Bool) :
    Evolves w (setProv w i (fun q => { q with inst := A q, gen := B q, fin := C q })) :=
  evolves_setProv w i _ (fun _ => Eq.refl _)

theorem evolves_injGet (w : World) (reg : Nat) (name forService : String) :
    Evolves w (injGet w reg name forService).1 := by
  simp only [injGet]
  cases lookupTable ((logEv w (.lookup name forService)).table reg) name <;>
    exact evolves_logEv w _

/-- A resolver whose every run only evolves the world. -/
def EvolvesFun (gi : World → Nat → World × Except InjErr PyVal) : Prop :=
  ∀ w pid, Evolves w (gi w pid).1

theorem evolves_resolveParams {gi} (hgi : EvolvesFun gi) :
    ∀ (ps : List String) (w : World) (nameArg : String) (reg : Nat),
      Evolves w (resolveParamsWith gi w ps nameArg reg).1 := by
  intro ps
  induction ps with
  | nil => intro w nameArg reg; exact Evolves.rfl w
  | cons p ps ih =>
    intro w nameArg reg
    unfold resolveParamsWith
    split
    next w1 e heq =>
      have := evolves_injGet w reg p nameArg; rwa [heq] at this
    next w1 pid heq =>
      have e1 : Evolves w w1 := by have := evolves_injGet w reg p nameArg; rwa [heq] at this
      split
      next w2 e heq2 =>
        have e2 : Evolves w1 w2 := by have := hgi w1 pid; rwa [heq2] at this
        exact e1.trans e2
      next w2 v heq2 =>
        have e2 : Evolves w1 w2 := by have := hgi w1 pid; rwa [heq2] at this
        split
        next w3 e heq3 =>
          have e3 : Evolves w2 w3 := by have := ih w2 nameArg reg; rwa [heq3] at this
          exact (e1.trans e2).trans e3
        next w3 vs heq3 =>
          have e3 : Evolves w2 w3 := by have := ih w2 nameArg reg; rwa [heq3] at this
          exact (e1.trans e2).trans e3

theorem evolves_getDeps {gi} (hgi : EvolvesFun gi) (w : World) (facId : Nat)
    (nameArg : String) (reg : Nat) : Evolves w (getDepsWith gi w facId nameArg reg).1 := by
  unfold getDepsWith
  dsimp only
  split
  · exact Evolves.rfl w
  · split
    next w2 e heq =>
      have := evolves_resolveParams hgi ((setBusy w facId true).fac facId).params
        (setBusy w facId true) nameArg reg
      rw [heq] at this
      exact (evolves_setBusy w facId true).trans this
    next w2 vs heq =>
      have e2 : Evolves (setBusy w facId true) w2 := by
        have := evolves_resolveParams hgi ((setBusy w facId true).fac facId).params
          (setBusy w facId true) nameArg reg
        rwa [heq] at this
      exact ((evolves_setBusy w facId true).trans e2).trans (evolves_setBusy w2 facId false)

theorem evolves_delegateLoop {gi} (hgi : EvolvesFun gi) :
    ∀ (ds : List (String × Bool)) (w : World) (ownerId reg : Nat) (svcName : String),
      Evolves w (delegateLoopWith gi w ds ownerId reg svcName).1 := by
  intro ds
  induction ds with
  | nil => intro w ownerId reg svcName; exact Evolves.rfl w
  | cons d ds ih =>
    intro w ownerId reg svcName
    rcases d with ⟨dn, lz⟩
    unfold delegateLoopWith
    split
    next w1 e heq =>
      have := evolves_injGet w reg dn svcName; rwa [heq] at this
    next w1 depPid heq =>
      have e1 : Evolves w w1 := by have := evolves_injGet w reg dn svcName; rwa [heq] at this
      split
      · exact (e1.trans (evolves_setDictSlot w1 ownerId (dn ++ ":factory")
          (.facSlot depPid))).trans (ih _ ownerId reg svcName)
      · split
        next w2 e heq2 =>
          have e2 : Evolves w1 w2 := by have := hgi w1 depPid; rwa [heq2] at this
          exact e1.trans e2
        next w2 v heq2 =>
          have e2 : Evolves w1 w2 := by have := hgi w1 depPid; rwa [heq2] at this
          exact ((e1.trans e2).trans
            (evolves_setDictSlot w2 ownerId (dn ++ ":instance") (.valSlot v))).trans
            (ih _ ownerId reg svcName)

theorem evolves_injectDelegates {gi} (hgi : EvolvesFun gi) (w : World) (facId ownerId reg : Nat)
    (svcName : String) : Evolves w (injectDelegatesWith gi w facId ownerId reg svcName).1 := by
  unfold injectDelegatesWith
  dsimp only
  split
  · exact Evolves.rfl w
  · rcases heq : delegateLoopWith gi (setBusy w facId true)
        ((setBusy w facId true).fac facId).delegates ownerId reg svcName with ⟨w2, r2⟩
    have e2 : Evolves (setBusy w facId true) w2 := by
      have := evolves_delegateLoop hgi ((setBusy w facId true).fac facId).delegates
        (setBusy w facId true) ownerId reg svcName
      rwa [heq] at this
    cases r2 with
    | error e => exact (evolves_setBusy w facId true).trans e2
    | ok u =>
      cases u
      exact ((evolves_setBusy w facId true).trans e2).trans (evolves_setBusy w2 facId false)

theorem evolves_directProvider {gi} (hgi : EvolvesFun gi) (w : World) (pid : Nat) :
    Evolves w (directProvider gi w pid).1 := by
  unfold directProvider
  dsimp only
  split
  · exact Evolves.rfl w
  · rcases heq : getDepsWith gi w (w.prov pid).facId (w.fac (w.prov pid).facId).fname
        (w.prov pid).reg with ⟨w1, r1⟩
    have e1 : Evolves w w1 := by
      have := evolves_getDeps hgi w (w.prov pid).facId (w.fac (w.prov pid).facId).fname
        (w.prov pid).reg
      rwa [heq] at this
    cases r1 with
    | error e => exact e1
    | ok vs =>
      dsimp only
      rcases heq2 : allocVal w1 (w.fac (w.prov pid).facId).ret with ⟨w2, v⟩
      have e2 : Evolves w1 w2 := by
        have := evolves_allocVal w1 (w.fac (w.prov pid).facId).ret; rwa [heq2] at this
      exact ((e1.trans e2).trans (evolves_logEv w2 _)).trans
        (evolves_setProvFields _ pid _ _ _)

theorem evolves_genProvider {gi} (hgi : EvolvesFun gi) (w : World) (pid : Nat) :
    Evolves w (genProvider gi w pid).1 := by
  unfold genProvider
  dsimp only
  split
  · exact Evolves.rfl w
  · rcases heq : getDepsWith gi w (w.prov pid).facId (w.fac (w.prov pid).facId).fname
        (w.prov pid).reg with ⟨w1, r1⟩
    have e1 : Evolves w w1 := by
      have := evolves_getDeps hgi w (w.prov pid).facId (w.fac (w.prov pid).facId).fname
        (w.prov pid).reg
      rwa [heq] at this
    cases r1 with
    | error e => exact e1
    | ok vs =>
      dsimp only
      cases hy : (w.fac (w.prov pid).facId).yields with
      | nil =>
        dsimp only
        exact ((e1.trans (evolves_logEv w1 _)).trans (evolves_logEv _ _)).trans
          (evolves_setProvFields _ pid _ _ _)
      | cons y rest =>
        dsimp only
        rcases heq2 : allocVal (logEv w1 (.callGen (w.prov pid).facId vs)) y with ⟨w3, v⟩
        have e2 : Evolves (logEv w1 (.callGen (w.prov pid).facId vs)) w3 := by
          have := evolves_allocVal (logEv w1 (.callGen (w.prov pid).facId vs)) y
          rwa [heq2] at this
        exact (((e1.trans (evolves_logEv w1 _)).trans e2).trans (evolves_logEv w3 _)).trans
          (evolves_setProvFields _ pid _ _ _)

theorem evolves_clsProvider {gi} (hgi : EvolvesFun gi) (w : World) (pid : Nat) :
    Evolves w (clsProvider gi w pid).1 := by
  unfold clsProvider
  dsimp only
  cases hc : (w.fac (w.prov pid).facId).clsInst with
  | some v => dsimp only; split <;> exact Evolves.rfl w
  | none =>
    dsimp only
    rcases heq : getDepsWith gi w (w.prov pid).facId (w.prov pid).svcName (w.prov pid).reg
      with ⟨w1, r1⟩
    have e1 : Evolves w w1 := by
      have := evolves_getDeps hgi w (w.prov pid).facId (w.prov pid).svcName (w.prov pid).reg
      rwa [heq] at this
    cases r1 with
    | error e => exact e1
    | ok vs =>
      dsimp only
      have e2 : Evolves w1 (addDict (setFac (logEv { w1 with nextId := w1.nextId + 1 }
          (.callCls (w.prov pid).facId vs)) (w.prov pid).facId
          (fun g => { g with clsInst := some (.obj w1.nextId true
            (w.fac (w.prov pid).facId).clsHasFin) }))
          (PyVal.objId (.obj w1.nextId true (w.fac (w.prov pid).facId).clsHasFin))) :=
        (((evolves_nextId w1).trans (evolves_logEv _ _)).trans
          (evolves_setClsInst _ _ _)).trans (evolves_addDict _ _)
      rcases heq3 : injectDelegatesWith gi (addDict (setFac
          (logEv { w1 with nextId := w1.nextId + 1 } (.callCls (w.prov pid).facId vs))
          (w.prov pid).facId (fun g => { g with clsInst := some (.obj w1.nextId true
            (w.fac (w.prov pid).facId).clsHasFin) }))
          (PyVal.objId (.obj w1.nextId true (w.fac (w.prov pid).facId).clsHasFin)))
          (w.prov pid).facId
          (PyVal.objId (.obj w1.nextId true (w.fac (w.prov pid).facId).clsHasFin))
          (w.prov pid).reg (w.prov pid).svcName with ⟨w3, r3⟩
      have e3 := evolves_injectDelegates hgi (addDict (setFac
          (logEv { w1 with nextId := w1.nextId + 1 } (.callCls (w.prov pid).facId vs))
          (w.prov pid).facId (fun g => { g with clsInst := some (.obj w1.nextId true
            (w.fac (w.prov pid).facId).clsHasFin) }))
          (PyVal.objId (.obj w1.nextId true (w.fac (w.prov pid).facId).clsHasFin)))
          (w.prov pid).facId
          (PyVal.objId (.obj w1.nextId true (w.fac (w.prov pid).facId).clsHasFin))
          (w.prov pid).reg (w.prov pid).svcName
      rw [heq3] at e3
      cases r3 with
      | error e => exact (e1.trans e2).trans e3
      | ok u => cases u; exact (e1.trans e2).trans e3

theorem evolves_giStep {gi} (hgi : EvolvesFun gi) (w : World) (pid : Nat) :
    Evolves w (giStep gi w pid).1 := by
  unfold giStep
  cases (w.fac (w.prov pid).facId).kind with
  | direct => exact evolves_directProvider hgi w pid
  | gen => exact evolves_genProvider hgi w pid
  | cls => exact evolves_clsProvider hgi w pid

theorem evolves_getInstance : ∀ (fuel : Nat), EvolvesFun (getInstance fuel) := by
  intro fuel
  induction fuel with
  | zero => intro w pid; exact Evolves.rfl w
  | succ fuel ih => intro w pid; exact evolves_giStep ih w pid

theorem evolves_resetDelegates :
    ∀ (ds : List (String × Bool)) (w : World) (ownerId : Nat),
      Evolves w (resetDelegates w ds ownerId) := by
  intro ds
  induction ds with
  | nil => intro w ownerId; exact Evolves.rfl w
  | cons d ds ih =>
    intro w ownerId
    rcases d with ⟨dn, lz⟩
    unfold resetDelegates
    cases lz with
    | true =>
      simp only [if_true]
      exact (evolves_popDictSlot w ownerId (dn ++ ":factory")).trans (ih _ ownerId)
    | false =>
      simp only [if_false, Bool.false_eq_true]
      exact (evolves_popDictSlot w ownerId (dn ++ ":instance")).trans (ih _ ownerId)

theorem evolves_finalizeProv (w : World) (pid : Nat) : Evolves w (finalizeProv w pid).1 := by
  unfold finalizeProv
  dsimp only
  cases hk : (w.fac (w.prov pid).facId).kind with
  | direct =>
    dsimp only
    split
    · exact Evolves.rfl w
    · split
      · dsimp only
        exact (evolves_logEv w _).trans (evolves_setProvFields _ pid _ _ _)
      · dsimp only
        exact evolves_setProvFields _ pid _ _ _
  | gen =>
    dsimp only
    split
    · exact Evolves.rfl w
    · cases hg : (w.prov pid).gen with
      | none =>
        dsimp only
        exact evolves_setProvFields _ pid _ _ _
      | some remaining =>
        dsimp only
        cases remaining with
        | cons y rest =>
          dsimp only
          rcases heq : allocVal w y with ⟨w1, v⟩
          have e1 : Evolves w w1 := by have := evolves_allocVal w y; rwa [heq] at this
          exact (e1.trans (evolves_logEv w1 _)).trans
            (evolves_setProvFields _ pid _ _ _)
        | nil =>
          dsimp only
          exact (evolves_logEv w _).trans (evolves_setProvFields _ pid _ _ _)
  | cls =>
    dsimp only
    cases hc : (w.fac (w.prov pid).facId).clsInst with
    | none => exact Evolves.rfl w
    | some v =>
      dsimp only
      split
      · exact Evolves.rfl w
      · split
        · dsimp only
          exact ((evolves_logEv w _).trans (evolves_resetDelegates _ _ _)).trans
            (evolves_setClsInst _ _ _)
        · dsimp only
          exact (evolves_resetDelegates _ _ _).trans (evolves_setClsInst _ _ _)

theorem evolves_finalizeEntries :
    ∀ (entries : List (String × Nat)) (w : World), Evolves w (finalizeEntries w entries).1 := by
  intro entries
  induction entries with
  | nil => intro w; exact Evolves.rfl w
  | cons e rest ih =>
    intro w
    rcases e with ⟨n, pid⟩
    unfold finalizeEntries
    rcases heq : finalizeProv w pid with ⟨w1, r1⟩
    have e1 : Evolves w w1 := by have := evolves_finalizeProv w pid; rwa [heq] at this
    cases r1 with
    | ok u => cases u; exact e1.trans (ih w1)
    | error e => exact e1

theorem evolves_finalizeAll (w : World) (reg : Nat) : Evolves w (finalizeAll w reg).1 :=
  evolves_finalizeEntries (w.table reg) w

/-! ## The busy flag as a lock

While a factory object is marked `_instance_is_being_created`, no provider
activation can invoke it (the cycle check fires first), and only the
`_get_dependencies` activation that set the flag can remove it.  Hence:
while the flag is set, nested resolution neither clears it nor calls that
factory; and a resolution that returns normally leaves every busy flag
exactly as it found it. -/

/-- Number of invocations of the direct factory `fid` recorded in a log. -/
def countFacEv (fid : Nat) : List Event → Nat
  | [] => 0
  | .callFac g _ :: rest => (if g = fid then 1 else 0) + countFacEv fid rest
  | _ :: rest => countFacEv fid rest

theorem countFacEv_append (fid : Nat) :
    ∀ (l1 l2 : List Event), countFacEv fid (l1 ++ l2) = countFacEv fid l1 + countFacEv fid l2 := by
  intro l1 l2
  induction l1 with
  | nil => simp [countFacEv]
  | cons e rest ih => cases e <;> simp [countFacEv, ih] <;> omega

theorem setBusy_oob (w : World) (i : Nat) (b : Bool) (h : ¬ i < w.facs.length) :
    setBusy w i b = w := by
  simp only [setBusy, setFac]
  rw [List.set_eq_of_length_le (le_of_not_lt h)]

@[simp] theorem injGet_fst (w : World) (reg : Nat) (n fs : String) :
    (injGet w reg n fs).1 = logEv w (.lookup n fs) := by
  unfold injGet
  dsimp only
  simp only [logEv_table]
  cases lookupTable (w.table reg) n <;> rfl

/-- `injGet` fully characterised. -/
theorem injGet_eq (w : World) (reg : Nat) (n fs : String) :
    injGet w reg n fs = (logEv w (.lookup n fs),
      match lookupTable (w.table reg) n with
      | some pid => .ok pid
      | none => .error (.notFound n fs)) := by
  unfold injGet
  dsimp only
  simp only [logEv_table]
  cases lookupTable (w.table reg) n <;> rfl

/-- The two lock properties of a resolver: while any busy flag is set it
stays set and its factory is not invoked; and a run that ends in `ok`
restores every busy flag. -/
def BusyOk (gi : World → Nat → World × Except InjErr PyVal) : Prop :=
  ∀ w pid,
    (∀ fid, busyF w fid = true →
      busyF (gi w pid).1 fid = true ∧
      countFacEv fid ((gi w pid).1).log = countFacEv fid w.log) ∧
    (∀ w' v, gi w pid = (w', .ok v) → ∀ fid, busyF w' fid = busyF w fid)

theorem busyOk_resolveParams {gi} (hgi : BusyOk gi) :
    ∀ (ps : List String) (w : World) (nameArg : String) (reg : Nat),
      (∀ fid, busyF w fid = true →
        busyF (resolveParamsWith gi w ps nameArg reg).1 fid = true ∧
        countFacEv fid ((resolveParamsWith gi w ps nameArg reg).1).log = countFacEv fid w.log) ∧
      (∀ w' vs, resolveParamsWith gi w ps nameArg reg = (w', .ok vs) →
        ∀ fid, busyF w' fid = busyF w fid) := by
  intro ps
  induction ps with
  | nil =>
    intro w nameArg reg
    refine ⟨fun fid h => ⟨h, rfl⟩, fun w' vs h fid => ?_⟩
    simp only [resolveParamsWith] at h
    cases h
    rfl
  | cons p ps ih =>
    intro w nameArg reg
    unfold resolveParamsWith
    rw [injGet_eq w reg p nameArg]
    cases hl : lookupTable (w.table reg) p with
    | none =>
      refine ⟨fun fid h => ⟨h, by simp [countFacEv_append, countFacEv]⟩, fun w' vs h => ?_⟩
      simp at h
    | some pid =>
      dsimp only
      rcases h2 : gi (logEv w (.lookup p nameArg)) pid with ⟨w2, r2⟩
      have hb2 := (hgi (logEv w (.lookup p nameArg)) pid)
      cases r2 with
      | error e =>
        refine ⟨fun fid h => ?_, fun w' vs h => ?_⟩
        · have := (hb2.1 fid (by simpa using h))
          rw [h2] at this
          refine ⟨this.1, ?_⟩
          rw [this.2]
          simp [countFacEv_append, countFacEv]
        · simp at h
      | ok v =>
        dsimp only
        rcases h3 : resolveParamsWith gi w2 ps nameArg reg with ⟨w3, r3⟩
        have hb3 := ih w2 nameArg reg
        rw [h3] at hb3
        cases r3 with
        | error e =>
          refine ⟨fun fid h => ?_, fun w' vs h => ?_⟩
          · have s2 := (hb2.1 fid (by simpa using h))
            rw [h2] at s2
            have s3 := hb3.1 fid s2.1
            refine ⟨s3.1, ?_⟩
            rw [s3.2, s2.2]
            simp [countFacEv_append, countFacEv]
          · simp at h
        | ok vs =>
          refine ⟨fun fid h => ?_, fun w' vs' h => ?_⟩
          · have s2 := (hb2.1 fid (by simpa using h))
            rw [h2] at s2
            have s3 := hb3.1 fid s2.1
            refine ⟨s3.1, ?_⟩
            rw [s3.2, s2.2]
            simp [countFacEv_append, countFacEv]
          · cases h
            intro fid
            have i2 := hb2.2 w2 v h2 fid
            have i3 := hb3.2 w3 vs rfl fid
            simp only [i3, i2]
            simp

theorem busyOk_getDeps {gi} (hgi : BusyOk gi) (hev : EvolvesFun gi) (w : World) (facId : Nat)
    (nameArg : String) (reg : Nat) :
    (∀ fid, busyF w fid = true →
      busyF (getDepsWith gi w facId nameArg reg).1 fid = true ∧
      countFacEv fid ((getDepsWith gi w facId nameArg reg).1).log = countFacEv fid w.log) ∧
    (∀ w' vs, getDepsWith gi w facId nameArg reg = (w', .ok vs) →
      ∀ fid, busyF w' fid = busyF w fid) := by
  unfold getDepsWith
  by_cases hb : busyF w facId = true
  · rw [if_pos hb]
    exact ⟨fun fid h => ⟨h, rfl⟩, fun w' vs h => by simp at h⟩
  · rw [if_neg hb]
    dsimp only
    rcases h2 : resolveParamsWith gi (setBusy w facId true)
        ((setBusy w facId true).fac facId).params nameArg reg with ⟨w2, r2⟩
    have hloop := busyOk_resolveParams hgi ((setBusy w facId true).fac facId).params
      (setBusy w facId true) nameArg reg
    rw [h2] at hloop
    cases r2 with
    | error e =>
      refine ⟨fun fid h => ?_, fun w' vs h => by simp at h⟩
      have hne : facId ≠ fid := by rintro rfl; exact hb h
      have hstep : busyF (setBusy w facId true) fid = true := by
        rw [busyF_setBusy_ne w facId true fid hne]; exact h
      have := hloop.1 fid hstep
      exact ⟨this.1, by rw [this.2]; simp⟩
    | ok vs =>
      refine ⟨fun fid h => ?_, fun w' vs' h => ?_⟩
      · have hne : facId ≠ fid := by rintro rfl; exact hb h
        have hstep : busyF (setBusy w facId true) fid = true := by
          rw [busyF_setBusy_ne w facId true fid hne]; exact h
        have s := hloop.1 fid hstep
        have s2 : countFacEv fid w2.log = countFacEv fid w.log := by simpa using s.2
        refine ⟨by rw [busyF_setBusy_ne w2 facId false fid hne]; exact s.1, ?_⟩
        show countFacEv fid (setBusy w2 facId false).log = countFacEv fid w.log
        simpa using s2
      · cases h
        intro fid
        have hid := hloop.2 w2 vs rfl fid
        have hlen2 : w2.facs.length = w.facs.length := by
          have e2 := evolves_resolveParams hev ((setBusy w facId true).fac facId).params
            (setBusy w facId true) nameArg reg
          rw [h2] at e2
          rw [e2.facs_len]
          simp
        by_cases hne : facId = fid
        · subst hne
          by_cases hlen : facId < w.facs.length
          · rw [busyF_setBusy_self w2 facId false (by omega)]
            exact (Bool.not_eq_true _).mp hb |>.symm
          · rw [setBusy_oob w2 facId false (by omega), hid, setBusy_oob w facId true hlen]
        · rw [busyF_setBusy_ne w2 facId false fid hne, hid,
            busyF_setBusy_ne w facId true fid hne]

/-- A resolution that enters `_get_dependencies` with the flag down and
fails leaves the flag up: the `del` is only reached on the success path. -/
theorem getDeps_err_busy {gi} (hgi : BusyOk gi) (w : World) (facId : Nat)
    (nameArg : String) (reg : Nat) (w' : World) (e : InjErr)
    (hb : busyF w facId = false) (hlen : facId < w.facs.length)
    (h : getDepsWith gi w facId nameArg reg = (w', .error e)) :
    busyF w' facId = true := by
  unfold getDepsWith at h
  rw [if_neg (by simp [hb])] at h
  dsimp only at h
  rcases h2 : resolveParamsWith gi (setBusy w facId true)
      ((setBusy w facId true).fac facId).params nameArg reg with ⟨w2, r2⟩
  rw [h2] at h
  have hloop := busyOk_resolveParams hgi ((setBusy w facId true).fac facId).params
    (setBusy w facId true) nameArg reg
  rw [h2] at hloop
  cases r2 with
  | error e2 =>
    cases h
    exact (hloop.1 facId (busyF_setBusy_self w facId true hlen)).1
  | ok vs => simp at h

/-- While the flag is set, `_get_dependencies` raises immediately and
changes nothing. -/
theorem getDeps_busy {gi} (w : World) (facId : Nat) (nameArg : String) (reg : Nat)
    (hb : busyF w facId = true) :
    getDepsWith gi w facId nameArg reg = (w, .error (.recursive nameArg)) := by
  unfold getDepsWith
  rw [if_pos hb]

/-- `_get_dependencies` only succeeds when the flag was down at entry. -/
theorem getDeps_ok_not_busy {gi} (w : World) (facId : Nat) (nameArg : String) (reg : Nat)
    (w' : World) (vs : List PyVal)
    (h : getDepsWith gi w facId nameArg reg = (w', .ok vs)) :
    busyF w facId = false := by
  by_cases hb : busyF w facId = true
  · rw [getDeps_busy w facId nameArg reg hb] at h
    simp at h
  · simpa using hb

@[simp] theorem busyF_allocVal (w : World) (s : Option ObjSpec) (fid : Nat) :
    busyF (allocVal w s).1 fid = busyF w fid := by
  cases s <;> rfl

@[simp] theorem allocVal_log (w : World) (s : Option ObjSpec) :
    (allocVal w s).1.log = w.log := by
  cases s <;> rfl

theorem busyF_setFac_hf (w : World) (i : Nat) (f : FactoryObj → FactoryObj)
    (hf : ∀ g, (f g).busy = g.busy) (fid : Nat) :
    busyF (setFac w i f) fid = busyF w fid := by
  by_cases hij : i = fid
  · subst hij
    by_cases hlen : i < w.facs.length
    · rw [busyF, setFac_fac_self w i f hlen, hf]; rfl
    · rw [busyF, setFac_fac_oob w i f hlen]; rfl
  · rw [busyF, setFac_fac_ne w i f fid hij]; rfl

theorem busyOk_delegateLoop {gi} (hgi : BusyOk gi) :
    ∀ (ds : List (String × Bool)) (w : World) (ownerId reg : Nat) (svcName : String),
      (∀ fid, busyF w fid = true →
        busyF (delegateLoopWith gi w ds ownerId reg svcName).1 fid = true ∧
        countFacEv fid ((delegateLoopWith gi w ds ownerId reg svcName).1).log =
          countFacEv fid w.log) ∧
      (∀ w', delegateLoopWith gi w ds ownerId reg svcName = (w', .ok ()) →
        ∀ fid, busyF w' fid = busyF w fid) := by
  intro ds
  induction ds with
  | nil =>
    intro w ownerId reg svcName
    refine ⟨fun fid h => ⟨h, rfl⟩, fun w' h fid => ?_⟩
    simp only [delegateLoopWith] at h
    cases h
    rfl
  | cons d ds ih =>
    intro w ownerId reg svcName
    rcases d with ⟨dn, lz⟩
    unfold delegateLoopWith
    rw [injGet_eq w reg dn svcName]
    cases hl : lookupTable (w.table reg) dn with
    | none =>
      refine ⟨fun fid h => ⟨h, by simp [countFacEv_append, countFacEv]⟩, fun w' h => ?_⟩
      simp at h
    | some depPid =>
      dsimp only
      cases lz with
      | true =>
        rw [if_pos rfl]
        have hrec := ih (setDictSlot (logEv w (.lookup dn svcName)) ownerId
          (dn ++ ":factory") (.facSlot depPid)) ownerId reg svcName
        refine ⟨fun fid h => ?_, fun w' h fid => ?_⟩
        · have := hrec.1 fid (by simpa using h)
          refine ⟨this.1, ?_⟩
          rw [this.2]
          simp [countFacEv_append, countFacEv]
        · have := hrec.2 w' h fid
          simpa using this
      | false =>
        rw [if_neg Bool.false_ne_true]
        rcases h2 : gi (logEv w (.lookup dn svcName)) depPid with ⟨w2, r2⟩
        have hb2 := hgi (logEv w (.lookup dn svcName)) depPid
        cases r2 with
        | error e =>
          refine ⟨fun fid h => ?_, fun w' h => ?_⟩
          · have := hb2.1 fid (by simpa using h)
            rw [h2] at this
            refine ⟨this.1, ?_⟩
            rw [this.2]
            simp [countFacEv_append, countFacEv]
          · simp at h
        | ok v =>
          dsimp only
          have hrec := ih (setDictSlot w2 ownerId (dn ++ ":instance") (.valSlot v))
            ownerId reg svcName
          refine ⟨fun fid h => ?_, fun w' h fid => ?_⟩
          · have s2 := hb2.1 fid (by simpa using h)
            rw [h2] at s2
            have s3 := hrec.1 fid (by simpa using s2.1)
            refine ⟨s3.1, ?_⟩
            rw [s3.2]
            rw [show (setDictSlot w2 ownerId (dn ++ ":instance") (.valSlot v)).log = w2.log
              from rfl, s2.2]
            simp [countFacEv_append, countFacEv]
          · have i3 := hrec.2 w' h fid
            have i2 := hb2.2 w2 v h2 fid
            simp only [busyF_setDictSlot] at i3
            rw [i3, i2]
            simp

theorem busyOk_injectDelegates {gi} (hgi : BusyOk gi) (hev : EvolvesFun gi) (w : World)
    (facId ownerId reg : Nat) (svcName : String) :
    (∀ fid, busyF w fid = true →
      busyF (injectDelegatesWith gi w facId ownerId reg svcName).1 fid = true ∧
      countFacEv fid ((injectDelegatesWith gi w facId ownerId reg svcName).1).log =
        countFacEv fid w.log) ∧
    (∀ w', injectDelegatesWith gi w facId ownerId reg svcName = (w', .ok ()) →
      ∀ fid, busyF w' fid = busyF w fid) := by
  unfold injectDelegatesWith
  by_cases hb : busyF w facId = true
  · rw [if_pos hb]
    exact ⟨fun fid h => ⟨h, rfl⟩, fun w' h => by simp at h⟩
  · rw [if_neg hb]
    dsimp only
    rcases h2 : delegateLoopWith gi (setBusy w facId true)
        ((setBusy w facId true).fac facId).delegates ownerId reg svcName with ⟨w2, r2⟩
    have hloop := busyOk_delegateLoop hgi ((setBusy w facId true).fac facId).delegates
      (setBusy w facId true) ownerId reg svcName
    rw [h2] at hloop
    cases r2 with
    | error e =>
      refine ⟨fun fid h => ?_, fun w' h => by simp at h⟩
      have hne : facId ≠ fid := by rintro rfl; exact hb h
      have hstep : busyF (setBusy w facId true) fid = true := by
        rw [busyF_setBusy_ne w facId true fid hne]; exact h
      have := hloop.1 fid hstep
      exact ⟨this.1, by rw [this.2]; simp⟩
    | ok u =>
      cases u
      refine ⟨fun fid h => ?_, fun w' h fid => ?_⟩
      · have hne : facId ≠ fid := by rintro rfl; exact hb h
        have hstep : busyF (setBusy w facId true) fid = true := by
          rw [busyF_setBusy_ne w facId true fid hne]; exact h
        have s := hloop.1 fid hstep
        have s2 : countFacEv fid w2.log = countFacEv fid w.log := by simpa using s.2
        refine ⟨by rw [busyF_setBusy_ne w2 facId false fid hne]; exact s.1, ?_⟩
        show countFacEv fid (setBusy w2 facId false).log = countFacEv fid w.log
        simpa using s2
      · cases h
        have hid := hloop.2 w2 rfl fid
        have hlen2 : w2.facs.length = w.facs.length := by
          have e2 := evolves_delegateLoop hev ((setBusy w facId true).fac facId).delegates
            (setBusy w facId true) ownerId reg svcName
          rw [h2] at e2
          rw [e2.facs_len]
          simp
        by_cases hne : facId = fid
        · subst hne
          by_cases hlen : facId < w.facs.length
          · rw [busyF_setBusy_self w2 facId false (by omega)]
            exact (Bool.not_eq_true _).mp hb |>.symm
          · rw [setBusy_oob w2 facId false (by omega), hid, setBusy_oob w facId true hlen]
        · rw [busyF_setBusy_ne w2 facId false fid hne, hid,
            busyF_setBusy_ne w facId true fid hne]

theorem busyOk_directProvider {gi} (hgi : BusyOk gi) (hev : EvolvesFun gi)
    (w : World) (pid : Nat) :
    (∀ fid, busyF w fid = true →
      busyF (directProvider gi w pid).1 fid = true ∧
      countFacEv fid ((directProvider gi w pid).1).log = countFacEv fid w.log) ∧
    (∀ w' v, directProvider gi w pid = (w', .ok v) → ∀ fid, busyF w' fid = busyF w fid) := by
  unfold directProvider
  dsimp only
  split
  · exact ⟨fun fid h => ⟨h, rfl⟩, fun w' v h => by cases h; intro fid; rfl⟩
  · rcases h2 : getDepsWith gi w (w.prov pid).facId (w.fac (w.prov pid).facId).fname
        (w.prov pid).reg with ⟨w1, r1⟩
    have hd := busyOk_getDeps hgi hev w (w.prov pid).facId (w.fac (w.prov pid).facId).fname
      (w.prov pid).reg
    rw [h2] at hd
    cases r1 with
    | error e =>
      exact ⟨fun fid h => hd.1 fid h, fun w' v h => by simp at h⟩
    | ok vs =>
      dsimp only
      have hnb : busyF w (w.prov pid).facId = false := getDeps_ok_not_busy w _ _ _ w1 vs h2
      rcases h3 : allocVal w1 (w.fac (w.prov pid).facId).ret with ⟨w2, v⟩
      refine ⟨fun fid h => ?_, fun w' v' h => ?_⟩
      · have s1 := hd.1 fid h
        have hne : (w.prov pid).facId ≠ fid := by
          rintro rfl; rw [hnb] at h; exact Bool.false_ne_true h
        constructor
        · show busyF (setProv (logEv w2 _) pid _) fid = true
          have : busyF w2 fid = busyF w1 fid := by
            have := busyF_allocVal w1 (w.fac (w.prov pid).facId).ret fid
            rw [h3] at this
            exact this
          simp only [busyF_setProv, busyF_logEv]
          rw [this]
          exact s1.1
        · show countFacEv fid (setProv (logEv w2 _) pid _).log = countFacEv fid w.log
          have hw2log : w2.log = w1.log := by
            have := allocVal_log w1 (w.fac (w.prov pid).facId).ret
            rw [h3] at this
            exact this
          simp only [setProv_log, logEv_log]
          rw [countFacEv_append, hw2log, s1.2]
          simp [countFacEv, hne]
      · cases h
        intro fid
        have hid := hd.2 w1 vs rfl fid
        show busyF (setProv (logEv w2 _) pid _) fid = busyF w fid
        have : busyF w2 fid = busyF w1 fid := by
          have := busyF_allocVal w1 (w.fac (w.prov pid).facId).ret fid
          rw [h3] at this
          exact this
        simp only [busyF_setProv, busyF_logEv]
        rw [this, hid]

theorem busyOk_genProvider {gi} (hgi : BusyOk gi) (hev : EvolvesFun gi)
    (w : World) (pid : Nat) :
    (∀ fid, busyF w fid = true →
      busyF (genProvider gi w pid).1 fid = true ∧
      countFacEv fid ((genProvider gi w pid).1).log = countFacEv fid w.log) ∧
    (∀ w' v, genProvider gi w pid = (w', .ok v) → ∀ fid, busyF w' fid = busyF w fid) := by
  unfold genProvider
  dsimp only
  split
  · exact ⟨fun fid h => ⟨h, rfl⟩, fun w' v h => by cases h; intro fid; rfl⟩
  · rcases h2 : getDepsWith gi w (w.prov pid).facId (w.fac (w.prov pid).facId).fname
        (w.prov pid).reg with ⟨w1, r1⟩
    have hd := busyOk_getDeps hgi hev w (w.prov pid).facId (w.fac (w.prov pid).facId).fname
      (w.prov pid).reg
    rw [h2] at hd
    cases r1 with
    | error e =>
      exact ⟨fun fid h => hd.1 fid h, fun w' v h => by simp at h⟩
    | ok vs =>
      dsimp only
      cases hy : (w.fac (w.prov pid).facId).yields with
      | nil =>
        refine ⟨fun fid h => ?_, fun w' v h => by simp at h⟩
        have s1 := hd.1 fid h
        refine ⟨by simpa using s1.1, ?_⟩
        show countFacEv fid (setProv (logEv (logEv w1 _) _) pid _).log = countFacEv fid w.log
        simp only [setProv_log, logEv_log]
        rw [List.append_assoc, countFacEv_append, s1.2]
        simp [countFacEv]
      | cons y rest =>
        dsimp only
        rcases h3 : allocVal (logEv w1 (.callGen (w.prov pid).facId vs)) y with ⟨w3, v⟩
        have hb3 : ∀ fid, busyF w3 fid = busyF w1 fid := by
          intro fid
          have := busyF_allocVal (logEv w1 (.callGen (w.prov pid).facId vs)) y fid
          rw [h3] at this
          simpa using this
        have hl3 : w3.log = w1.log ++ [Event.callGen (w.prov pid).facId vs] := by
          have := allocVal_log (logEv w1 (.callGen (w.prov pid).facId vs)) y
          rw [h3] at this
          simpa using this
        refine ⟨fun fid h => ?_, fun w' v' h => ?_⟩
        · have s1 := hd.1 fid h
          constructor
          · show busyF (setProv (logEv w3 _) pid _) fid = true
            simp only [busyF_setProv, busyF_logEv]
            rw [hb3 fid]
            exact s1.1
          · show countFacEv fid (setProv (logEv w3 _) pid _).log = countFacEv fid w.log
            simp only [setProv_log, logEv_log]
            rw [hl3, List.append_assoc, countFacEv_append, s1.2]
            simp [countFacEv]
        · cases h
          intro fid
          have hid := hd.2 w1 vs rfl fid
          show busyF (setProv (logEv w3 _) pid _) fid = busyF w fid
          simp only [busyF_setProv, busyF_logEv]
          rw [hb3 fid, hid]

theorem busyOk_clsProvider {gi} (hgi : BusyOk gi) (hev : EvolvesFun gi)
    (w : World) (pid : Nat) :
    (∀ fid, busyF w fid = true →
      busyF (clsProvider gi w pid).1 fid = true ∧
      countFacEv fid ((clsProvider gi w pid).1).log = countFacEv fid w.log) ∧
    (∀ w' v, clsProvider gi w pid = (w', .ok v) → ∀ fid, busyF w' fid = busyF w fid) := by
  unfold clsProvider
  dsimp only
  cases hc : (w.fac (w.prov pid).facId).clsInst with
  | some v =>
    dsimp only
    split
    · exact ⟨fun fid h => ⟨h, rfl⟩, fun w' v' h => by simp at h⟩
    · exact ⟨fun fid h => ⟨h, rfl⟩, fun w' v' h => by cases h; intro fid; rfl⟩
  | none =>
    dsimp only
    rcases h2 : getDepsWith gi w (w.prov pid).facId (w.prov pid).svcName
        (w.prov pid).reg with ⟨w1, r1⟩
    have hd := busyOk_getDeps hgi hev w (w.prov pid).facId (w.prov pid).svcName
      (w.prov pid).reg
    rw [h2] at hd
    cases r1 with
    | error e =>
      exact ⟨fun fid h => hd.1 fid h, fun w' v h => by simp at h⟩
    | ok vs =>
      dsimp only
      rcases h3 : injectDelegatesWith gi (addDict (setFac
          (logEv { w1 with nextId := w1.nextId + 1 } (.callCls (w.prov pid).facId vs))
          (w.prov pid).facId (fun g => { g with clsInst := some (.obj w1.nextId true
            (w.fac (w.prov pid).facId).clsHasFin) }))
          (PyVal.objId (.obj w1.nextId true (w.fac (w.prov pid).facId).clsHasFin)))
          (w.prov pid).facId
          (PyVal.objId (.obj w1.nextId true (w.fac (w.prov pid).facId).clsHasFin))
          (w.prov pid).reg (w.prov pid).svcName with ⟨w3, r3⟩
      have hmidb : ∀ fid, busyF (addDict (setFac
          (logEv { w1 with nextId := w1.nextId + 1 } (.callCls (w.prov pid).facId vs))
          (w.prov pid).facId (fun g => { g with clsInst := some (.obj w1.nextId true
            (w.fac (w.prov pid).facId).clsHasFin) }))
          (PyVal.objId (.obj w1.nextId true (w.fac (w.prov pid).facId).clsHasFin))) fid =
          busyF w1 fid := by
        intro fid
        simp only [busyF_addDict]
        rw [busyF_setFac_hf _ _ (fun g => { g with clsInst := some (.obj w1.nextId true
          (w.fac (w.prov pid).facId).clsHasFin) }) (fun g => rfl) fid]
        simp only [busyF_logEv]
        rfl
      have hmidl : (addDict (setFac
          (logEv { w1 with nextId := w1.nextId + 1 } (.callCls (w.prov pid).facId vs))
          (w.prov pid).facId (fun g => { g with clsInst := some (.obj w1.nextId true
            (w.fac (w.prov pid).facId).clsHasFin) }))
          (PyVal.objId (.obj w1.nextId true (w.fac (w.prov pid).facId).clsHasFin))).log =
          w1.log ++ [Event.callCls (w.prov pid).facId vs] := by
        simp
      have hdel := busyOk_injectDelegates hgi hev (addDict (setFac
          (logEv { w1 with nextId := w1.nextId + 1 } (.callCls (w.prov pid).facId vs))
          (w.prov pid).facId (fun g => { g with clsInst := some (.obj w1.nextId true
            (w.fac (w.prov pid).facId).clsHasFin) }))
          (PyVal.objId (.obj w1.nextId true (w.fac (w.prov pid).facId).clsHasFin)))
          (w.prov pid).facId
          (PyVal.objId (.obj w1.nextId true (w.fac (w.prov pid).facId).clsHasFin))
          (w.prov pid).reg (w.prov pid).svcName
      rw [h3] at hdel
      cases r3 with
      | error e =>
        refine ⟨fun fid h => ?_, fun w' v h => by simp at h⟩
        have s1 := hd.1 fid h
        have s2 := hdel.1 fid (by rw [hmidb fid]; exact s1.1)
        refine ⟨s2.1, ?_⟩
        rw [s2.2, hmidl, countFacEv_append, s1.2]
        simp [countFacEv]
      | ok u =>
        cases u
        refine ⟨fun fid h => ?_, fun w' v h => ?_⟩
        · have s1 := hd.1 fid h
          have s2 := hdel.1 fid (by rw [hmidb fid]; exact s1.1)
          refine ⟨s2.1, ?_⟩
          rw [s2.2, hmidl, countFacEv_append, s1.2]
          simp [countFacEv]
        · cases h
          intro fid
          have i3 := hdel.2 w3 rfl fid
          rw [i3, hmidb fid, hd.2 w1 vs rfl fid]

theorem busyOk_getInstance : ∀ (fuel : Nat), BusyOk (getInstance fuel) := by
  intro fuel
  induction fuel with
  | zero =>
    intro w pid
    exact ⟨fun fid h => ⟨h, rfl⟩, fun w' v h => by simp [getInstance] at h⟩
  | succ fuel ih =>
    intro w pid
    show (∀ fid, busyF w fid = true →
        busyF (giStep (getInstance fuel) w pid).1 fid = true ∧
        countFacEv fid ((giStep (getInstance fuel) w pid).1).log = countFacEv fid w.log) ∧
      (∀ w' v, giStep (getInstance fuel) w pid = (w', .ok v) →
        ∀ fid, busyF w' fid = busyF w fid)
    unfold giStep
    cases (w.fac (w.prov pid).facId).kind with
    | direct => exact busyOk_directProvider ih (evolves_getInstance fuel) w pid
    | gen => exact busyOk_genProvider ih (evolves_getInstance fuel) w pid
    | cls => exact busyOk_clsProvider ih (evolves_getInstance fuel) w pid

/-! ## Scenario builders and inversion lemmas -/

/-- Build a factory object (immutable part only). -/
def mkFac (k : FacKind) (nm : String) (ps : List String)
    (ret : Option ObjSpec := some ⟨true, false⟩) (ys : List (Option ObjSpec) := [])
    (hFA : Bool := false) (cHF : Bool := false)
    (ds : List (String × Bool) := []) : FactoryObj :=
  { kind := k, fname := nm, params := ps, ret := ret, yields := ys,
    hasFinAttr := hFA, clsHasFin := cHF, delegates := ds }

/-- Build a freshly-registered provider closure. -/
def mkProv (f r : Nat) (s : String) : ProvSt := { facId := f, reg := r, svcName := s }

/-- `getInstance (fuel + 1)` is one provider activation. -/
theorem getInstance_succ (fuel : Nat) (w : World) (pid : Nat) :
    getInstance (fuel + 1) w pid = giStep (getInstance fuel) w pid := rfl

/-- A cached truthy instance short-circuits the direct provider: same world,
same value. -/
theorem getInstance_cached (fuel : Nat) (w : World) (pid : Nat)
    (hk : (w.fac (w.prov pid).facId).kind = .direct)
    (ht : pyTruthy (w.prov pid).inst = true) :
    getInstance (fuel + 1) w pid = (w, .ok (w.prov pid).inst) := by
  rw [getInstance_succ]
  unfold giStep
  rw [hk]
  unfold directProvider
  dsimp only
  rw [if_pos ht]

/-- Inversion of a successful direct-provider activation that found no
cached instance. -/
theorem directProvider_ok_shape {gi} (w : World) (pid : Nat) (w' : World) (v : PyVal)
    (hU : pyTruthy (w.prov pid).inst = false)
    (h : directProvider gi w pid = (w', .ok v)) :
    ∃ w1 vs,
      getDepsWith gi w (w.prov pid).facId (w.fac (w.prov pid).facId).fname (w.prov pid).reg
        = (w1, .ok vs) ∧
      v = (allocVal w1 (w.fac (w.prov pid).facId).ret).2 ∧
      w' = setProv (logEv (allocVal w1 (w.fac (w.prov pid).facId).ret).1
        (.callFac (w.prov pid).facId vs)) pid
        (fun q => { q with
                    inst := v,
                    fin := if (w.fac (w.prov pid).facId).hasFinAttr then true else q.fin }) := by
  unfold directProvider at h
  dsimp only at h
  rw [if_neg (by simp [hU])] at h
  rcases h2 : getDepsWith gi w (w.prov pid).facId (w.fac (w.prov pid).facId).fname
      (w.prov pid).reg with ⟨w1, r1⟩
  rw [h2] at h
  cases r1 with
  | error e => simp at h
  | ok vs =>
    dsimp only at h
    rcases h3 : allocVal w1 (w.fac (w.prov pid).facId).ret with ⟨w2, v2⟩
    rw [h3] at h
    dsimp only at h
    rcases h with ⟨rfl, rfl⟩
    refine ⟨w1, vs, rfl, ?_, ?_⟩
    · rw [h3]
    · rw [h3]

/-- A successful `_get_dependencies` run with no declared parameters leaves
the log untouched: no registry lookups occur. -/
theorem getDeps_no_params {gi} (w : World) (facId : Nat) (nameArg : String) (reg : Nat)
    (hp : (w.fac facId).params = []) (hb : busyF w facId = false) :
    (getDepsWith gi w facId nameArg reg).1.log = w.log ∧
    (getDepsWith gi w facId nameArg reg).2 = .ok [] := by
  unfold getDepsWith
  rw [if_neg (by simp [hb])]
  dsimp only
  have hp2 : ((setBusy w facId true).fac facId).params = [] := by
    by_cases hlen : facId < w.facs.length
    · rw [setBusy_fac_self w facId true hlen]; exact hp
    · rw [setBusy_oob w facId true hlen]; exact hp
  rw [hp2]
  simp [resolveParamsWith]

/-- The count of factory invocations is preserved by a successful
`_get_dependencies` run of that same factory. -/
theorem getDeps_ok_count {gi} (hgi : BusyOk gi) (w : World) (facId : Nat)
    (nameArg : String) (reg : Nat) (w1 : World) (vs : List PyVal)
    (hlen : facId < w.facs.length)
    (h : getDepsWith gi w facId nameArg reg = (w1, .ok vs)) :
    countFacEv facId w1.log = countFacEv facId w.log := by
  have hb : busyF w facId = false := getDeps_ok_not_busy w facId nameArg reg w1 vs h
  unfold getDepsWith at h
  rw [if_neg (by simp [hb])] at h
  dsimp only at h
  rcases h2 : resolveParamsWith gi (setBusy w facId true)
      ((setBusy w facId true).fac facId).params nameArg reg with ⟨w2, r2⟩
  rw [h2] at h
  cases r2 with
  | error e => simp at h
  | ok vs2 =>
    dsimp only at h
    rcases h with ⟨rfl, rfl⟩
    have hloop := busyOk_resolveParams hgi ((setBusy w facId true).fac facId).params
      (setBusy w facId true) nameArg reg
    rw [h2] at hloop
    have := (hloop.1 facId (busyF_setBusy_self w facId true hlen)).2
    show countFacEv facId (setBusy w2 facId false).log = countFacEv facId w.log
    simp only [setBusy_log]
    simpa using this

/-! ## Claim C2

The spec says the busy flag is cleared before `_get_dependencies` returns
*or raises*.  The source has no `try/finally`: the
`del factory_func._instance_is_being_created` at the end of
`_get_dependencies` is skipped whenever the lookup or a nested resolution
raises, so the flag survives the exception and a later resolution of the
same service spuriously reports a cycle.  The claim is *corrected*. -/

/-- A one-entry registry whose only service declares a dependency that was
never registered. -/
def c2World : World :=
  { facs := [mkFac .direct "a" ["missing"]], provs := [mkProv 0 0 "a"],
    regs := [[("a", 0)]], dicts := [] }

/-- Counterexample to C2 as stated: the lookup of `"missing"` raises
`InjectionNotFoundError`, the busy flag of `a`'s factory is still set after
the error propagates, and a second resolution of `a` spuriously raises
`RecursiveInjectionError` — the flag was *not* cleared before the raise. -/
theorem c2_counterexample :
    (getInstance 3 c2World 0).2 = .error (.notFound "missing" "a") ∧
    busyF (getInstance 3 c2World 0).1 0 = true ∧
    (getInstance 3 (getInstance 3 c2World 0).1 0).2 = .error (.recursive "a") := by
  decide

/-- C2 (amended): the busy flag set on the factory when resolution begins is
cleared before the call returns only on the success path; when a registry
lookup fails with `NotFoundError` or a nested resolution raises, the flag
remains set after the error propagates, and a later resolution of the same
service then spuriously raises `RecursiveInjectionError`.  (A resolution
that returns normally restores every busy flag.) -/
theorem c2_busy_flag_error_paths :
    (∀ fuel w pid w' v, getInstance fuel w pid = (w', .ok v) →
      ∀ fid, busyF w' fid = busyF w fid) ∧
    (∀ fuel w facId nameArg reg w' e,
      busyF w facId = false → facId < w.facs.length →
      getDepsWith (getInstance fuel) w facId nameArg reg = (w', .error e) →
      busyF w' facId = true) ∧
    (∀ fuel w facId nameArg reg, busyF w facId = true →
      getDepsWith (getInstance fuel) w facId nameArg reg =
        (w, .error (.recursive nameArg))) := by
  refine ⟨?_, ?_, ?_⟩
  · intro fuel w pid w' v h fid
    exact ((busyOk_getInstance fuel) w pid).2 w' v h fid
  · intro fuel w facId nameArg reg w' e hb hlen h
    exact getDeps_err_busy (busyOk_getInstance fuel) w facId nameArg reg w' e hb hlen h
  · intro fuel w facId nameArg reg hb
    exact getDeps_busy w facId nameArg reg hb

/-- A one-entry registry that resolves successfully (for the witness). -/
def okWorld : World :=
  { facs := [mkFac .direct "h" []], provs := [mkProv 0 0 "h"],
    regs := [[("h", 0)]], dicts := [] }

theorem c2_busy_flag_error_paths_witness :
    (∀ fid, busyF (getInstance 2 okWorld 0).1 fid = busyF okWorld fid) ∧
    busyF (getDepsWith (getInstance 2) c2World 0 "a" 0).1 0 = true ∧
    getDepsWith (getInstance 2) (setBusy c2World 0 true) 0 "a" 0 =
      (setBusy c2World 0 true, .error (.recursive "a")) := by
  refine ⟨?_, ?_, ?_⟩
  · exact c2_busy_flag_error_paths.1 2 okWorld 0 (getInstance 2 okWorld 0).1
      (.obj 0 true false) (by decide)
  · exact c2_busy_flag_error_paths.2.1 2 c2World 0 "a" 0
      (getDepsWith (getInstance 2) c2World 0 "a" 0).1 (.notFound "missing" "a")
      (by decide) (by decide) (by decide)
  · exact c2_busy_flag_error_paths.2.2 2 (setBusy c2World 0 true) 0 "a" 0 (by decide)

/-! ## Claim C1

`FactoryInjectingWrapper`'s provider caches with `if not provider._instance:`
— a *falsiness* test, not an `is None` test.  A factory whose instance is
falsy (Python `0`, `""`, `False`, an object with a false `__bool__`, …) is
therefore re-invoked on every `get_instance()` call and a fresh instance is
returned each time: the claim fails for such factories and is *corrected*
with a truthiness proviso. -/

/-- `get_instance()` called `N` times in a row (each call with the given
fuel); returns the final world and the list of results. -/
def getNTimes (fuel : Nat) : Nat → World → Nat → World × List (Except InjErr PyVal)
  | 0, w, _ => (w, [])
  | n + 1, w, pid =>
    match getInstance fuel w pid with
    | (w1, r) =>
      match getNTimes fuel n w1 pid with
      | (w2, rs) => (w2, r :: rs)

/-- A registered factory returning a falsy instance. -/
def c1Falsy : World :=
  { facs := [mkFac .direct "f" [] (some ⟨false, false⟩)], provs := [mkProv 0 0 "f"],
    regs := [[("f", 0)]], dicts := [] }

/-- Counterexample to C1 as stated: for a factory whose instance is falsy,
two `get_instance()` calls invoke the underlying factory twice (the claim
says exactly once) and return two distinct instances (ids 0 and 1), not the
identical cached one. -/
theorem c1_counterexample :
    countFacEv 0 ((getNTimes 2 2 c1Falsy 0).1).log = 2 ∧
    (getNTimes 2 2 c1Falsy 0).2 = [.ok (.obj 0 false false), .ok (.obj 1 false false)] := by
  decide

/-- C1 (amended): for every registered direct-call factory whose constructed
instance is *truthy*, invoking `get_instance()` N additional times after the
first successful call changes nothing: the underlying factory was called
exactly once (one new invocation event), and every further call returns the
identical cached instance with no state change. -/
theorem c1_direct_factory_called_once :
    ∀ fuel w pid w' v,
      (w.fac (w.prov pid).facId).kind = .direct →
      (w.prov pid).inst = .pyNone →
      pid < w.provs.length →
      (w.prov pid).facId < w.facs.length →
      getInstance (fuel + 1) w pid = (w', .ok v) →
      pyTruthy v = true →
      countFacEv (w.prov pid).facId w'.log = countFacEv (w.prov pid).facId w.log + 1 ∧
      ∀ N fuel2, getNTimes (fuel2 + 1) N w' pid = (w', List.replicate N (.ok v)) := by
  intro fuel w pid w' v hk hu hplen hflen h ht
  rw [getInstance_succ] at h
  unfold giStep at h
  rw [hk] at h
  obtain ⟨w1, vs, hdeps, hv, hw'⟩ :=
    directProvider_ok_shape w pid w' v (by rw [hu]; rfl) h
  have hev1 : Evolves w w1 := by
    have := evolves_getDeps (evolves_getInstance fuel) w (w.prov pid).facId
      (w.fac (w.prov pid).facId).fname (w.prov pid).reg
    rwa [hdeps] at this
  have hc1 : countFacEv (w.prov pid).facId w1.log = countFacEv (w.prov pid).facId w.log :=
    getDeps_ok_count (busyOk_getInstance fuel) w (w.prov pid).facId
      (w.fac (w.prov pid).facId).fname (w.prov pid).reg w1 vs hflen hdeps
  have hlog : w'.log = w1.log ++ [Event.callFac (w.prov pid).facId vs] := by
    rw [hw']
    simp
  have hmidlen : pid < (logEv (allocVal w1 (w.fac (w.prov pid).facId).ret).1
      (.callFac (w.prov pid).facId vs)).provs.length := by
    have h1 : (allocVal w1 (w.fac (w.prov pid).facId).ret).1.provs = w1.provs := by
      cases (w.fac (w.prov pid).facId).ret <;> rfl
    simp only [logEv_provs, h1]
    rw [hev1.provs_len]
    exact hplen
  have hinst : (w'.prov pid).inst = v := by
    rw [hw', setProv_prov_self _ pid _ hmidlen]
  have hEv : Evolves w w' := by
    have := evolves_getInstance (fuel + 1) w pid
    rw [getInstance_succ] at this
    have h2 := this
    unfold giStep at h2
    rw [hk] at h2
    rw [h] at h2
    exact h2
  refine ⟨?_, ?_⟩
  · rw [hlog, countFacEv_append, hc1]
    simp [countFacEv]
  · intro N
    induction N with
    | zero => intro fuel2; rfl
    | succ N ih =>
      intro fuel2
      have hk' : (w'.fac (w'.prov pid).facId).kind = .direct := by
        rw [hEv.prov_facId pid, hEv.fac_kind]
        exact hk
      have ht' : pyTruthy (w'.prov pid).inst = true := by rw [hinst]; exact ht
      show (match getInstance (fuel2 + 1) w' pid with
        | (w1, r) =>
          match getNTimes (fuel2 + 1) N w1 pid with
          | (w2, rs) => (w2, r :: rs)) = (w', List.replicate (N + 1) (.ok v))
      rw [getInstance_cached fuel2 w' pid hk' ht', hinst]
      dsimp only
      rw [ih fuel2]
      rw [List.replicate_succ]

theorem c1_direct_factory_called_once_witness :
    countFacEv (okWorld.prov 0).facId ((getInstance 2 okWorld 0).1).log =
      countFacEv (okWorld.prov 0).facId okWorld.log + 1 ∧
    getNTimes 2 3 (getInstance 2 okWorld 0).1 0 =
      ((getInstance 2 okWorld 0).1, List.replicate 3 (.ok (.obj 0 true false))) := by
  have h := c1_direct_factory_called_once 1 okWorld 0 (getInstance 2 okWorld 0).1
    (.obj 0 true false) (by decide) (by decide) (by decide) (by decide) (by decide) (by decide)
  exact ⟨h.1, h.2 3 1⟩

/-! ## Claim C9

The spec says: "if the *instance* exposes an optional teardown operation,
invoke it".  The source checks `hasattr(factory_func, "_finalize")` — the
teardown is captured from the *factory function*, never from the instance
(contrast the class strategy, which does consult `clazz._instance`).  An
instance exposing `_finalize` under a factory without one is torn down
silently: cache cleared, no teardown call.  The claim is *corrected*. -/

/-- A direct-call factory with no `_finalize` of its own whose *instance*
exposes `_finalize`. -/
def c9World : World :=
  { facs := [mkFac .direct "f" [] (some ⟨true, true⟩)], provs := [mkProv 0 0 "f"],
    regs := [[("f", 0)]], dicts := [] }

def c9Built : World := (getInstance 2 c9World 0).1

/-- Counterexample to C9 as stated: the cached instance exposes a teardown
operation, yet `finalize()` clears the cache without invoking it (no
teardown event is logged). -/
theorem c9_counterexample :
    ((c9Built.prov 0).inst).hasFinalize = true ∧
    (finalizeProv c9Built 0).2 = .ok () ∧
    ((finalizeProv c9Built 0).1).log = c9Built.log ∧
    (((finalizeProv c9Built 0).1).prov 0).inst = .pyNone := by
  decide

/-- C9 (amended): for a direct-call service with a cached instance,
`finalize()` clears the cached instance and invokes the teardown operation
that was captured *from the factory callable* at construction time
(`factory_func._finalize`), if any; a teardown exposed only by the instance
is not invoked.  The second conjunct shows the capture: after a successful
construction, the provider's teardown cell reflects the factory's
`_finalize` attribute, not the instance's. -/
theorem c9_finalize_from_factory :
    (∀ w pid, (w.fac (w.prov pid).facId).kind = .direct →
      (w.prov pid).inst ≠ .pyNone → pid < w.provs.length →
      (finalizeProv w pid).2 = .ok () ∧
      (((finalizeProv w pid).1).prov pid).inst = .pyNone ∧
      ((w.prov pid).fin = true →
        ((finalizeProv w pid).1).log = w.log ++ [.teardown (w.prov pid).facId]) ∧
      ((w.prov pid).fin = false → ((finalizeProv w pid).1).log = w.log)) ∧
    (∀ fuel w pid w' v, pyTruthy (w.prov pid).inst = false → pid < w.provs.length →
      (w.fac (w.prov pid).facId).hasFinAttr = true →
      directProvider (getInstance fuel) w pid = (w', .ok v) →
      (w'.prov pid).fin = true) := by
  constructor
  · intro w pid hk hne hplen
    unfold finalizeProv
    dsimp only
    rw [hk]
    dsimp only
    rw [if_neg hne]
    cases hfin : (w.prov pid).fin with
    | true =>
      rw [if_pos rfl]
      refine ⟨rfl, ?_, ?_, ?_⟩
      · rw [setProv_prov_self _ pid _ (by simpa using hplen)]
      · intro _
        simp
      · intro hic
        simp at hic
    | false =>
      rw [if_neg Bool.false_ne_true]
      refine ⟨rfl, ?_, ?_, ?_⟩
      · rw [setProv_prov_self _ pid _ (by simpa using hplen)]
      · intro hic
        simp at hic
      · intro _
        simp
  · intro fuel w pid w' v hU hplen hattr h
    obtain ⟨w1, vs, hdeps, hv, hw'⟩ := directProvider_ok_shape w pid w' v hU h
    have hev1 : Evolves w w1 := by
      have := evolves_getDeps (evolves_getInstance fuel) w (w.prov pid).facId
        (w.fac (w.prov pid).facId).fname (w.prov pid).reg
      rwa [hdeps] at this
    have hmidlen : pid < (logEv (allocVal w1 (w.fac (w.prov pid).facId).ret).1
        (.callFac (w.prov pid).facId vs)).provs.length := by
      have h1 : (allocVal w1 (w.fac (w.prov pid).facId).ret).1.provs = w1.provs := by
        cases (w.fac (w.prov pid).facId).ret <;> rfl
      simp only [logEv_provs, h1]
      rw [hev1.provs_len]
      exact hplen
    rw [hw', setProv_prov_self _ pid _ hmidlen]
    rw [hattr]
    rfl

/-- A direct-call factory carrying its own `_finalize` attribute. -/
def c9FinWorld : World :=
  { facs := [mkFac .direct "g" [] (some ⟨true, false⟩) [] true], provs := [mkProv 0 0 "g"],
    regs := [[("g", 0)]], dicts := [] }

theorem c9_finalize_from_factory_witness :
    (finalizeProv c9Built 0).2 = .ok () ∧
    (((finalizeProv c9Built 0).1).prov 0).inst = .pyNone ∧
    ((finalizeProv c9Built 0).1).log = c9Built.log ∧
    (((directProvider (getInstance 1) c9FinWorld 0).1).prov 0).fin = true := by
  have h := c9_finalize_from_factory.1 c9Built 0 (by decide) (by decide) (by decide)
  refine ⟨h.1, h.2.1, h.2.2.2 (by decide), ?_⟩
  exact c9_finalize_from_factory.2 1 c9FinWorld 0 (directProvider (getInstance 1) c9FinWorld 0).1
    (.obj 0 true false) (by decide) (by decide) (by decide) (by decide)

/-! ## Claim C4

Registration never constructs; a missing dependency fails with
`InjectionNotFoundError(name, requestingService)` at resolution time only;
forward references across registration order are legal. -/

/-- Two factories defined but not yet registered; a dependent `b_fac`
referring to service name `"a"`. -/
def c4Base : World :=
  { facs := [mkFac .direct "b_fac" ["a"], mkFac .direct "a_fac" []],
    provs := [], regs := [[]], dicts := [] }

/-- Only the dependent registered; `"a"` is a forward reference. -/
def c4Half : World := register c4Base 0 "b" 0 "b"

/-- Both registered, dependent first. -/
def c4Full : World := register c4Half 0 "a" 1 "a"

/-- C4: (i) `register` (the `wrap` path) triggers no construction — the
event log, the factory objects, the instance dictionaries and every
existing provider are untouched, and the new provider starts unbuilt;
(ii) a name with no registration fails with `InjectionNotFoundError`
carrying the name and the requesting service, only when a lookup is
attempted; (iii) registering the dependency *after* the dependent but
before the first `get_instance()` resolves correctly (and resolving while
the name is still missing raises `InjectionNotFoundError("a", "b_fac")`). -/
theorem c4_registration_is_lazy :
    (∀ w reg name facId svc,
      (register w reg name facId svc).log = w.log ∧
      (register w reg name facId svc).facs = w.facs ∧
      (register w reg name facId svc).dicts = w.dicts ∧
      (∀ i, i < w.provs.length → (register w reg name facId svc).prov i = w.prov i) ∧
      ((register w reg name facId svc).prov w.provs.length).inst = .pyNone) ∧
    (∀ w reg name req, lookupTable (w.table reg) name = none →
      injGet w reg name req = (logEv w (.lookup name req), .error (.notFound name req))) ∧
    ((getInstance 3 c4Half 0).2 = .error (.notFound "a" "b_fac") ∧
      (getInstance 3 c4Full 0).2 = .ok (.obj 1 true false) ∧
      countFacEv 1 ((getInstance 3 c4Full 0).1).log = 1 ∧
      countFacEv 0 ((getInstance 3 c4Full 0).1).log = 1) := by
  refine ⟨?_, ?_, by decide⟩
  · intro w reg name facId svc
    refine ⟨rfl, rfl, rfl, ?_, ?_⟩
    · intro i hi
      show ((w.provs ++ [({ facId := facId, reg := reg, svcName := svc } : ProvSt)])[i]?).getD
        default = w.prov i
      rw [List.getElem?_append, if_pos hi]
      rfl
    · show (((w.provs ++ [({ facId := facId, reg := reg, svcName := svc } : ProvSt)])[
        w.provs.length]?).getD default).inst = .pyNone
      rw [List.getElem?_concat_length]
      rfl
  · intro w reg name req hmiss
    rw [injGet_eq, hmiss]

theorem c4_registration_is_lazy_witness :
    (register c4Base 0 "b" 0 "b").log = c4Base.log ∧
    injGet c2World 0 "missing" "a" =
      (logEv c2World (.lookup "missing" "a"), .error (.notFound "missing" "a")) := by
  exact ⟨(c4_registration_is_lazy.1 c4Base 0 "b" 0 "b").1,
    c4_registration_is_lazy.2.1 c2World 0 "missing" "a" (by decide)⟩

/-! ## Claim C6

`MultipleYieldsError` is constructed in exactly one place of the source:
the generator finalizer, after a `next` that should have raised
`StopIteration` yielded a second value.  Construction (`provider()`)
advances the generator once and can therefore never raise it. -/

/-- A resolver that never reports `MultipleYieldsError`. -/
def NoMY (gi : World → Nat → World × Except InjErr PyVal) : Prop :=
  ∀ w pid, (gi w pid).2 ≠ .error .multipleYields

theorem noMY_resolveParams {gi} (hgi : NoMY gi) :
    ∀ (ps : List String) (w : World) (nameArg : String) (reg : Nat),
      (resolveParamsWith gi w ps nameArg reg).2 ≠ .error .multipleYields := by
  intro ps
  induction ps with
  | nil => intro w nameArg reg h; simp [resolveParamsWith] at h
  | cons p ps ih =>
    intro w nameArg reg
    unfold resolveParamsWith
    rw [injGet_eq w reg p nameArg]
    cases hl : lookupTable (w.table reg) p with
    | none => intro h; simp at h
    | some pid =>
      dsimp only
      rcases h2 : gi (logEv w (.lookup p nameArg)) pid with ⟨w2, r2⟩
      cases r2 with
      | error e =>
        intro h
        have := hgi (logEv w (.lookup p nameArg)) pid
        rw [h2] at this
        simp only at h
        cases h
        exact this rfl
      | ok v =>
        dsimp only
        rcases h3 : resolveParamsWith gi w2 ps nameArg reg with ⟨w3, r3⟩
        cases r3 with
        | error e =>
          intro h
          have := ih w2 nameArg reg
          rw [h3] at this
          simp only at h
          cases h
          exact this rfl
        | ok vs => intro h; simp at h

theorem noMY_getDeps {gi} (hgi : NoMY gi) (w : World) (facId : Nat)
    (nameArg : String) (reg : Nat) :
    (getDepsWith gi w facId nameArg reg).2 ≠ .error .multipleYields := by
  unfold getDepsWith
  by_cases hb : busyF w facId = true
  · rw [if_pos hb]; intro h; cases h
  · rw [if_neg hb]
    dsimp only
    rcases h2 : resolveParamsWith gi (setBusy w facId true)
        ((setBusy w facId true).fac facId).params nameArg reg with ⟨w2, r2⟩
    cases r2 with
    | error e =>
      intro h
      have := noMY_resolveParams hgi ((setBusy w facId true).fac facId).params
        (setBusy w facId true) nameArg reg
      rw [h2] at this
      simp only at h
      cases h
      exact this rfl
    | ok vs => intro h; simp at h

theorem noMY_delegateLoop {gi} (hgi : NoMY gi) :
    ∀ (ds : List (String × Bool)) (w : World) (ownerId reg : Nat) (svcName : String),
      (delegateLoopWith gi w ds ownerId reg svcName).2 ≠ .error .multipleYields := by
  intro ds
  induction ds with
  | nil => intro w ownerId reg svcName h; simp [delegateLoopWith] at h
  | cons d ds ih =>
    intro w ownerId reg svcName
    rcases d with ⟨dn, lz⟩
    unfold delegateLoopWith
    rw [injGet_eq w reg dn svcName]
    cases hl : lookupTable (w.table reg) dn with
    | none => intro h; simp at h
    | some depPid =>
      dsimp only
      cases lz with
      | true =>
        rw [if_pos rfl]
        exact ih _ ownerId reg svcName
      | false =>
        rw [if_neg Bool.false_ne_true]
        rcases h2 : gi (logEv w (.lookup dn svcName)) depPid with ⟨w2, r2⟩
        cases r2 with
        | error e =>
          intro h
          have := hgi (logEv w (.lookup dn svcName)) depPid
          rw [h2] at this
          simp only at h
          cases h
          exact this rfl
        | ok v => exact ih _ ownerId reg svcName

theorem noMY_injectDelegates {gi} (hgi : NoMY gi) (w : World) (facId ownerId reg : Nat)
    (svcName : String) :
    (injectDelegatesWith gi w facId ownerId reg svcName).2 ≠ .error .multipleYields := by
  unfold injectDelegatesWith
  by_cases hb : busyF w facId = true
  · rw [if_pos hb]; intro h; cases h
  · rw [if_neg hb]
    dsimp only
    rcases h2 : delegateLoopWith gi (setBusy w facId true)
        ((setBusy w facId true).fac facId).delegates ownerId reg svcName with ⟨w2, r2⟩
    cases r2 with
    | error e =>
      intro h
      have := noMY_delegateLoop hgi ((setBusy w facId true).fac facId).delegates
        (setBusy w facId true) ownerId reg svcName
      rw [h2] at this
      simp only at h
      cases h
      exact this rfl
    | ok u => intro h; simp at h

theorem noMY_getInstance : ∀ (fuel : Nat), NoMY (getInstance fuel) := by
  intro fuel
  induction fuel with
  | zero => intro w pid h; simp [getInstance] at h
  | succ fuel ih =>
    intro w pid
    rw [getInstance_succ]
    unfold giStep
    cases (w.fac (w.prov pid).facId).kind with
    | direct =>
      unfold directProvider
      dsimp only
      split
      · intro h; simp at h
      · rcases h2 : getDepsWith (getInstance fuel) w (w.prov pid).facId
            (w.fac (w.prov pid).facId).fname (w.prov pid).reg with ⟨w1, r1⟩
        cases r1 with
        | error e =>
          intro h
          have := noMY_getDeps ih w (w.prov pid).facId
            (w.fac (w.prov pid).facId).fname (w.prov pid).reg
          rw [h2] at this
          simp only at h
          cases h
          exact this rfl
        | ok vs =>
          dsimp only
          rcases h3 : allocVal w1 (w.fac (w.prov pid).facId).ret with ⟨w2, v⟩
          intro h
          simp at h
    | gen =>
      unfold genProvider
      dsimp only
      split
      · intro h; simp at h
      · rcases h2 : getDepsWith (getInstance fuel) w (w.prov pid).facId
            (w.fac (w.prov pid).facId).fname (w.prov pid).reg with ⟨w1, r1⟩
        cases r1 with
        | error e =>
          intro h
          have := noMY_getDeps ih w (w.prov pid).facId
            (w.fac (w.prov pid).facId).fname (w.prov pid).reg
          rw [h2] at this
          simp only at h
          cases h
          exact this rfl
        | ok vs =>
          dsimp only
          cases hy : (w.fac (w.prov pid).facId).yields with
          | nil => intro h; simp only at h; cases h
          | cons y rest =>
            dsimp only
            rcases h3 : allocVal (logEv w1 (.callGen (w.prov pid).facId vs)) y with ⟨w3, v⟩
            intro h
            simp at h
    | cls =>
      unfold clsProvider
      dsimp only
      cases hc : (w.fac (w.prov pid).facId).clsInst with
      | some v =>
        dsimp only
        split
        · intro h; simp only at h; cases h
        · intro h; simp at h
      | none =>
        dsimp only
        rcases h2 : getDepsWith (getInstance fuel) w (w.prov pid).facId
            (w.prov pid).svcName (w.prov pid).reg with ⟨w1, r1⟩
        cases r1 with
        | error e =>
          intro h
          have := noMY_getDeps ih w (w.prov pid).facId (w.prov pid).svcName (w.prov pid).reg
          rw [h2] at this
          simp only at h
          cases h
          exact this rfl
        | ok vs =>
          dsimp only
          rcases h3 : injectDelegatesWith (getInstance fuel) (addDict (setFac
              (logEv { w1 with nextId := w1.nextId + 1 } (.callCls (w.prov pid).facId vs))
              (w.prov pid).facId (fun g => { g with clsInst := some (.obj w1.nextId true
                (w.fac (w.prov pid).facId).clsHasFin) }))
              (PyVal.objId (.obj w1.nextId true (w.fac (w.prov pid).facId).clsHasFin)))
              (w.prov pid).facId
              (PyVal.objId (.obj w1.nextId true (w.fac (w.prov pid).facId).clsHasFin))
              (w.prov pid).reg (w.prov pid).svcName with ⟨w3, r3⟩
          cases r3 with
          | error e =>
            intro h
            have := noMY_injectDelegates ih (addDict (setFac
              (logEv { w1 with nextId := w1.nextId + 1 } (.callCls (w.prov pid).facId vs))
              (w.prov pid).facId (fun g => { g with clsInst := some (.obj w1.nextId true
                (w.fac (w.prov pid).facId).clsHasFin) }))
              (PyVal.objId (.obj w1.nextId true (w.fac (w.prov pid).facId).clsHasFin)))
              (w.prov pid).facId
              (PyVal.objId (.obj w1.nextId true (w.fac (w.prov pid).facId).clsHasFin))
              (w.prov pid).reg (w.prov pid).svcName
            rw [h3] at this
            simp only at h
            cases h
            exact this rfl
          | ok u => intro h; simp at h

/-- Inversion of a successful generator-provider activation that found no
cached instance. -/
theorem genProvider_ok_shape {gi} (w : World) (pid : Nat) (w' : World) (v : PyVal)
    (hU : pyTruthy (w.prov pid).inst = false)
    (h : genProvider gi w pid = (w', .ok v)) :
    ∃ w1 vs y rest,
      getDepsWith gi w (w.prov pid).facId (w.fac (w.prov pid).facId).fname (w.prov pid).reg
        = (w1, .ok vs) ∧
      (w.fac (w.prov pid).facId).yields = y :: rest ∧
      v = (allocVal (logEv w1 (.callGen (w.prov pid).facId vs)) y).2 ∧
      w' = setProv (logEv (allocVal (logEv w1 (.callGen (w.prov pid).facId vs)) y).1
        (.genAdvance (w.prov pid).facId true)) pid
        (fun q => { q with gen := some rest, inst := v }) := by
  unfold genProvider at h
  dsimp only at h
  rw [if_neg (by simp [hU])] at h
  rcases h2 : getDepsWith gi w (w.prov pid).facId (w.fac (w.prov pid).facId).fname
      (w.prov pid).reg with ⟨w1, r1⟩
  rw [h2] at h
  cases r1 with
  | error e => simp at h
  | ok vs =>
    dsimp only at h
    cases hy : (w.fac (w.prov pid).facId).yields with
    | nil => rw [hy] at h; simp at h
    | cons y rest =>
      rw [hy] at h
      dsimp only at h
      rcases h3 : allocVal (logEv w1 (.callGen (w.prov pid).facId vs)) y with ⟨w3, v3⟩
      rw [h3] at h
      dsimp only at h
      rcases h with ⟨rfl, rfl⟩
      refine ⟨w1, vs, y, rest, rfl, rfl, ?_, ?_⟩
      · rw [h3]
      · rw [h3]

/-- C6: (i) construction — any `get_instance()` call — never raises
`MultipleYieldsError`; (ii) for a registered generator-style factory that
yields more than once, a successful construction advances the sequence
exactly once (the pending yields are all but the first) and caches the
first yielded value; and the finalize call that then observes the second
value raises `MultipleYieldsError`. -/
theorem c6_multiple_yields_on_finalize_only :
    (∀ fuel w pid, (getInstance fuel w pid).2 ≠ .error .multipleYields) ∧
    (∀ fuel w pid w' v y1 y2 rest,
      (w.fac (w.prov pid).facId).kind = .gen →
      (w.fac (w.prov pid).facId).yields = y1 :: y2 :: rest →
      pyTruthy (w.prov pid).inst = false →
      pid < w.provs.length →
      getInstance (fuel + 1) w pid = (w', .ok v) →
      (w'.prov pid).inst = v ∧ (w'.prov pid).gen = some (y2 :: rest) ∧
      (v ≠ .pyNone → (finalizeProv w' pid).2 = .error .multipleYields)) := by
  constructor
  · intro fuel w pid
    exact noMY_getInstance fuel w pid
  · intro fuel w pid w' v y1 y2 rest hk hy hU hplen h
    have hEv : Evolves w w' := by
      have h2 := evolves_getInstance (fuel + 1) w pid
      rwa [h] at h2
    rw [getInstance_succ] at h
    unfold giStep at h
    rw [hk] at h
    obtain ⟨w1, vs, y, rest', hdeps, hy', hv, hw'⟩ := genProvider_ok_shape w pid w' v hU h
    rw [hy] at hy'
    cases hy'
    have hev1 : Evolves w w1 := by
      have := evolves_getDeps (evolves_getInstance fuel) w (w.prov pid).facId
        (w.fac (w.prov pid).facId).fname (w.prov pid).reg
      rwa [hdeps] at this
    have hmidlen : pid < (logEv (allocVal (logEv w1 (.callGen (w.prov pid).facId vs)) y1).1
        (.genAdvance (w.prov pid).facId true)).provs.length := by
      have h1 : (allocVal (logEv w1 (.callGen (w.prov pid).facId vs)) y1).1.provs =
          w1.provs := by
        cases y1 <;> rfl
      simp only [logEv_provs, h1]
      rw [hev1.provs_len]
      exact hplen
    have hprov : (w'.prov pid).inst = v ∧ (w'.prov pid).gen = some (y2 :: rest) := by
      rw [hw', setProv_prov_self _ pid _ hmidlen]
      exact ⟨rfl, rfl⟩
    refine ⟨hprov.1, hprov.2, ?_⟩
    intro hvn
    unfold finalizeProv
    dsimp only
    have hk' : (w'.fac (w'.prov pid).facId).kind = .gen := by
      rw [hEv.prov_facId pid, hEv.fac_kind]
      exact hk
    rw [hk']
    dsimp only
    rw [if_neg (by rw [hprov.1]; exact hvn)]
    rw [hprov.2]

/-- A registered generator factory that yields twice (for the witness). -/
def c6World : World :=
  { facs := [mkFac .gen "g" [] none [some ⟨true, false⟩, some ⟨true, false⟩]],
    provs := [mkProv 0 0 "g"], regs := [[("g", 0)]], dicts := [] }

/-! ## Claim C7

`finalize_all` runs every entry's finalizer; each finalizer is a no-op when
nothing is cached, so the pass is idempotent.  (The hypothesis `genOkEntry`
restricts generator entries to ones respecting the exactly-one-yield
contract; a contract-violating generator makes `finalize_all` raise
`MultipleYieldsError`, which is C6's subject, not C7's.) -/

/-- `getattr(clazz, "_instance", None) is None`. -/
def noneLike (o : Option PyVal) : Prop := o = none ∨ o = some .pyNone

/-- The entry holds no constructed instance: `provider._instance is None`
for the direct/generator strategies, `clazz._instance` absent for the class
strategy. -/
def unbuiltEntry (w : World) (pid : Nat) : Prop :=
  ((w.fac (w.prov pid).facId).kind = .cls →
    noneLike ((w.fac (w.prov pid).facId).clsInst)) ∧
  ((w.fac (w.prov pid).facId).kind ≠ .cls → (w.prov pid).inst = .pyNone)

/-- A constructed generator entry has consumed its single yield: its
pending-yields list is empty (the state after constructing a generator that
respects the exactly-one-yield contract). -/
def genOkEntry (w : World) (pid : Nat) : Prop :=
  (w.fac (w.prov pid).facId).kind = .gen → (w.prov pid).inst ≠ .pyNone →
  ((w.prov pid).gen = some [] ∨ (w.prov pid).gen = none)

/-- A provider index with a cached value is in range. -/
theorem prov_lt_of_inst_ne (w : World) (pid : Nat) (hn : (w.prov pid).inst ≠ .pyNone) :
    pid < w.provs.length := by
  by_contra hlen
  have : w.provs[pid]? = none := by
    rw [List.getElem?_eq_none]
    omega
  have hd : w.prov pid = default := by rw [World.prov, this]; rfl
  rw [hd] at hn
  exact hn rfl

/-- A factory index with a present `clsInst` is in range. -/
theorem fac_lt_of_clsInst_some (w : World) (i : Nat) (v : PyVal)
    (hc : (w.fac i).clsInst = some v) : i < w.facs.length := by
  by_contra hlen
  have : w.facs[i]? = none := by
    rw [List.getElem?_eq_none]
    omega
  have hd : w.fac i = default := by rw [World.fac, this]; rfl
  rw [hd] at hc
  cases hc

/-- `finalize()` on a never-constructed (or already-finalized) entry is a
complete no-op. -/
theorem finalizeProv_unbuilt_id (w : World) (pid : Nat) (hu : unbuiltEntry w pid) :
    finalizeProv w pid = (w, .ok ()) := by
  unfold finalizeProv
  dsimp only
  cases hk : (w.fac (w.prov pid).facId).kind with
  | direct =>
    dsimp only
    rw [if_pos (hu.2 (by rw [hk]; intro hc; cases hc))]
  | gen =>
    dsimp only
    rw [if_pos (hu.2 (by rw [hk]; intro hc; cases hc))]
  | cls =>
    dsimp only
    rcases hu.1 hk with hc | hc
    · rw [hc]
    · rw [hc]
      dsimp only
      rw [if_pos rfl]

theorem resetDelegates_provs :
    ∀ (ds : List (String × Bool)) (w : World) (o : Nat),
      (resetDelegates w ds o).provs = w.provs ∧ (resetDelegates w ds o).facs = w.facs ∧
      (resetDelegates w ds o).regs = w.regs ∧ (resetDelegates w ds o).log = w.log := by
  intro ds
  induction ds with
  | nil => intro w o; exact ⟨rfl, rfl, rfl, rfl⟩
  | cons d ds ih =>
    intro w o
    rcases d with ⟨dn, lz⟩
    unfold resetDelegates
    cases lz with
    | true => rw [if_pos rfl]; exact ih _ o
    | false => rw [if_neg Bool.false_ne_true]; exact ih _ o

/-- `finalize()` on an entry whose generator state respects the contract
succeeds, leaves the entry unbuilt, and preserves unbuiltness, the
generator contract and the registries of everything else. -/
theorem finalizeProv_good (w : World) (pid : Nat) (hg : genOkEntry w pid) :
    (finalizeProv w pid).2 = .ok () ∧
    unbuiltEntry (finalizeProv w pid).1 pid ∧
    (∀ pid2, unbuiltEntry w pid2 → unbuiltEntry (finalizeProv w pid).1 pid2) ∧
    (∀ pid2, genOkEntry w pid2 → genOkEntry (finalizeProv w pid).1 pid2) ∧
    ((finalizeProv w pid).1).regs = w.regs := by
  by_cases hun : unbuiltEntry w pid
  · rw [finalizeProv_unbuilt_id w pid hun]
    exact ⟨rfl, hun, fun _ h => h, fun _ h => h, rfl⟩
  · unfold finalizeProv
    dsimp only
    cases hk : (w.fac (w.prov pid).facId).kind with
    | direct =>
      dsimp only
      have hn : ¬ (w.prov pid).inst = .pyNone := by
        intro hn
        exact hun ⟨fun hc => (by rw [hk] at hc; cases hc), fun _ => hn⟩
      rw [if_neg hn]
      have hplen : pid < w.provs.length := prov_lt_of_inst_ne w pid hn
      set w0 := if (w.prov pid).fin = true then logEv w (.teardown (w.prov pid).facId) else w
        with hw0
      have hw0f : ∀ i, w0.fac i = w.fac i := by
        intro i
        rw [hw0]
        by_cases hf : (w.prov pid).fin = true <;> simp [hf]
      have hw0p : ∀ i, w0.prov i = w.prov i := by
        intro i
        rw [hw0]
        by_cases hf : (w.prov pid).fin = true <;> simp [hf]
      have hw0len : w0.provs.length = w.provs.length := by
        rw [hw0]
        by_cases hf : (w.prov pid).fin = true <;> simp [hf]
      have hself : (setProv w0 pid (fun q => { q with inst := .pyNone })).prov pid =
          { w.prov pid with inst := .pyNone } := by
        rw [setProv_prov_self w0 pid _ (by omega), hw0p]
      have hfacc : ∀ j, (setProv w0 pid (fun q => { q with inst := .pyNone })).fac j =
          w.fac j := by
        intro j
        rw [setProv_fac, hw0f]
      have hprovne : ∀ j, j ≠ pid →
          (setProv w0 pid (fun q => { q with inst := .pyNone })).prov j = w.prov j := by
        intro j hj
        rw [setProv_prov_ne w0 pid _ j (fun h => hj h.symm), hw0p]
      have hunb : unbuiltEntry (setProv w0 pid (fun q => { q with inst := .pyNone })) pid := by
        constructor
        · intro hc
          rw [show ((setProv w0 pid (fun q => { q with inst := .pyNone })).prov pid).facId =
            (w.prov pid).facId from by rw [hself], hfacc, hk] at hc
          cases hc
        · intro _
          rw [hself]
      have hregs : (setProv w0 pid (fun q => { q with inst := .pyNone })).regs = w.regs := by
        rw [setProv_regs, hw0]
        by_cases hf : (w.prov pid).fin = true <;> simp [hf]
      refine ⟨rfl, hunb, ?_, ?_, hregs⟩
      · intro pid2 hu2
        by_cases he : pid2 = pid
        · rw [he]
          exact hunb
        · constructor
          · intro hc
            rw [hprovne pid2 he, hfacc] at hc
            rw [hprovne pid2 he, hfacc]
            exact hu2.1 hc
          · intro hc
            rw [hprovne pid2 he, hfacc] at hc
            rw [hprovne pid2 he]
            exact hu2.2 hc
      · intro pid2 hg2
        by_cases he : pid2 = pid
        · rw [he]
          intro _ hcon
          rw [hself] at hcon
          exact absurd rfl hcon
        · intro hck hcon
          rw [hprovne pid2 he, hfacc] at hck
          rw [hprovne pid2 he] at hcon
          rw [hprovne pid2 he]
          exact hg2 hck hcon
    | gen =>
      dsimp only
      have hn : ¬ (w.prov pid).inst = .pyNone := by
        intro hn
        exact hun ⟨fun hc => (by rw [hk] at hc; cases hc), fun _ => hn⟩
      rw [if_neg hn]
      have hplen : pid < w.provs.length := prov_lt_of_inst_ne w pid hn
      rcases hg hk hn with hgen | hgen <;> rw [hgen]
      · -- generator present and exhausted: the StopIteration path
        dsimp only
        have hself : ((setProv (logEv w (.genAdvance (w.prov pid).facId false)) pid
            (fun q => { q with gen := none, inst := .pyNone })).prov pid) =
            { w.prov pid with gen := none, inst := .pyNone } := by
          rw [setProv_prov_self _ pid _ (by simpa using hplen)]
          rfl
        have hfacc : ∀ j, ((setProv (logEv w (.genAdvance (w.prov pid).facId false)) pid
            (fun q => { q with gen := none, inst := .pyNone })).fac j) = w.fac j := by
          intro j
          rw [setProv_fac, logEv_fac]
        have hprovne : ∀ j, j ≠ pid →
            ((setProv (logEv w (.genAdvance (w.prov pid).facId false)) pid
            (fun q => { q with gen := none, inst := .pyNone })).prov j) = w.prov j := by
          intro j hj
          rw [setProv_prov_ne _ pid _ j (fun h => hj h.symm), logEv_prov]
        have hunb : unbuiltEntry (setProv (logEv w (.genAdvance (w.prov pid).facId false)) pid
            (fun q => { q with gen := none, inst := .pyNone })) pid := by
          constructor
          · intro hc
            rw [show (((setProv (logEv w (.genAdvance (w.prov pid).facId false)) pid
              (fun q => { q with gen := none, inst := .pyNone })).prov pid)).facId =
              (w.prov pid).facId from by rw [hself], hfacc, hk] at hc
            cases hc
          · intro _
            rw [hself]
        refine ⟨rfl, hunb, ?_, ?_, by simp⟩
        · intro pid2 hu2
          by_cases he : pid2 = pid
          · rw [he]
            exact hunb
          · constructor
            · intro hc
              rw [hprovne pid2 he, hfacc] at hc
              rw [hprovne pid2 he, hfacc]
              exact hu2.1 hc
            · intro hc
              rw [hprovne pid2 he, hfacc] at hc
              rw [hprovne pid2 he]
              exact hu2.2 hc
        · intro pid2 hg2
          by_cases he : pid2 = pid
          · rw [he]
            intro _ hcon
            rw [hself] at hcon
            exact absurd rfl hcon
          · intro hck hcon
            rw [hprovne pid2 he, hfacc] at hck
            rw [hprovne pid2 he] at hcon
            rw [hprovne pid2 he]
            exact hg2 hck hcon
      · -- generator already dropped
        have hself : ((setProv w pid (fun q => { q with inst := .pyNone })).prov pid) =
            { w.prov pid with inst := .pyNone } := by
          rw [setProv_prov_self _ pid _ hplen]
        have hfacc : ∀ j, ((setProv w pid (fun q => { q with inst := .pyNone })).fac j) =
            w.fac j := by
          intro j
          rw [setProv_fac]
        have hprovne : ∀ j, j ≠ pid →
            ((setProv w pid (fun q => { q with inst := .pyNone })).prov j) = w.prov j := by
          intro j hj
          rw [setProv_prov_ne _ pid _ j (fun h => hj h.symm)]
        have hunb : unbuiltEntry (setProv w pid (fun q => { q with inst := .pyNone })) pid := by
          constructor
          · intro hc
            rw [show (((setProv w pid (fun q => { q with inst := .pyNone })).prov pid)).facId =
              (w.prov pid).facId from by rw [hself], hfacc, hk] at hc
            cases hc
          · intro _
            rw [hself]
        refine ⟨rfl, hunb, ?_, ?_, rfl⟩
        · intro pid2 hu2
          by_cases he : pid2 = pid
          · rw [he]
            exact hunb
          · constructor
            · intro hc
              rw [hprovne pid2 he, hfacc] at hc
              rw [hprovne pid2 he, hfacc]
              exact hu2.1 hc
            · intro hc
              rw [hprovne pid2 he, hfacc] at hc
              rw [hprovne pid2 he]
              exact hu2.2 hc
        · intro pid2 hg2
          by_cases he : pid2 = pid
          · rw [he]
            intro _ hcon
            rw [hself] at hcon
            exact absurd rfl hcon
          · intro hck hcon
            rw [hprovne pid2 he, hfacc] at hck
            rw [hprovne pid2 he] at hcon
            rw [hprovne pid2 he]
            exact hg2 hck hcon
    | cls =>
      dsimp only
      cases hc : (w.fac (w.prov pid).facId).clsInst with
      | none => exact absurd ⟨fun _ => Or.inl hc, fun hnc => absurd hk hnc⟩ hun
      | some v =>
        dsimp only
        by_cases hv : v = .pyNone
        · exact absurd ⟨fun _ => Or.inr (hv ▸ hc), fun hnc => absurd hk hnc⟩ hun
        · rw [if_neg hv]
          have hflen : (w.prov pid).facId < w.facs.length :=
            fac_lt_of_clsInst_some w (w.prov pid).facId v hc
          set wmid := resetDelegates (if v.hasFinalize = true then
            logEv w (.instTeardown v.objId) else w) (w.fac (w.prov pid).facId).delegates
            v.objId with hwmid
          have hmf : ∀ i, wmid.fac i = w.fac i := by
            intro i
            rw [hwmid]
            show ((resetDelegates _ _ _).facs[i]?).getD default = _
            rw [(resetDelegates_provs _ _ _).2.1]
            by_cases hfv : v.hasFinalize = true <;> simp [hfv] <;> rfl
          have hmp : ∀ i, wmid.prov i = w.prov i := by
            intro i
            rw [hwmid]
            show ((resetDelegates _ _ _).provs[i]?).getD default = _
            rw [(resetDelegates_provs _ _ _).1]
            by_cases hfv : v.hasFinalize = true <;> simp [hfv] <;> rfl
          have hmregs : wmid.regs = w.regs := by
            rw [hwmid, (resetDelegates_provs _ _ _).2.2.1]
            by_cases hfv : v.hasFinalize = true <;> simp [hfv]
          have hmflen : wmid.facs.length = w.facs.length := by
            rw [hwmid, (resetDelegates_provs _ _ _).2.1]
            by_cases hfv : v.hasFinalize = true <;> simp [hfv]
          have hprovall : ∀ j, (setFac wmid (w.prov pid).facId
              (fun g => { g with clsInst := none })).prov j = w.prov j := by
            intro j
            rw [setFac_prov, hmp]
          have hfacat : ∀ i, ((setFac wmid (w.prov pid).facId
              (fun g => { g with clsInst := none })).fac i).kind = (w.fac i).kind ∧
              (((setFac wmid (w.prov pid).facId
              (fun g => { g with clsInst := none })).fac i).clsInst = (w.fac i).clsInst ∨
              ((setFac wmid (w.prov pid).facId
              (fun g => { g with clsInst := none })).fac i).clsInst = none) := by
            intro i
            by_cases he : (w.prov pid).facId = i
            · rw [← he, setFac_fac_self wmid _ _ (by omega), hmf]
              exact ⟨rfl, Or.inr rfl⟩
            · rw [setFac_fac_ne wmid _ _ i he, hmf]
              exact ⟨rfl, Or.inl rfl⟩
          have hunb : unbuiltEntry (setFac wmid (w.prov pid).facId
              (fun g => { g with clsInst := none })) pid := by
            constructor
            · intro _
              rw [hprovall pid]
              rw [setFac_fac_self wmid _ _ (by omega)]
              exact Or.inl rfl
            · intro hnc
              exfalso
              apply hnc
              rw [hprovall pid, (hfacat (w.prov pid).facId).1, hk]
          refine ⟨rfl, hunb, ?_, ?_, by rw [setFac_regs, hmregs]⟩
          · intro pid2 hu2
            refine ⟨fun hck => ?_, fun hck => ?_⟩
            · rw [hprovall pid2] at hck ⊢
              rw [(hfacat (w.prov pid2).facId).1] at hck
              rcases (hfacat (w.prov pid2).facId).2 with h1 | h1
              · rw [h1]
                exact hu2.1 hck
              · rw [h1]
                exact Or.inl rfl
            · rw [hprovall pid2] at hck ⊢
              rw [(hfacat (w.prov pid2).facId).1] at hck
              exact hu2.2 hck
          · intro pid2 hg2
            intro hck hcon
            rw [hprovall pid2] at hck hcon ⊢
            rw [(hfacat (w.prov pid2).facId).1] at hck
            exact hg2 hck hcon

/-- Folding the finalizers over a list of registered entries: every
finalize succeeds, every listed entry ends unbuilt, unbuilt and
well-behaved-generator entries stay that way, and the registries are
untouched. -/
theorem finalizeEntries_good (es : List (String × Nat)) :
    ∀ (w : World), (∀ e ∈ es, genOkEntry w e.2) →
    (finalizeEntries w es).2 = .ok () ∧
    (∀ e ∈ es, unbuiltEntry (finalizeEntries w es).1 e.2) ∧
    (∀ pid2, unbuiltEntry w pid2 → unbuiltEntry (finalizeEntries w es).1 pid2) ∧
    (∀ pid2, genOkEntry w pid2 → genOkEntry (finalizeEntries w es).1 pid2) ∧
    ((finalizeEntries w es).1).regs = w.regs := by
  induction es with
  | nil =>
    intro w _
    exact ⟨rfl, by simp, fun _ h => h, fun _ h => h, rfl⟩
  | cons e rest ih =>
    obtain ⟨n, pid⟩ := e
    intro w hyp
    have h1 := finalizeProv_good w pid (hyp (n, pid) (by simp))
    rcases hstep : finalizeProv w pid with ⟨w1, r⟩
    rw [hstep] at h1
    dsimp only at h1
    have hr : r = .ok () := h1.1
    subst hr
    have hunf : finalizeEntries w ((n, pid) :: rest) = finalizeEntries w1 rest := by
      simp only [finalizeEntries]
      rw [hstep]
    rw [hunf]
    have hih := ih w1 (fun e2 he2 => h1.2.2.2.1 e2.2 (hyp e2 (List.mem_cons_of_mem _ he2)))
    refine ⟨hih.1, ?_, ?_, ?_, hih.2.2.2.2.trans h1.2.2.2.2⟩
    · intro e2 he2
      rcases List.mem_cons.1 he2 with he | he
      · rw [he]
        exact hih.2.2.1 pid h1.2.1
      · exact hih.2.1 e2 he
    · intro pid2 hu
      exact hih.2.2.1 pid2 (h1.2.2.1 pid2 hu)
    · intro pid2 hg
      exact hih.2.2.2.1 pid2 (h1.2.2.2.1 pid2 hg)

/-- Folding the finalizers over entries that are all unbuilt changes
nothing and succeeds. -/
theorem finalizeEntries_unbuilt_id (es : List (String × Nat)) :
    ∀ (w : World), (∀ e ∈ es, unbuiltEntry w e.2) →
    finalizeEntries w es = (w, .ok ()) := by
  induction es with
  | nil =>
    intro w _
    rfl
  | cons e rest ih =>
    obtain ⟨n, pid⟩ := e
    intro w hyp
    have h1 := finalizeProv_unbuilt_id w pid (hyp (n, pid) (by simp))
    unfold finalizeEntries
    rw [h1]
    exact ih w (fun e2 he2 => hyp e2 (List.mem_cons_of_mem _ he2))

theorem c6_multiple_yields_on_finalize_only_witness :
    (getInstance 2 c6World 0).2 ≠ .error .multipleYields ∧
    (((getInstance 2 c6World 0).1).prov 0).inst = .obj 0 true false ∧
    (((getInstance 2 c6World 0).1).prov 0).gen = some [some ⟨true, false⟩] ∧
    (finalizeProv (getInstance 2 c6World 0).1 0).2 = .error .multipleYields := by
  have ha := c6_multiple_yields_on_finalize_only.1 2 c6World 0
  have hb := c6_multiple_yields_on_finalize_only.2 1 c6World 0 (getInstance 2 c6World 0).1
    (.obj 0 true false) (some ⟨true, false⟩) (some ⟨true, false⟩) []
    (by decide) (by decide) (by decide) (by decide) (by decide)
  exact ⟨ha, hb.1, hb.2.1, hb.2.2 (by decide)⟩

instance (o : Option PyVal) : Decidable (noneLike o) :=
  decidable_of_iff (o = none ∨ o = some .pyNone) Iff.rfl

instance (w : World) (pid : Nat) : Decidable (unbuiltEntry w pid) :=
  decidable_of_iff (((w.fac (w.prov pid).facId).kind = .cls →
      noneLike ((w.fac (w.prov pid).facId).clsInst)) ∧
    ((w.fac (w.prov pid).facId).kind ≠ .cls → (w.prov pid).inst = .pyNone)) Iff.rfl

instance (w : World) (pid : Nat) : Decidable (genOkEntry w pid) :=
  decidable_of_iff ((w.fac (w.prov pid).facId).kind = .gen →
    (w.prov pid).inst ≠ .pyNone →
    ((w.prov pid).gen = some [] ∨ (w.prov pid).gen = none)) Iff.rfl

/-- A registry holding one entry of each strategy plus one never-constructed
entry, used to witness C7. -/
def c7World : World :=
  { facs := [mkFac .direct "a" [] (some ⟨true, false⟩) [] true,
             mkFac .gen "g" [] none [some ⟨true, false⟩],
             mkFac .cls "C" [] (some ⟨true, false⟩),
             mkFac .direct "n" []],
    provs := [mkProv 0 0 "a", mkProv 1 0 "g", mkProv 2 0 "C", mkProv 3 0 "n"],
    regs := [[("a", 0), ("g", 1), ("C", 2), ("n", 3)]], dicts := [] }

/-- `c7World` after constructing the direct, generator and class services
(the fourth entry is left unconstructed). -/
def c7Built : World :=
  (getInstance 2 ((getInstance 2 ((getInstance 2 c7World 0).1) 1).1) 2).1

/-- **C7.** `finalize_all()` invokes the finalizer of every registered entry:
provided every constructed generator entry respected the single-yield
contract, it raises nothing, afterwards every registered entry is unbuilt
(cached instances cleared), and a second `finalize_all()` in a row returns
the exact same state without raising (idempotence; this also covers a
registry where some entries were never constructed, since such entries
satisfy `unbuiltEntry` from the start).  `finalize()` of a never-constructed
entry is a no-op on the state. -/
theorem c7_finalize_all_idempotent (w : World) (reg : Nat)
    (hgood : ∀ e ∈ w.table reg, genOkEntry w e.2) :
    (finalizeAll w reg).2 = .ok () ∧
    (∀ e ∈ w.table reg, unbuiltEntry (finalizeAll w reg).1 e.2) ∧
    finalizeAll (finalizeAll w reg).1 reg = ((finalizeAll w reg).1, .ok ()) ∧
    (∀ pid, unbuiltEntry w pid → finalizeProv w pid = (w, .ok ())) := by
  have h := finalizeEntries_good (w.table reg) w hgood
  have htab : ((finalizeEntries w (w.table reg)).1).table reg = w.table reg := by
    show ((((finalizeEntries w (w.table reg)).1).regs[reg]?).getD []) = w.table reg
    rw [h.2.2.2.2]
    rfl
  refine ⟨h.1, h.2.1, ?_, fun pid hu => finalizeProv_unbuilt_id w pid hu⟩
  show finalizeEntries (finalizeEntries w (w.table reg)).1
      (((finalizeEntries w (w.table reg)).1).table reg) = _
  rw [htab]
  exact finalizeEntries_unbuilt_id (w.table reg) (finalizeEntries w (w.table reg)).1 h.2.1

theorem c7_finalize_all_idempotent_witness :
    (finalizeAll c7Built 0).2 = .ok () ∧
    finalizeAll (finalizeAll c7Built 0).1 0 = ((finalizeAll c7Built 0).1, .ok ()) :=
  have hg : ∀ e ∈ c7Built.table 0, genOkEntry c7Built e.2 := by decide
  ⟨(c7_finalize_all_idempotent c7Built 0 hg).1,
   (c7_finalize_all_idempotent c7Built 0 hg).2.2.1⟩

/-! ## Claim C10

`ClassInjectingWrapper` stores `clazz._instance` (line 184/193) and the
busy flag `_instance_is_being_created` (lines 105/110) on the class object
itself, not in the per-injector entry: registering the same class in two
injectors shares the singleton, the constructor call count and the busy
flag across both. -/

/-- Count of `callCls` constructor events for a factory. -/
def countClsEv (fid : Nat) : List Event → Nat
  | [] => 0
  | .callCls g _ :: rest => (if g = fid then 1 else 0) + countClsEv fid rest
  | _ :: rest => countClsEv fid rest

/-- One class factory registered (as provider 0 and 1) in two distinct
injector registries 0 and 1. -/
def c10World : World :=
  { facs := [mkFac .cls "C" []], provs := [mkProv 0 0 "C", mkProv 0 1 "C"],
    regs := [[("C", 0)], [("C", 1)]], dicts := [] }

/-- `c10World` after resolving through registry 0. -/
def c10A : World := (getInstance 2 c10World 0).1

/-- `c10A` after also resolving through registry 1. -/
def c10B : World := (getInstance 2 c10A 1).1

/-- `c10B` after finalizing through registry 1. -/
def c10F : World := (finalizeProv c10B 1).1

/-- The same class, registered in two registries, with a dependency `x`
resolvable only through registry 1. -/
def c10BusyWorld : World :=
  { facs := [mkFac .cls "C" ["x"], mkFac .direct "x" []],
    provs := [mkProv 0 0 "C", mkProv 0 1 "C", mkProv 1 1 "x"],
    regs := [[("C", 0)], [("C", 1), ("x", 2)]], dicts := [] }

/-- **C10.** The class-instantiation strategy keeps the cached singleton and
the busy flag on the class object, not in the registry entry.  With one
class registered in two injector registries: resolving through either
registry returns the identical instance (object id 0) while the constructor
runs exactly once across both; finalize through registry 1 removes
`clazz._instance` as observed by registry 0, whose next resolution
constructs a fresh instance (object id 1, second constructor call).
Likewise the busy flag is shared: a failed resolution through registry 0
(its registry lacks dependency `x`) leaves the class marked busy, so the
next resolution through registry 1 raises `RecursiveInjectionError` even
though registry 1 could have resolved `x`. -/
theorem c10_class_state_on_class_object :
    ((getInstance 2 c10World 0).2 = .ok (.obj 0 true false) ∧
     (getInstance 2 c10A 1).2 = .ok (.obj 0 true false) ∧
     countClsEv 0 c10B.log = 1 ∧
     (c10B.fac 0).clsInst = some (.obj 0 true false)) ∧
    ((finalizeProv c10B 1).2 = .ok () ∧
     (c10F.fac 0).clsInst = none ∧
     (getInstance 2 c10F 0).2 = .ok (.obj 1 true false) ∧
     countClsEv 0 ((getInstance 2 c10F 0).1).log = 2) ∧
    ((getInstance 3 c10BusyWorld 0).2 = .error (.notFound "x" "C") ∧
     (((getInstance 3 c10BusyWorld 0).1).fac 0).busy = true ∧
     (getInstance 3 (getInstance 3 c10BusyWorld 0).1 1).2 = .error (.recursive "C")) := by
  decide

/-! ## Claim C8

Eager vs. lazy `Injected` bound properties of a class-based service
(`Injected.__get__`, `ClassInjectingWrapper._inject_delegates`). -/

/-- A class service `O` with an eager bound property `d` and a lazy one
`l`, each backed by a zero-argument direct service. -/
def c8World : World :=
  { facs := [mkFac .cls "O" [] (some ⟨true, false⟩) [] false false [("d", false), ("l", true)],
             mkFac .direct "d" [], mkFac .direct "l" []],
    provs := [mkProv 0 0 "O", mkProv 1 0 "d", mkProv 2 0 "l"],
    regs := [[("O", 0), ("d", 1), ("l", 2)]], dicts := [] }

/-- `c8World` after constructing the owner `O` (its instance is object 0). -/
def c8Own : World := (getInstance 3 c8World 0).1

/-- `c8Own` after reading the lazy property `l` once. -/
def c8Read1 : World := (readProp (getInstance 3) c8Own 0 0 "l").1

/-- `c8Read1` after finalizing `l`'s backing entry (provider 2). -/
def c8Fin : World := (finalizeProv c8Read1 2).1

/-- **C8.** For a class-based service with bound properties: constructing
the owner resolves the eager property's dependency exactly once (one
`callFac` for factory 1) even though it is never read — and reading it
(twice) returns that stored value without touching the container state;
the lazy property's dependency is never constructed as long as the
property is unread (zero `callFac` for factory 2 after owner
construction); reading the lazy property constructs its dependency (object
2, first `callFac` for factory 2), and reading it again after that
dependency was finalized elsewhere triggers a fresh construction on that
read (object 3, second `callFac`). -/
theorem c8_eager_lazy_bound_properties :
    ((getInstance 3 c8World 0).2 = .ok (.obj 0 true false) ∧
     countFacEv 1 c8Own.log = 1 ∧
     (readProp (getInstance 3) c8Own 0 0 "d").2 = .ok (.obj 1 true false) ∧
     (readProp (getInstance 3) c8Own 0 0 "d").1 = c8Own ∧
     (readProp (getInstance 3) ((readProp (getInstance 3) c8Own 0 0 "d").1) 0 0 "d").2 =
       .ok (.obj 1 true false)) ∧
    countFacEv 2 c8Own.log = 0 ∧
    ((readProp (getInstance 3) c8Own 0 0 "l").2 = .ok (.obj 2 true false) ∧
     countFacEv 2 c8Read1.log = 1 ∧
     (finalizeProv c8Read1 2).2 = .ok () ∧
     (readProp (getInstance 3) c8Fin 0 0 "l").2 = .ok (.obj 3 true false) ∧
     countFacEv 2 ((readProp (getInstance 3) c8Fin 0 0 "l").1).log = 2) := by
  decide

/-! ## Claim C5

Parameter resolution order (`InjectingWrapperBase._get_dependencies`, the
`for par in signature.parameters:` loop) against the spec's step list. -/

/-- Transcription of the SPEC's resolution procedure (§4.2): "for each
declared parameter name, in declaration order: look it up in the Registry,
obtain its constructor thunk, invoke it, collect the resulting value;
return the ordered list of resolved values".  This is the spec-modelled
relation, to be compared with the source-translated `resolveParamsWith`. -/
inductive SpecResolveTrace (gi : World → Nat → World × Except InjErr PyVal)
    (reg : Nat) (nameArg : String) : World → List String → World → List PyVal → Prop where
  | nil (w : World) : SpecResolveTrace gi reg nameArg w [] w []
  | cons (w : World) (p : String) (ps : List String) (pid : Nat) (w1 w2 : World)
      (v : PyVal) (w3 : World) (vs : List PyVal) :
      injGet w reg p nameArg = (w1, .ok pid) →
      gi w1 pid = (w2, .ok v) →
      SpecResolveTrace gi reg nameArg w2 ps w3 vs →
      SpecResolveTrace gi reg nameArg w (p :: ps) w3 (v :: vs)

/-- A spec trace resolves exactly one value per declared parameter. -/
theorem specResolveTrace_length {gi : World → Nat → World × Except InjErr PyVal}
    {reg : Nat} {nameArg : String} :
    ∀ {w : World} {ps : List String} {w' : World} {vs : List PyVal},
      SpecResolveTrace gi reg nameArg w ps w' vs → vs.length = ps.length := by
  intro w ps w' vs h
  induction h with
  | nil => rfl
  | cons _ _ _ _ _ _ _ _ _ _ _ _ ih => simp [ih]

/-- The source loop refines the spec trace. -/
theorem trace_of_resolveParams {gi : World → Nat → World × Except InjErr PyVal}
    (reg : Nat) (nameArg : String) :
    ∀ (ps : List String) (w w' : World) (vs : List PyVal),
      resolveParamsWith gi w ps nameArg reg = (w', .ok vs) →
      SpecResolveTrace gi reg nameArg w ps w' vs := by
  intro ps
  induction ps with
  | nil =>
    intro w w' vs h
    unfold resolveParamsWith at h
    injection h with ha hb
    injection hb with hb
    subst ha
    subst hb
    exact SpecResolveTrace.nil w
  | cons p ps ih =>
    intro w w' vs h
    unfold resolveParamsWith at h
    rcases h1 : injGet w reg p nameArg with ⟨w1, r1⟩
    rw [h1] at h
    cases r1 with
    | error e => simp at h
    | ok pid =>
      dsimp only at h
      rcases h2 : gi w1 pid with ⟨w2, r2⟩
      rw [h2] at h
      cases r2 with
      | error e => simp at h
      | ok v =>
        dsimp only at h
        rcases h3 : resolveParamsWith gi w2 ps nameArg reg with ⟨w3, r3⟩
        rw [h3] at h
        cases r3 with
        | error e => simp at h
        | ok vs2 =>
          dsimp only at h
          injection h with ha hb
          injection hb with hb
          subst ha
          subst hb
          exact SpecResolveTrace.cons w p ps pid w1 w2 v w3 vs2 h1 h2 (ih w2 w3 vs2 h3)

/-- The spec trace is realised by the source loop. -/
theorem resolveParams_of_trace {gi : World → Nat → World × Except InjErr PyVal}
    {reg : Nat} {nameArg : String} :
    ∀ {w : World} {ps : List String} {w' : World} {vs : List PyVal},
      SpecResolveTrace gi reg nameArg w ps w' vs →
      resolveParamsWith gi w ps nameArg reg = (w', .ok vs) := by
  intro w ps w' vs h
  induction h with
  | nil w => rfl
  | cons w p ps pid w1 w2 v w3 vs h1 h2 _ ih =>
    unfold resolveParamsWith
    rw [h1]
    dsimp only
    rw [h2]
    dsimp only
    rw [ih]

/-- A direct provider that constructs passes the resolved dependency list,
unchanged and in order, as the factory call's positional argument list. -/
theorem directProvider_calls_with_args {gi : World → Nat → World × Except InjErr PyVal}
    (w w1 : World) (pid : Nat) (vs : List PyVal)
    (hU : pyTruthy (w.prov pid).inst = false)
    (hdeps : getDepsWith gi w (w.prov pid).facId (w.fac (w.prov pid).facId).fname
      (w.prov pid).reg = (w1, .ok vs)) :
    ∃ v w4, directProvider gi w pid = (w4, .ok v) ∧
      w4.log = w1.log ++ [.callFac (w.prov pid).facId vs] := by
  unfold directProvider
  dsimp only
  rw [if_neg (by simp [hU]), hdeps]
  dsimp only
  rcases h3 : allocVal w1 (w.fac (w.prov pid).facId).ret with ⟨w2, v2⟩
  dsimp only
  refine ⟨v2, _, rfl, ?_⟩
  simp only [setProv_log, logEv_log]
  have hl := allocVal_log w1 (w.fac (w.prov pid).facId).ret
  rw [h3] at hl
  dsimp only at hl
  rw [hl]

/-- **C5.** During resolution the declared parameter names are processed in
declaration order — look up, invoke the obtained thunk, collect — exactly
as the spec's step list prescribes (the source loop succeeds iff the
spec-shaped trace exists, threading the state left to right), producing one
value per parameter; a constructing direct provider passes the resolved
list positionally, unchanged and in order, as the factory call's arguments;
and a factory declaring zero parameters resolves to the empty argument list
with the log untouched — since every registry lookup appends a `lookup`
event, no registry lookup occurs. -/
theorem c5_parameters_in_declaration_order :
    (∀ (gi : World → Nat → World × Except InjErr PyVal) (reg : Nat) (nameArg : String)
        (ps : List String) (w w' : World) (vs : List PyVal),
        resolveParamsWith gi w ps nameArg reg = (w', .ok vs) ↔
        SpecResolveTrace gi reg nameArg w ps w' vs) ∧
    (∀ (gi : World → Nat → World × Except InjErr PyVal) (reg : Nat) (nameArg : String)
        (ps : List String) (w w' : World) (vs : List PyVal),
        resolveParamsWith gi w ps nameArg reg = (w', .ok vs) → vs.length = ps.length) ∧
    (∀ (gi : World → Nat → World × Except InjErr PyVal) (w w1 : World) (pid : Nat)
        (vs : List PyVal),
        pyTruthy (w.prov pid).inst = false →
        getDepsWith gi w (w.prov pid).facId (w.fac (w.prov pid).facId).fname
          (w.prov pid).reg = (w1, .ok vs) →
        ∃ v w4, directProvider gi w pid = (w4, .ok v) ∧
          w4.log = w1.log ++ [.callFac (w.prov pid).facId vs]) ∧
    (∀ (gi : World → Nat → World × Except InjErr PyVal) (w : World) (facId : Nat)
        (nameArg : String) (reg : Nat),
        (w.fac facId).params = [] → busyF w facId = false →
        (getDepsWith gi w facId nameArg reg).1.log = w.log ∧
        (getDepsWith gi w facId nameArg reg).2 = .ok []) := by
  refine ⟨?_, ?_, ?_, ?_⟩
  · intro gi reg nameArg ps w w2 vs
    exact ⟨trace_of_resolveParams reg nameArg ps w w2 vs, resolveParams_of_trace⟩
  · intro gi reg nameArg ps w w2 vs h
    exact specResolveTrace_length (trace_of_resolveParams reg nameArg ps w w2 vs h)
  · intro gi w w1 pid vs hU hdeps
    exact directProvider_calls_with_args w w1 pid vs hU hdeps
  · intro gi w facId nameArg reg hp hb
    exact getDeps_no_params w facId nameArg reg hp hb

/-- A direct factory `f(a, b)` with two zero-argument direct dependencies. -/
def c5World : World :=
  { facs := [mkFac .direct "f" ["a", "b"], mkFac .direct "a" [], mkFac .direct "b" []],
    provs := [mkProv 0 0 "f", mkProv 1 0 "a", mkProv 2 0 "b"],
    regs := [[("f", 0), ("a", 1), ("b", 2)]], dicts := [] }

theorem c5_parameters_in_declaration_order_witness :
    SpecResolveTrace (getInstance 1) 0 "f" c5World ["a", "b"]
      (resolveParamsWith (getInstance 1) c5World ["a", "b"] "f" 0).1
      [.obj 0 true false, .obj 1 true false] ∧
    ([PyVal.obj 0 true false, PyVal.obj 1 true false].length = ["a", "b"].length) ∧
    (∃ v w4, directProvider (getInstance 1) c5World 0 = (w4, .ok v) ∧
      w4.log = ((getDepsWith (getInstance 1) c5World 0 "f" 0).1).log ++
        [.callFac 0 [.obj 0 true false, .obj 1 true false]]) ∧
    ((getDepsWith (getInstance 1) c5World 1 "a" 0).1.log = c5World.log ∧
     (getDepsWith (getInstance 1) c5World 1 "a" 0).2 = .ok []) :=
  ⟨(c5_parameters_in_declaration_order.1 (getInstance 1) 0 "f" ["a", "b"] c5World
      (resolveParamsWith (getInstance 1) c5World ["a", "b"] "f" 0).1
      [.obj 0 true false, .obj 1 true false]).mp (by decide),
   c5_parameters_in_declaration_order.2.1 (getInstance 1) 0 "f" ["a", "b"] c5World
      (resolveParamsWith (getInstance 1) c5World ["a", "b"] "f" 0).1
      [.obj 0 true false, .obj 1 true false] (by decide),
   c5_parameters_in_declaration_order.2.2.1 (getInstance 1) c5World
      (getDepsWith (getInstance 1) c5World 0 "f" 0).1 0
      [.obj 0 true false, .obj 1 true false] (by decide) (by decide),
   c5_parameters_in_declaration_order.2.2.2 (getInstance 1) c5World 1 "a" 0
      (by decide) (by decide)⟩

/-! ## Claim C3

Cyclic dependency graphs.  `mkGraphWorld g` builds, for an arbitrary
dependency graph `g` (each entry: a service name with the parameter names
its direct-call factory declares), the world `Injector()` plus one
`register_factory` per entry produces: one direct factory per node, one
provider per node at the same index, a single registry table.  `gE` is the
spec's dependency-edge relation, `gReach` reachability and `gCyc` cycle
membership. -/

def gNm (g : List (String × List String)) (i : Nat) : String := ((g[i]?).getD ("", [])).1

def gPr (g : List (String × List String)) (i : Nat) : List String := ((g[i]?).getD ("", [])).2

/-- The dependency edge: factory `i` declares a parameter named like
service `j`. -/
def gE (g : List (String × List String)) (i j : Nat) : Prop :=
  i < g.length ∧ j < g.length ∧ gNm g j ∈ gPr g i

def gReach (g : List (String × List String)) : Nat → Nat → Prop :=
  Relation.ReflTransGen (gE g)

/-- Node `i` is a member of a dependency cycle (self-reference included). -/
def gCyc (g : List (String × List String)) (i : Nat) : Prop :=
  Relation.TransGen (gE g) i i

def graphTable (g : List (String × List String)) : List (String × Nat) :=
  (List.range g.length).map (fun i => (gNm g i, i))

def mkGraphWorld (g : List (String × List String)) : World :=
  { facs := g.map (fun e => mkFac .direct e.1 e.2),
    provs := (List.range g.length).map (fun i => mkProv i 0 (gNm g i)),
    regs := [graphTable g], dicts := [] }

/-- The world-shape invariant maintained by every resolution step on a
graph world: static structure of `mkGraphWorld g`, arbitrary busy flags,
and caches that are either absent (`None`) or truthy. -/
def GInv (g : List (String × List String)) (w : World) : Prop :=
  w.facs.length = g.length ∧ w.provs.length = g.length ∧
  w.regs = [graphTable g] ∧
  (∀ i, i < g.length → (w.fac i).kind = .direct ∧ (w.fac i).fname = gNm g i ∧
    (w.fac i).params = gPr g i ∧ (w.fac i).ret = some ⟨true, false⟩) ∧
  (∀ i, i < g.length → (w.prov i).facId = i ∧ (w.prov i).reg = 0) ∧
  (∀ i, i < g.length → (w.prov i).inst = .pyNone ∨ pyTruthy (w.prov i).inst = true)

/-- Every cached node avoids cycles (transitively). -/
def CacheOK (g : List (String × List String)) (w : World) : Prop :=
  ∀ j, j < g.length → pyTruthy (w.prov j).inst = true →
    ∀ c, gReach g j c → ¬ gCyc g c

/-- The number of graph nodes not currently marked busy: the fuel measure
of the resolution recursion. -/
def nonBusy (g : List (String × List String)) (w : World) : Nat :=
  ((List.range g.length).filter (fun i => !busyF w i)).length

theorem nonBusy_le (g : List (String × List String)) (w : World) :
    nonBusy g w ≤ g.length := by
  have h := List.length_filter_le (fun i => !busyF w i) (List.range g.length)
  simpa using h

theorem nonBusy_congr (g : List (String × List String)) {w w2 : World}
    (h : ∀ i, i < g.length → busyF w2 i = busyF w i) : nonBusy g w2 = nonBusy g w := by
  unfold nonBusy
  exact congrArg List.length
    (List.filter_congr (fun a ha => by rw [h a (List.mem_range.mp ha)]))

theorem filter_setBusy_aux (w : World) (i : Nat) (hlen : i < w.facs.length)
    (hb : busyF w i = false) :
    ∀ l : List Nat, l.Nodup → i ∈ l →
      (l.filter (fun j => !busyF (setBusy w i true) j)).length + 1 =
      (l.filter (fun j => !busyF w j)).length := by
  intro l
  induction l with
  | nil =>
    intro _ h
    cases h
  | cons a l ih =>
    intro hnd hmem
    rcases List.mem_cons.1 hmem with rfl | hmem2
    · rw [List.filter_cons, List.filter_cons]
      have h1 : (!busyF (setBusy w i true) i) = false := by
        rw [busyF_setBusy_self w i true hlen]
        rfl
      have h2 : (!busyF w i) = true := by
        rw [hb]
        rfl
      rw [h1, h2, if_neg (by simp), if_pos rfl]
      have hnotin : i ∉ l := (List.nodup_cons.mp hnd).1
      have hsame : l.filter (fun j => !busyF (setBusy w i true) j) =
          l.filter (fun j => !busyF w j) := by
        apply List.filter_congr
        intro b hbmem
        have hne : i ≠ b := fun h => hnotin (h ▸ hbmem)
        rw [busyF_setBusy_ne w i true b hne]
      rw [hsame, List.length_cons]
    · have hne : i ≠ a := by
        intro h
        exact (List.nodup_cons.mp hnd).1 (h ▸ hmem2)
      rw [List.filter_cons, List.filter_cons, busyF_setBusy_ne w i true a hne]
      have ihh := ih (List.nodup_cons.mp hnd).2 hmem2
      by_cases hba : (!busyF w a) = true
      · rw [if_pos hba, if_pos hba, List.length_cons, List.length_cons]
        omega
      · rw [if_neg hba, if_neg hba]
        exact ihh

theorem nonBusy_setBusy (g : List (String × List String)) (w : World) (i : Nat)
    (hi : i < g.length) (hlen : i < w.facs.length) (hb : busyF w i = false) :
    nonBusy g (setBusy w i true) + 1 = nonBusy g w :=
  filter_setBusy_aux w i hlen hb (List.range g.length) (List.nodup_range _)
    (List.mem_range.mpr hi)

theorem gNm_inj (g : List (String × List String)) (hnd : (g.map Prod.fst).Nodup)
    {j k : Nat} (hj : j < g.length) (hk : k < g.length) (h : gNm g j = gNm g k) :
    j = k := by
  have hj2 : j < (g.map Prod.fst).length := by simpa using hj
  have hk2 : k < (g.map Prod.fst).length := by simpa using hk
  have e1 : gNm g j = (g.map Prod.fst).get ⟨j, hj2⟩ := by
    simp [gNm, List.get_eq_getElem, List.getElem?_eq_getElem hj]
  have e2 : gNm g k = (g.map Prod.fst).get ⟨k, hk2⟩ := by
    simp [gNm, List.get_eq_getElem, List.getElem?_eq_getElem hk]
  rw [e1, e2] at h
  have h2 := List.nodup_iff_injective_get.mp hnd h
  exact congrArg Fin.val h2

theorem graph_lookup_aux (g : List (String × List String)) (p : String) :
    ∀ l : List Nat, (∃ i ∈ l, gNm g i = p) →
      ∃ j ∈ l, gNm g j = p ∧ lookupTable (l.map (fun i => (gNm g i, i))) p = some j := by
  intro l
  induction l with
  | nil =>
    rintro ⟨i, h, _⟩
    cases h
  | cons a l ih =>
    rintro ⟨i, hmem, hnm⟩
    by_cases ha : gNm g a = p
    · exact ⟨a, by simp, ha, by simp [lookupTable, ha]⟩
    · have hex : ∃ i ∈ l, gNm g i = p := by
        rcases List.mem_cons.1 hmem with rfl | h
        · exact absurd hnm ha
        · exact ⟨i, h, hnm⟩
      obtain ⟨j, hj, hjn, hl⟩ := ih hex
      exact ⟨j, List.mem_cons_of_mem _ hj, hjn, by simp [lookupTable, ha, hl]⟩

theorem graph_lookup (g : List (String × List String)) (p : String)
    (hp : p ∈ g.map Prod.fst) :
    ∃ j, j < g.length ∧ gNm g j = p ∧ lookupTable (graphTable g) p = some j := by
  obtain ⟨e, he, hep⟩ := List.mem_map.mp hp
  obtain ⟨⟨i, hi⟩, hie⟩ := List.mem_iff_get.mp he
  have hnm : gNm g i = p := by
    rw [← hep, ← hie]
    simp [gNm, List.getElem?_eq_getElem hi, List.get_eq_getElem]
  obtain ⟨j, hj, hjn, hl⟩ := graph_lookup_aux g p (List.range g.length)
    ⟨i, List.mem_range.mpr hi, hnm⟩
  exact ⟨j, List.mem_range.mp hj, hjn, hl⟩

theorem GInv_mk (g : List (String × List String)) : GInv g (mkGraphWorld g) := by
  refine ⟨by simp [mkGraphWorld], by simp [mkGraphWorld], rfl, ?_, ?_, ?_⟩
  · intro i hi
    have hf : (mkGraphWorld g).fac i = mkFac .direct (gNm g i) (gPr g i) := by
      unfold World.fac mkGraphWorld
      simp [List.getElem?_eq_getElem hi, gNm, gPr, List.getElem?_map]
    rw [hf]
    exact ⟨rfl, rfl, rfl, rfl⟩
  · intro i hi
    have hp : (mkGraphWorld g).prov i = mkProv i 0 (gNm g i) := by
      unfold World.prov mkGraphWorld
      simp [List.getElem?_map, List.getElem?_eq_getElem, hi]
    rw [hp]
    exact ⟨rfl, rfl⟩
  · intro i hi
    left
    have hp : (mkGraphWorld g).prov i = mkProv i 0 (gNm g i) := by
      unfold World.prov mkGraphWorld
      simp [List.getElem?_map, List.getElem?_eq_getElem, hi]
    rw [hp]
    rfl

theorem CacheOK_mk (g : List (String × List String)) : CacheOK g (mkGraphWorld g) := by
  intro j hj htr
  exfalso
  have hp : (mkGraphWorld g).prov j = mkProv j 0 (gNm g j) := by
    unfold World.prov mkGraphWorld
    simp [List.getElem?_map, List.getElem?_eq_getElem, hj]
  rw [hp] at htr
  cases htr

theorem busyF_mk (g : List (String × List String)) (i : Nat) :
    busyF (mkGraphWorld g) i = false := by
  unfold busyF World.fac mkGraphWorld
  by_cases hi : i < g.length
  · simp [List.getElem?_map, List.getElem?_eq_getElem, hi, mkFac]
  · rw [List.getElem?_eq_none (by simpa using hi)]
    rfl

theorem GInv_evolve (g : List (String × List String)) {w w2 : World} (h : GInv g w)
    (he : Evolves w w2)
    (hinst : ∀ i, i < g.length →
      (w2.prov i).inst = .pyNone ∨ pyTruthy (w2.prov i).inst = true) : GInv g w2 := by
  refine ⟨he.facs_len.trans h.1, he.provs_len.trans h.2.1, he.regs_eq.trans h.2.2.1,
    ?_, ?_, hinst⟩
  · intro i hi
    rw [he.fac_kind, he.fac_fname, he.fac_params, he.fac_ret]
    exact h.2.2.2.1 i hi
  · intro i hi
    rw [he.prov_facId, he.prov_reg]
    exact h.2.2.2.2.1 i hi

theorem GInv_logEv (g : List (String × List String)) {w : World} (h : GInv g w)
    (e : Event) : GInv g (logEv w e) := h

theorem CacheOK_logEv (g : List (String × List String)) {w : World} (h : CacheOK g w)
    (e : Event) : CacheOK g (logEv w e) := h

theorem GInv_setBusy (g : List (String × List String)) {w : World} (h : GInv g w)
    (i : Nat) (b : Bool) : GInv g (setBusy w i b) := by
  have he : Evolves w (setBusy w i b) :=
    evolves_setFac w i _ (fun f => by simp [facShape])
  refine GInv_evolve g h he ?_
  intro j hj
  have : (setBusy w i b).prov j = w.prov j := rfl
  rw [this]
  exact h.2.2.2.2.2 j hj

theorem CacheOK_setBusy (g : List (String × List String)) {w : World} (h : CacheOK g w)
    (i : Nat) (b : Bool) : CacheOK g (setBusy w i b) := h

theorem GInv_allocVal (g : List (String × List String)) {w : World} (h : GInv g w)
    (s : Option ObjSpec) : GInv g (allocVal w s).1 := by
  cases s
  · exact h
  · exact h

theorem CacheOK_allocVal (g : List (String × List String)) {w : World} (h : CacheOK g w)
    (s : Option ObjSpec) : CacheOK g (allocVal w s).1 := by
  cases s
  · exact h
  · exact h


theorem busyF_true_lt (w : World) (l : Nat) (h : busyF w l = true) : l < w.facs.length := by
  by_contra hlen
  have hnone : w.facs[l]? = none := by
    rw [List.getElem?_eq_none]
    omega
  have hd : w.fac l = default := by
    rw [World.fac, hnone]
    rfl
  rw [busyF, hd] at h
  exact absurd h (by decide)

theorem gPr_closed (g : List (String × List String))
    (hclosed : ∀ e ∈ g, ∀ p ∈ e.2, p ∈ g.map Prod.fst) {i : Nat} {p : String}
    (hi : i < g.length) (hp : p ∈ gPr g i) : p ∈ g.map Prod.fst := by
  have hmem : g.get ⟨i, hi⟩ ∈ g := List.get_mem g i hi
  have hpr : gPr g i = (g.get ⟨i, hi⟩).2 := by
    simp [gPr, List.getElem?_eq_getElem hi, List.get_eq_getElem]
  exact hclosed _ hmem p (hpr ▸ hp)

theorem gTable (g : List (String × List String)) {w : World} (h : GInv g w) :
    w.table 0 = graphTable g := by
  rw [World.table, h.2.2.1]
  rfl

/-- The induction package for one resolution (`get_instance`) on a graph
world: starting from any reachable state whose stuck busy flags are
cycle-reaching (apart from the current construction stack), a resolution
preserves the invariants; a success restores every busy flag and proves
the target's reachable set busy-free and cycle-free; a failure is a
`RecursiveInjectionError` whose stuck flags reach a cycle, the initial
busy set or the stack. -/
def MainGood (g : List (String × List String)) (fuel : Nat) : Prop :=
  ∀ (w : World) (i : Nat) (stack : List Nat),
    GInv g w → CacheOK g w → i < g.length →
    (∀ m, m < g.length → busyF w m = true →
      m ∈ stack ∨ ∃ c, gReach g m c ∧ gCyc g c) →
    (∀ a, a ∈ stack → Relation.TransGen (gE g) a i ∧ busyF w a = true) →
    nonBusy g w + 1 ≤ fuel →
    GInv g (getInstance fuel w i).1 ∧ CacheOK g (getInstance fuel w i).1 ∧
    (∀ m, busyF w m = true → busyF (getInstance fuel w i).1 m = true) ∧
    ((∃ v, (getInstance fuel w i).2 = .ok v ∧
        (∀ m, busyF (getInstance fuel w i).1 m = busyF w m) ∧
        (∀ l, gReach g i l → busyF w l = false ∧ ¬ gCyc g l)) ∨
     ((∃ s, (getInstance fuel w i).2 = .error (.recursive s)) ∧
      (∀ m, m < g.length → busyF (getInstance fuel w i).1 m = true →
        busyF w m = true ∨ (∃ c, gReach g m c ∧ gCyc g c) ∨
        (∃ a, a ∈ stack ∧ gReach g m a)) ∧
      (∃ l, gReach g i l ∧ (gCyc g l ∨ busyF w l = true))))

/-- The companion package for the parameter loop of one construction:
owner `i` is marked busy, the remaining parameter names are a subset of
its declaration. -/
def LoopGood (g : List (String × List String)) (fuel : Nat) : Prop :=
  ∀ (ps : List String) (wL : World) (i : Nat) (stack : List Nat) (nameArg : String),
    GInv g wL → CacheOK g wL → i < g.length →
    (∀ p, p ∈ ps → p ∈ gPr g i) →
    busyF wL i = true →
    (∀ m, m < g.length → busyF wL m = true →
      m ∈ i :: stack ∨ ∃ c, gReach g m c ∧ gCyc g c) →
    (∀ a, a ∈ stack → Relation.TransGen (gE g) a i ∧ busyF wL a = true) →
    nonBusy g wL + 1 ≤ fuel →
    GInv g (resolveParamsWith (getInstance fuel) wL ps nameArg 0).1 ∧
    CacheOK g (resolveParamsWith (getInstance fuel) wL ps nameArg 0).1 ∧
    (∀ m, busyF wL m = true →
      busyF (resolveParamsWith (getInstance fuel) wL ps nameArg 0).1 m = true) ∧
    ((∃ vs, (resolveParamsWith (getInstance fuel) wL ps nameArg 0).2 = .ok vs ∧
        (∀ m, busyF (resolveParamsWith (getInstance fuel) wL ps nameArg 0).1 m =
          busyF wL m) ∧
        (∀ k l, k < g.length → gNm g k ∈ ps → gReach g k l →
          busyF wL l = false ∧ ¬ gCyc g l)) ∨
     ((∃ s, (resolveParamsWith (getInstance fuel) wL ps nameArg 0).2 =
        .error (.recursive s)) ∧
      (∀ m, m < g.length →
        busyF (resolveParamsWith (getInstance fuel) wL ps nameArg 0).1 m = true →
        busyF wL m = true ∨ (∃ c, gReach g m c ∧ gCyc g c) ∨
        (∃ a, a ∈ i :: stack ∧ gReach g m a)) ∧
      (∃ l, Relation.TransGen (gE g) i l ∧ (gCyc g l ∨ busyF wL l = true))))

theorem loop_step (g : List (String × List String))
    (hnodup : (g.map Prod.fst).Nodup)
    (hclosed : ∀ e ∈ g, ∀ p ∈ e.2, p ∈ g.map Prod.fst)
    (fuel : Nat) (hmain : MainGood g fuel) : LoopGood g fuel := by
  intro ps
  induction ps with
  | nil =>
    intro wL i stack nameArg hinv hck hi hps hbi hbusy hchain hfuel
    refine ⟨hinv, hck, fun m hm => hm, Or.inl ⟨[], rfl, fun m => rfl, ?_⟩⟩
    intro k l hk hmem
    exact absurd hmem (List.not_mem_nil _)
  | cons p ps ih =>
    intro wL i stack nameArg hinv hck hi hps hbi hbusy hchain hfuel
    obtain ⟨j, hj, hjn, hlook⟩ := graph_lookup g p
      (gPr_closed g hclosed hi (hps p (List.mem_cons_self p ps)))
    have hedge : gE g i j := ⟨hi, hj, by rw [hjn]; exact hps p (List.mem_cons_self p ps)⟩
    have hinj : injGet wL 0 p nameArg = (logEv wL (.lookup p nameArg), .ok j) := by
      rw [injGet_eq, gTable g hinv, hlook]
    have hbusy2 : ∀ m, m < g.length → busyF (logEv wL (.lookup p nameArg)) m = true →
        m ∈ i :: stack ∨ ∃ c, gReach g m c ∧ gCyc g c := by
      intro m hm hbm
      rw [busyF_logEv] at hbm
      exact hbusy m hm hbm
    have hchain2 : ∀ a, a ∈ i :: stack →
        Relation.TransGen (gE g) a j ∧ busyF (logEv wL (.lookup p nameArg)) a = true := by
      intro a ha
      rcases List.mem_cons.1 ha with rfl | ha2
      · exact ⟨Relation.TransGen.single hedge, by rw [busyF_logEv]; exact hbi⟩
      · exact ⟨Relation.TransGen.tail (hchain a ha2).1 hedge,
          by rw [busyF_logEv]; exact (hchain a ha2).2⟩
    have hfuel2 : nonBusy g (logEv wL (.lookup p nameArg)) + 1 ≤ fuel := by
      have heq : nonBusy g (logEv wL (.lookup p nameArg)) = nonBusy g wL :=
        nonBusy_congr g (fun m hm => by rw [busyF_logEv])
      omega
    have hM := hmain (logEv wL (.lookup p nameArg)) j (i :: stack)
      (GInv_logEv g hinv _) (CacheOK_logEv g hck _) hj hbusy2 hchain2 hfuel2
    rcases hga : getInstance fuel (logEv wL (.lookup p nameArg)) j with ⟨wb, rb⟩
    rw [hga] at hM
    dsimp only at hM
    obtain ⟨hbGInv, hbCache, hbMono, hbCases⟩ := hM
    cases rb with
    | error e =>
      have hEq : resolveParamsWith (getInstance fuel) wL (p :: ps) nameArg 0 =
          (wb, .error e) := by
        unfold resolveParamsWith
        rw [hinj]
        dsimp only
        rw [hga]
      rcases hbCases with ⟨v2, hv2, h1, h2⟩ | ⟨⟨s, hs⟩, hE3, hreason⟩
      · simp at hv2
      · have hse : e = .recursive s := by
          injection hs with h
        subst hse
        rw [hEq]
        refine ⟨hbGInv, hbCache, ?_, Or.inr ⟨⟨s, rfl⟩, ?_, ?_⟩⟩
        · intro m hm
          apply hbMono
          rw [busyF_logEv]
          exact hm
        · intro m hm hbm
          rcases hE3 m hm hbm with hb1 | h2 | h3
          · rw [busyF_logEv] at hb1
            exact Or.inl hb1
          · exact Or.inr (Or.inl h2)
          · exact Or.inr (Or.inr h3)
        · obtain ⟨l, hrl, hcond⟩ := hreason
          refine ⟨l, Relation.TransGen.head' hedge hrl, ?_⟩
          rcases hcond with hcy | hbl
          · exact Or.inl hcy
          · rw [busyF_logEv] at hbl
            exact Or.inr hbl
    | ok v =>
      rcases hbCases with ⟨v2, hv2, hrestoreb, hO3b⟩ | ⟨⟨s, hs⟩, hE3, hreason⟩
      swap
      · simp at hs
      have hrestore2 : ∀ m, busyF wb m = busyF wL m := by
        intro m
        rw [hrestoreb m, busyF_logEv]
      have hI := ih wb i stack nameArg hbGInv hbCache hi
        (fun q hq => hps q (List.mem_cons_of_mem _ hq))
        (by rw [hrestore2 i]; exact hbi)
        (by
          intro m hm hbm
          rw [hrestore2 m] at hbm
          exact hbusy m hm hbm)
        (by
          intro a ha
          exact ⟨(hchain a ha).1, by rw [hrestore2 a]; exact (hchain a ha).2⟩)
        (by
          have heq : nonBusy g wb = nonBusy g wL :=
            nonBusy_congr g (fun m hm => hrestore2 m)
          omega)
      rcases hres2 : resolveParamsWith (getInstance fuel) wb ps nameArg 0 with ⟨wc, rc⟩
      rw [hres2] at hI
      dsimp only at hI
      obtain ⟨hcGInv, hcCache, hcMono, hcCases⟩ := hI
      cases rc with
      | error e =>
        have hEq : resolveParamsWith (getInstance fuel) wL (p :: ps) nameArg 0 =
            (wc, .error e) := by
          unfold resolveParamsWith
          rw [hinj]
          dsimp only
          rw [hga]
          dsimp only
          rw [hres2]
        rw [hEq]
        rcases hcCases with ⟨vs, hvs, h1, h2⟩ | ⟨⟨s, hs⟩, hE3c, hreasonc⟩
        · simp at hvs
        · have hse : e = .recursive s := by
            injection hs with h
          subst hse
          refine ⟨hcGInv, hcCache, ?_, Or.inr ⟨⟨s, rfl⟩, ?_, ?_⟩⟩
          · intro m hm
            apply hcMono
            rw [hrestore2 m]
            exact hm
          · intro m hm hbm
            rcases hE3c m hm hbm with hb1 | h2 | h3
            · rw [hrestore2 m] at hb1
              exact Or.inl hb1
            · exact Or.inr (Or.inl h2)
            · exact Or.inr (Or.inr h3)
          · obtain ⟨l, htl, hcond⟩ := hreasonc
            refine ⟨l, htl, ?_⟩
            rcases hcond with hcy | hbl
            · exact Or.inl hcy
            · rw [hrestore2 l] at hbl
              exact Or.inr hbl
      | ok vs =>
        have hEq : resolveParamsWith (getInstance fuel) wL (p :: ps) nameArg 0 =
            (wc, .ok (v :: vs)) := by
          unfold resolveParamsWith
          rw [hinj]
          dsimp only
          rw [hga]
          dsimp only
          rw [hres2]
        rw [hEq]
        rcases hcCases with ⟨vs2, hvs2, hrestorec, hO3c⟩ | ⟨⟨s, hs⟩, h1, h2⟩
        swap
        · simp at hs
        refine ⟨hcGInv, hcCache, ?_, Or.inl ⟨v :: vs, rfl, ?_, ?_⟩⟩
        · intro m hm
          apply hcMono
          rw [hrestore2 m]
          exact hm
        · intro m
          rw [hrestorec m, hrestore2 m]
        · intro k l hk hmem hreach
          rcases List.mem_cons.1 hmem with hkp | hkps
          · have hkj : k = j := gNm_inj g hnodup hk hj (hkp.trans hjn.symm)
            subst hkj
            have h1 := hO3b l hreach
            rw [busyF_logEv] at h1
            exact h1
          · have h1 := hO3c k l hk hkps hreach
            rw [hrestore2 l] at h1
            exact h1

theorem main_step (g : List (String × List String))
    (hnodup : (g.map Prod.fst).Nodup)
    (hclosed : ∀ e ∈ g, ∀ p ∈ e.2, p ∈ g.map Prod.fst)
    (fuel : Nat) (hloop : LoopGood g fuel) : MainGood g (fuel + 1) := by
  intro w i stack hinv hck hi hbusy hchain hfuel
  have hlen : i < w.facs.length := by
    rw [hinv.1]
    exact hi
  have hfid : (w.prov i).facId = i := (hinv.2.2.2.2.1 i hi).1
  have hreg0 : (w.prov i).reg = 0 := (hinv.2.2.2.2.1 i hi).2
  have hkind : (w.fac i).kind = .direct := (hinv.2.2.2.1 i hi).1
  have hstep : getInstance (fuel + 1) w i = directProvider (getInstance fuel) w i := by
    show giStep (getInstance fuel) w i = _
    unfold giStep
    rw [hfid, hkind]
  rw [hstep]
  unfold directProvider
  dsimp only
  by_cases hc : pyTruthy (w.prov i).inst = true
  · rw [if_pos hc]
    refine ⟨hinv, hck, fun m hm => hm, Or.inl ⟨_, rfl, fun m => rfl, ?_⟩⟩
    intro l hl
    have hnc : ∀ c, gReach g i c → ¬ gCyc g c := hck i hi hc
    refine ⟨?_, hnc l hl⟩
    by_cases hb : busyF w l = true
    · exfalso
      have hllen : l < g.length := by
        have h2 := busyF_true_lt w l hb
        rw [hinv.1] at h2
        exact h2
      rcases hbusy l hllen hb with hst | ⟨c, hrc, hcc⟩
      · have hli := (hchain l hst).1
        exact hnc l hl (Relation.TransGen.trans_left hli hl)
      · exact hnc c (Relation.ReflTransGen.trans hl hrc) hcc
    · cases hbb : busyF w l
      · rfl
      · exact absurd hbb hb
  · rw [if_neg hc]
    rw [hfid, hreg0]
    by_cases hbusyi : busyF w i = true
    · have hdeps : getDepsWith (getInstance fuel) w i ((w.fac i).fname) 0 =
          (w, .error (.recursive ((w.fac i).fname))) := by
        unfold getDepsWith
        rw [if_pos hbusyi]
      rw [hdeps]
      dsimp only
      exact ⟨hinv, hck, fun m hm => hm,
        Or.inr ⟨⟨_, rfl⟩, fun m hm hbm => Or.inl hbm,
          ⟨i, Relation.ReflTransGen.refl, Or.inr hbusyi⟩⟩⟩
    · have hbF : busyF w i = false := by
        cases hbb : busyF w i
        · rfl
        · exact absurd hbb hbusyi
      have hparams : ((setBusy w i true).fac i).params = gPr g i :=
        ((GInv_setBusy g hinv i true).2.2.2.1 i hi).2.2.1
      have hfuelL : nonBusy g (setBusy w i true) + 1 ≤ fuel := by
        have hnb := nonBusy_setBusy g w i hi hlen hbF
        omega
      have hbusyL : ∀ m, m < g.length → busyF (setBusy w i true) m = true →
          m ∈ i :: stack ∨ ∃ c, gReach g m c ∧ gCyc g c := by
        intro m hm hbm
        by_cases hmi : m = i
        · exact Or.inl (by rw [hmi]; exact List.mem_cons_self i stack)
        · rw [busyF_setBusy_ne w i true m (fun h => hmi h.symm)] at hbm
          rcases hbusy m hm hbm with hst | hcy
          · exact Or.inl (List.mem_cons_of_mem _ hst)
          · exact Or.inr hcy
      have hchainL : ∀ a, a ∈ stack →
          Relation.TransGen (gE g) a i ∧ busyF (setBusy w i true) a = true := by
        intro a ha
        refine ⟨(hchain a ha).1, ?_⟩
        by_cases hai : a = i
        · rw [hai]
          exact busyF_setBusy_self w i true hlen
        · rw [busyF_setBusy_ne w i true a (fun h => hai h.symm)]
          exact (hchain a ha).2
      have hL := hloop (gPr g i) (setBusy w i true) i stack ((w.fac i).fname)
        (GInv_setBusy g hinv i true) (CacheOK_setBusy g hck i true) hi
        (fun p hp => hp) (busyF_setBusy_self w i true hlen) hbusyL hchainL hfuelL
      rcases hres : resolveParamsWith (getInstance fuel) (setBusy w i true) (gPr g i)
          ((w.fac i).fname) 0 with ⟨w2, r2⟩
      rw [hres] at hL
      dsimp only at hL
      obtain ⟨hLGInv, hLCache, hLMono, hLCases⟩ := hL
      cases r2 with
      | error e =>
        have hdeps : getDepsWith (getInstance fuel) w i ((w.fac i).fname) 0 =
            (w2, .error e) := by
          unfold getDepsWith
          rw [if_neg hbusyi]
          dsimp only
          rw [hparams, hres]
        rw [hdeps]
        dsimp only
        rcases hLCases with ⟨vs, hvs, h1, h2⟩ | ⟨⟨s, hs⟩, hE3, hreason⟩
        · simp at hvs
        · have hse : e = .recursive s := by
            injection hs with h
          subst hse
          have iclass : (∃ c, gReach g i c ∧ gCyc g c) ∨
              (∃ a, a ∈ stack ∧ gReach g i a) := by
            obtain ⟨l, htl, hcond⟩ := hreason
            rcases hcond with hcy | hbl
            · exact Or.inl ⟨l, Relation.TransGen.to_reflTransGen htl, hcy⟩
            · by_cases hli : l = i
              · subst hli
                exact Or.inl ⟨l, Relation.ReflTransGen.refl, htl⟩
              · rw [busyF_setBusy_ne w i true l (fun h => hli h.symm)] at hbl
                have hllen : l < g.length := by
                  have h2 := busyF_true_lt w l hbl
                  rw [hinv.1] at h2
                  exact h2
                rcases hbusy l hllen hbl with hst | ⟨c, hrc, hcc⟩
                · exact Or.inr ⟨l, hst, Relation.TransGen.to_reflTransGen htl⟩
                · exact Or.inl ⟨c,
                    Relation.ReflTransGen.trans (Relation.TransGen.to_reflTransGen htl) hrc,
                    hcc⟩
          refine ⟨hLGInv, hLCache, ?_, Or.inr ⟨⟨s, rfl⟩, ?_, ?_⟩⟩
          · intro m hm
            apply hLMono
            by_cases hmi : m = i
            · rw [hmi]
              exact busyF_setBusy_self w i true hlen
            · rw [busyF_setBusy_ne w i true m (fun h => hmi h.symm)]
              exact hm
          · intro m hm hbm
            rcases hE3 m hm hbm with hb1 | h2 | ⟨a, ha, hra⟩
            · by_cases hmi : m = i
              · subst hmi
                rcases iclass with ⟨c, hrc, hcc⟩ | ⟨a, ha, hra⟩
                · exact Or.inr (Or.inl ⟨c, hrc, hcc⟩)
                · exact Or.inr (Or.inr ⟨a, ha, hra⟩)
              · rw [busyF_setBusy_ne w i true m (fun h => hmi h.symm)] at hb1
                exact Or.inl hb1
            · exact Or.inr (Or.inl h2)
            · rcases List.mem_cons.1 ha with rfl | ha2
              · rcases iclass with ⟨c, hrc, hcc⟩ | ⟨a2, ha3, hra2⟩
                · exact Or.inr (Or.inl ⟨c, Relation.ReflTransGen.trans hra hrc, hcc⟩)
                · exact Or.inr (Or.inr ⟨a2, ha3, Relation.ReflTransGen.trans hra hra2⟩)
              · exact Or.inr (Or.inr ⟨a, ha2, hra⟩)
          · obtain ⟨l, htl, hcond⟩ := hreason
            rcases hcond with hcy | hbl
            · exact ⟨l, Relation.TransGen.to_reflTransGen htl, Or.inl hcy⟩
            · by_cases hli : l = i
              · subst hli
                exact ⟨l, Relation.ReflTransGen.refl, Or.inl htl⟩
              · rw [busyF_setBusy_ne w i true l (fun h => hli h.symm)] at hbl
                exact ⟨l, Relation.TransGen.to_reflTransGen htl, Or.inr hbl⟩
      | ok vs =>
        rcases hLCases with ⟨vs2, hvs2, hrestore, hO3⟩ | ⟨⟨s, hs⟩, h1, h2⟩
        swap
        · simp at hs
        have hdeps : getDepsWith (getInstance fuel) w i ((w.fac i).fname) 0 =
            (setBusy w2 i false, .ok vs) := by
          unfold getDepsWith
          rw [if_neg hbusyi]
          dsimp only
          rw [hparams, hres]
        rw [hdeps]
        dsimp only
        have hret : (w.fac i).ret = some ⟨true, false⟩ := (hinv.2.2.2.1 i hi).2.2.2
        rw [hret, allocVal_some]
        dsimp only
        -- the target's reachable set is busy-free and cycle-free
        have hO3main : ∀ l, gReach g i l → busyF w l = false ∧ ¬ gCyc g l := by
          intro l hl
          rcases Relation.ReflTransGen.cases_head hl with heq | ⟨k, hik, hkl⟩
          · constructor
            · rw [← heq]
              exact hbF
            · rw [← heq]
              intro hcy
              rcases Relation.TransGen.head'_iff.mp hcy with ⟨c, hic, hci⟩
              have h2 := (hO3 c i hic.2.1 hic.2.2 hci).1
              rw [busyF_setBusy_self w i true hlen] at h2
              cases h2
          · have h1 := hO3 k l hik.2.1 hik.2.2 hkl
            constructor
            · by_cases hli : l = i
              · rw [hli]
                exact hbF
              · rw [busyF_setBusy_ne w i true l (fun h => hli h.symm)] at h1
                exact h1.1
            · exact h1.2
        -- busy flags fully restored
        have hw2len : i < w2.provs.length := by
          rw [hLGInv.2.1]
          exact hi
        have hw2flen : i < w2.facs.length := by
          rw [hLGInv.1]
          exact hi
        have hbusy4 : ∀ m,
            busyF (setProv (logEv { setBusy w2 i false with nextId := (setBusy w2 i false).nextId + 1 } (.callFac i vs)) i (fun q => { q with inst := PyVal.obj (setBusy w2 i false).nextId true false, fin := if (w.fac i).hasFinAttr = true then true else q.fin })) m =
            busyF w m := by
          intro m
          show busyF (setBusy w2 i false) m = busyF w m
          by_cases hmi : m = i
          · rw [hmi, busyF_setBusy_self w2 i false hw2flen, hbF]
          · rw [busyF_setBusy_ne w2 i false m (fun h => hmi h.symm)]
            rw [hrestore m, busyF_setBusy_ne w i true m (fun h => hmi h.symm)]
        have hG3 : GInv g (logEv { setBusy w2 i false with nextId := (setBusy w2 i false).nextId + 1 } (.callFac i vs)) :=
          GInv_setBusy g hLGInv i false
        have hev : Evolves (logEv { setBusy w2 i false with nextId := (setBusy w2 i false).nextId + 1 } (.callFac i vs)) (setProv (logEv { setBusy w2 i false with nextId := (setBusy w2 i false).nextId + 1 } (.callFac i vs)) i (fun q => { q with inst := PyVal.obj (setBusy w2 i false).nextId true false, fin := if (w.fac i).hasFinAttr = true then true else q.fin })) :=
          evolves_setProvFields _ i _ _ _
        have hprovlen : i < (logEv { setBusy w2 i false with nextId := (setBusy w2 i false).nextId + 1 } (.callFac i vs)).provs.length :=
          hw2len
        have hG4 : GInv g (setProv (logEv { setBusy w2 i false with nextId := (setBusy w2 i false).nextId + 1 } (.callFac i vs)) i (fun q => { q with inst := PyVal.obj (setBusy w2 i false).nextId true false, fin := if (w.fac i).hasFinAttr = true then true else q.fin })) := by
          refine GInv_evolve g hG3 hev ?_
          intro j hj
          by_cases hji : j = i
          · rw [hji, setProv_prov_self _ i _ hprovlen]
            exact Or.inr rfl
          · rw [setProv_prov_ne _ i _ j (fun h => hji h.symm)]
            exact hG3.2.2.2.2.2 j hj
        have hC4 : CacheOK g (setProv (logEv { setBusy w2 i false with nextId := (setBusy w2 i false).nextId + 1 } (.callFac i vs)) i (fun q => { q with inst := PyVal.obj (setBusy w2 i false).nextId true false, fin := if (w.fac i).hasFinAttr = true then true else q.fin })) := by
          intro j hj htr
          by_cases hji : j = i
          · rw [hji]
            intro c hrc
            exact (hO3main c hrc).2
          · rw [setProv_prov_ne _ i _ j (fun h => hji h.symm)] at htr
            exact hLCache j hj htr
        refine ⟨hG4, hC4, ?_, Or.inl ⟨_, rfl, hbusy4, hO3main⟩⟩
        intro m hm
        rw [hbusy4 m]
        exact hm

theorem main_all (g : List (String × List String))
    (hnodup : (g.map Prod.fst).Nodup)
    (hclosed : ∀ e ∈ g, ∀ p ∈ e.2, p ∈ g.map Prod.fst) :
    ∀ fuel, MainGood g fuel := by
  intro fuel
  induction fuel with
  | zero =>
    intro w i stack hinv hck hi hbusy hchain hfuel
    exact absurd hfuel (by omega)
  | succ fuel ih =>
    exact main_step g hnodup hclosed fuel (loop_step g hnodup hclosed fuel ih)

/-- **C3.** For every dependency graph (arbitrary adjacency, distinct
service names, all parameter names registered) and every member `i` of a
cycle — a direct self-reference or a transitive cycle of any length —
resolving `i` on the freshly registered world raises
`RecursiveInjectionError`; afterwards every registered service `k` whose
reachable dependencies contain no cycle still resolves normally. -/
theorem c3_cycles_error_and_spare_noncyclic (g : List (String × List String))
    (hnodup : (g.map Prod.fst).Nodup)
    (hclosed : ∀ e ∈ g, ∀ p ∈ e.2, p ∈ g.map Prod.fst)
    (i : Nat) (hi : i < g.length) (hcyc : gCyc g i) :
    ∃ w2 s, getInstance (g.length + 1) (mkGraphWorld g) i = (w2, .error (.recursive s)) ∧
      ∀ k, k < g.length → (∀ c, gReach g k c → ¬ gCyc g c) →
        ∃ w3 v, getInstance (g.length + 1) w2 k = (w3, .ok v) := by
  have hM := main_all g hnodup hclosed (g.length + 1) (mkGraphWorld g) i []
    (GInv_mk g) (CacheOK_mk g) hi
    (fun m hm hbm => absurd hbm (by rw [busyF_mk]; exact Bool.false_ne_true))
    (fun a ha => absurd ha (List.not_mem_nil a))
    (by have h2 := nonBusy_le g (mkGraphWorld g); omega)
  rcases hres : getInstance (g.length + 1) (mkGraphWorld g) i with ⟨w2, r⟩
  rw [hres] at hM
  dsimp only at hM
  obtain ⟨hG2, hC2, hMono, hCases⟩ := hM
  rcases hCases with ⟨v, hv, hrest, hO3⟩ | ⟨⟨s, hs⟩, hE3, hreason⟩
  · exact absurd hcyc (hO3 i Relation.ReflTransGen.refl).2
  · subst hs
    refine ⟨w2, s, rfl, ?_⟩
    intro k hk hknc
    have hM2 := main_all g hnodup hclosed (g.length + 1) w2 k []
      hG2 hC2 hk
      (by
        intro m hm hbm
        rcases hE3 m hm hbm with hb | hcy2 | ⟨a, ha, h2⟩
        · rw [busyF_mk] at hb
          cases hb
        · exact Or.inr hcy2
        · exact absurd ha (List.not_mem_nil a))
      (fun a ha => absurd ha (List.not_mem_nil a))
      (by have h2 := nonBusy_le g w2; omega)
    rcases hres2 : getInstance (g.length + 1) w2 k with ⟨w3, r2⟩
    rw [hres2] at hM2
    dsimp only at hM2
    rcases hM2.2.2.2 with ⟨v, hv, h1, h2⟩ | ⟨⟨s2, hs2⟩, hE3b, hreason2⟩
    · refine ⟨w3, v, ?_⟩
      rw [hv]
    · exfalso
      obtain ⟨l, hrl, hcond⟩ := hreason2
      rcases hcond with hcy2 | hbl
      · exact hknc l hrl hcy2
      · have hllen : l < g.length := by
          have h2 := busyF_true_lt w2 l hbl
          rw [hG2.1] at h2
          exact h2
        rcases hE3 l hllen hbl with hb | ⟨c, hrc, hcc⟩ | ⟨a, ha, h2⟩
        · rw [busyF_mk] at hb
          cases hb
        · exact hknc c (Relation.ReflTransGen.trans hrl hrc) hcc
        · exact absurd ha (List.not_mem_nil a)

instance (g : List (String × List String)) (i j : Nat) : Decidable (gE g i j) :=
  decidable_of_iff (i < g.length ∧ j < g.length ∧ gNm g j ∈ gPr g i) Iff.rfl

/-- The two-cycle `a ↔ b` plus the isolated service `c`. -/
def gC3 : List (String × List String) := [("a", ["b"]), ("b", ["a"]), ("c", [])]

theorem gC3_noncyclic_two : ∀ c, gReach gC3 2 c → ¬ gCyc gC3 c := by
  intro c hrc
  have hc2 : c = 2 := by
    rcases Relation.ReflTransGen.cases_head hrc with heq | ⟨b, hb, h2⟩
    · exact heq.symm
    · exact absurd hb.2.2 (by rw [show gPr gC3 2 = [] from rfl]; exact List.not_mem_nil _)
  subst hc2
  intro hcy
  rcases Relation.TransGen.head'_iff.mp hcy with ⟨b, hb, h2⟩
  exact absurd hb.2.2 (by rw [show gPr gC3 2 = [] from rfl]; exact List.not_mem_nil _)

theorem c3_cycles_error_and_spare_noncyclic_witness :
    ∃ w2 s, getInstance 4 (mkGraphWorld gC3) 0 = (w2, .error (.recursive s)) ∧
      ∃ w3 v, getInstance 4 w2 2 = (w3, .ok v) := by
  obtain ⟨w2, s, herr, hrest⟩ := c3_cycles_error_and_spare_noncyclic gC3 (by decide)
    (by decide) 0 (by decide)
    (Relation.TransGen.head (show gE gC3 0 1 by decide)
      (Relation.TransGen.single (show gE gC3 1 0 by decide)))
  obtain ⟨w3, v, hok⟩ := hrest 2 (by decide) gC3_noncyclic_two
  exact ⟨w2, s, herr, w3, v, hok⟩

end PyInject
